import Mathlib

/-!
# Verification of the OpenRTX A/B settings storage and NVM access layer

Shallow embedding of the settings-store code (`settings_storage_init`,
`settings_storage_load`, `settings_storage_save`, `find_latest_valid_store`,
`parse_partition`, `read_store`, `write_store`, `check_store_integrity`,
`default_settings_store`, `update_settings_store`) and of the NVM access
layer (`nvm_getPart`, `nvm_read`, `nvm_write`, `nvm_erase`).

Modelling conventions:
* bytes are `Nat` values (< 256 where it matters), memory is `List Nat`;
* `size_t` and `uint32_t` are modelled as `Nat` with explicit `% 2^32`
  where the C arithmetic can wrap, `uint16_t` fields with `% 2^16`;
* fallible C functions returning a negative errno become `Except NvmErr`;
* the two C loops (`parse_partition`, `find_latest_valid_store`) are
  modelled with explicit fuel, since the C loops do not terminate on all
  inputs; `none` denotes fuel exhaustion (a diverging C loop);
* the settings layer is modelled over the two partition byte arrays
  directly: the access layer resolves `(dev, part)` to a disjoint
  partition region of the device, so a partition is an isolated byte
  array with the access-layer bounds check `(offset + len) > size`;
* the NVM backend is an in-memory byte array whose `read`/`write` hooks
  always succeed (write granularity 1) and whose erase is supported;
  an erase is serialised as one 0xFF byte write per erased byte, which
  is exactly the manual 0xFF fallback loop of `write_store` and refines
  byte-granular power-loss truncation of a physical sector erase.
-/

/-- Error codes used by the modelled code (negated errno values in C). -/
inductive NvmErr where
  | EINVAL
  | ENOENT
  | EILSEQ
  | E2BIG
  | ENOTSUP
  deriving DecidableEq, Repr

abbrev Bytes := List Nat

/-- Identifies one of the two settings partitions (`part_A` / `part_B`). -/
inductive PartId where
  | A
  | B
  deriving DecidableEq, Repr

/-- `SETTINGS_MAGIC = 0x584E504F` ("OPNX"). -/
def SETTINGS_MAGIC : Nat := 0x584E504F

/-- All-ones word read back from erased flash. -/
def ERASED_WORD : Nat := 0xFFFFFFFF

/-- `sizeof(settings_t)` for the packed settings struct of `core/settings.h`
(6 scalar bytes, 10-byte callsign, 2 bitfield bytes, 1 flag byte,
10-byte m17_dest, 2 flag bytes). -/
def SETTINGS_SIZE : Nat := 31

/-- `sizeof(settings_store_t)`: magic(4) + length(2) + counter(2) +
settings(31) + crc(2). -/
def STORE_SIZE : Nat := 41

/-- Byte image of `default_settings` from `core/settings.h` (GCC packed
little-endian bitfield layout: `display_timer` = TIMER_30S = 6 in the low
nibble; `macroMenuLatch` = 1 is bit 4 of the second bitfield byte). -/
def default_settings : Bytes :=
  [100, 255, 4, 0, 0, 0,
   0, 0, 0, 0, 0, 0, 0, 0, 0, 0,
   6, 16, 0,
   0, 0, 0, 0, 0, 0, 0, 0, 0, 0,
   0, 0]

/-- Little-endian 16-bit encoding. -/
def le16 (n : Nat) : Bytes := [n % 256, n / 256 % 256]

/-- Little-endian 32-bit encoding. -/
def le32 (n : Nat) : Bytes :=
  [n % 256, n / 256 % 256, n / 65536 % 256, n / 16777216 % 256]

/-- Decode 2 little-endian bytes (extra bytes ignored). -/
def dec16 (b : Bytes) : Nat := b.getD 0 0 + 256 * b.getD 1 0

/-- Decode 4 little-endian bytes (extra bytes ignored). -/
def dec32 (b : Bytes) : Nat :=
  b.getD 0 0 + 256 * b.getD 1 0 + 65536 * b.getD 2 0 + 16777216 * b.getD 3 0

/-- One step of CRC-16/CCITT-FALSE over one byte, MSB first.
Modelled from the spec: the `crc_ccitt` helper of `core/crc.h` is not in
the sources; the spec fixes polynomial 0x1021 and the test vector
`crc("123456789") = 0x29B1`, i.e. initial value 0xFFFF, no reflection. -/
def crcByte (crc b : Nat) : Nat :=
  let crc := (crc ^^^ (b <<< 8)) &&& 0xFFFF
  (List.range 8).foldl
    (fun c _ => if c &&& 0x8000 ≠ 0 then ((c <<< 1) ^^^ 0x1021) &&& 0xFFFF
                else (c <<< 1) &&& 0xFFFF) crc

/-- CRC-16/CCITT over a byte string. Modelled from the spec: the
`crc_ccitt` helper itself is not among the source files (only callers
are); per spec §6/§8 it is CRC-16/CCITT, polynomial 0x1021, with the
reference value 0x29B1 on ASCII "123456789" (initial value 0xFFFF). -/
def crc_ccitt (data : Bytes) : Nat := data.foldl crcByte 0xFFFF

/-- In-memory `settings_store_t`. -/
structure Store where
  magic : Nat
  length : Nat
  counter : Nat
  settings : Bytes
  crc : Nat
  deriving DecidableEq, Repr

/-- Packed on-disk byte image of a `settings_store_t`. -/
def storeBytes (s : Store) : Bytes :=
  le32 s.magic ++ le16 s.length ++ le16 s.counter ++ s.settings ++ le16 s.crc

/-- Uninitialised stack memory for a `settings_store_t` local variable
(the C code reads it only after `read_store` has filled it on the paths
we reason about; we pick all-zero as the junk value). -/
def junkStore : Store :=
  { magic := 0, length := 0, counter := 0,
    settings := List.replicate SETTINGS_SIZE 0, crc := 0 }

/-- `settings_storage_s` (the storage handle).  The `dev`/`part_A`/`part_B`
NVM indices are dropped: partitions are addressed by `PartId` and the
flash model carries the two partition arrays directly. -/
structure Handle where
  part_A_offset : Nat
  part_B_offset : Nat
  latest_store : Store
  initialized : Bool
  write_needed : Bool
  part_A_status : Int
  part_B_status : Int
  deriving DecidableEq, Repr

/-- The two settings partitions of the NVM area. -/
structure Flash where
  pa : Bytes
  pb : Bytes
  deriving DecidableEq, Repr

def Flash.get (fl : Flash) : PartId → Bytes
  | .A => fl.pa
  | .B => fl.pb

def Flash.set (fl : Flash) : PartId → Bytes → Flash
  | .A, p => { fl with pa := p }
  | .B, p => { fl with pb := p }

/-- `nvm_read` restricted to one resolved partition: bounds check
`(offset + len) > np.size` in 32-bit `size_t` arithmetic, then the
backend read returns the bytes. -/
def readPart (p : Bytes) (off len : Nat) : Except NvmErr Bytes :=
  if (off + len) % 2 ^ 32 > p.length then .error .EINVAL
  else .ok ((p.drop off).take len)

/-- `nvm_write` restricted to one resolved partition (backend write
granularity 1, always succeeds within bounds). -/
def writePart (p : Bytes) (off : Nat) (data : Bytes) : Except NvmErr Bytes :=
  if (off + data.length) % 2 ^ 32 > p.length then .error .EINVAL
  else .ok (p.take off ++ data ++ p.drop (off + data.length))

/-- `nvm_erase` of the whole partition (backend erase supported): all
bytes become 0xFF. -/
def erasePart (p : Bytes) : Bytes := List.replicate p.length 0xFF

/-- `default_settings_store`: a valid store with counter 0, default
settings, and the CRC over the first `sizeof(settings_store_t) - 2`
struct bytes. -/
def default_settings_store : Store :=
  let s : Store := { magic := SETTINGS_MAGIC, length := STORE_SIZE,
                     counter := 0, settings := default_settings, crc := 0 }
  { s with crc := crc_ccitt ((storeBytes s).take (STORE_SIZE - 2)) }

/-- `update_settings_store`: bump the 16-bit counter, refresh length,
settings and CRC. -/
def update_settings_store (settings : Bytes) (store : Store) : Store :=
  let s : Store := { store with counter := (store.counter + 1) % 2 ^ 16, length := STORE_SIZE, settings := settings }
  { s with crc := crc_ccitt ((storeBytes s).take (STORE_SIZE - 2)) }

/-- `check_store_integrity`: 0 = corrupt, 1 = valid, -1 = valid but stale.
The CRC is recomputed over the first `length - 2` struct bytes. -/
def check_store_integrity (store : Store) : Int :=
  if store.magic ≠ SETTINGS_MAGIC then 0
  else if store.length > STORE_SIZE then 0
  else
    let stale := store.length ≠ STORE_SIZE
    if store.crc = crc_ccitt ((storeBytes store).take (store.length - 2)) then
      (if stale then -1 else 1)
    else 0

/-- `store->length - 10` computed in 32-bit `size_t` arithmetic (wraps
for on-disk lengths below 10). -/
def staleLen (l : Nat) : Nat := if l ≥ 10 then l - 10 else l + 2 ^ 32 - 10

/-- `read_store`: read the 8-byte header, then either the full remainder
(current length), or — for shorter stale frames — the settings prefix over
defaults plus the trailing CRC. Lengths above the current size fail `E2BIG`. -/
def read_store (p : Bytes) (offset : Nat) : Except NvmErr Store := do
  let hdr ← readPart p offset 8
  let magic := dec32 hdr
  let length := dec16 (hdr.drop 4)
  let counter := dec16 (hdr.drop 6)
  if length = STORE_SIZE then do
    let rest ← readPart p (offset + 8) (STORE_SIZE - 8)
    .ok { magic := magic, length := length, counter := counter,
          settings := rest.take SETTINGS_SIZE,
          crc := dec16 (rest.drop SETTINGS_SIZE) }
  else if length < STORE_SIZE then do
    let stgs ← readPart p (offset + 8) (staleLen length)
    let crcb ← readPart p (offset + length - 2) 2
    .ok { magic := magic, length := length, counter := counter,
          settings := stgs ++ default_settings.drop stgs.length,
          crc := dec16 crcb }
  else .error .E2BIG

/-- The loop of `parse_partition`.  Arguments mirror the C locals:
current `offset`, `prev_offset`, the last magic word read (none before the
first read), and explicit fuel; `none` is a diverging loop. -/
def parseAux (p : Bytes) (limit : Nat) :
    Nat → Nat → Option Nat → Nat → Option (Except NvmErr Nat)
  | _, _, _, 0 => none
  | offset, prev, lastMagic, fuel + 1 =>
    if offset < limit then
      match readPart p offset 6 with
      | .error e => some (.error e)
      | .ok buf =>
        if dec32 buf ≠ SETTINGS_MAGIC then
          -- break: post-loop checks with the word (`*magic`) just read
          if dec32 buf ≠ ERASED_WORD then some (.error .EILSEQ)
          else if offset = prev then some (.error .ENOENT)
          else some (.ok prev)
        else
          parseAux p limit ((offset + dec16 (buf.drop 4)) % 2 ^ 32) offset
            (some (dec32 buf)) fuel
    else
      -- loop condition failed: post-loop checks with the last word read
      if lastMagic ≠ some ERASED_WORD then some (.error .EILSEQ)
      else if offset = prev then some (.error .ENOENT)
      else some (.ok prev)

/-- `parse_partition`: walk the frame chain from offset 0 up to `limit`.
Fuel `limit + 1` covers every terminating execution in which each
traversed frame has a nonzero length field (the offset then strictly
increases). -/
def parse_partition (p : Bytes) (limit : Nat) : Option (Except NvmErr Nat) :=
  parseAux p limit 0 0 none (limit + 1)

/-- `end_lim -= store->length` in 32-bit `size_t` arithmetic. -/
def subWrap (a b : Nat) : Nat :=
  if b ≤ a then a - b else a + 2 ^ 32 - b % 2 ^ 32

/-- The loop of `find_latest_valid_store`: state is `end_lim`, the store
buffer, the `*offset` output, and fuel. Returns the C status
(0 corrupt / 1 empty / 2 stale / 3 valid) with the store buffer and the
free-space offset. -/
def flvsAux (p : Bytes) :
    Nat → Store → Nat → Nat → Option (Except NvmErr (Nat × Store × Nat))
  | _, _, _, 0 => none
  | endLim, buf, offOut, fuel + 1 =>
    if endLim = 0 then some (.ok (0, buf, offOut))
    else
      match parse_partition p endLim with
      | none => none
      | some (.error .EILSEQ) => some (.ok (0, buf, offOut))
      | some (.error .ENOENT) => some (.ok (1, buf, offOut))
      | some (.error e) => some (.error e)
      | some (.ok readOffset) =>
        match read_store p readOffset with
        | .error e => some (.error e)
        | .ok store =>
          match check_store_integrity store with
          | 1 => some (.ok (3, store, if offOut = 0 then readOffset + store.length else offOut))
          | -1 => some (.ok (2, store, if offOut = 0 then readOffset + store.length else offOut))
          | _ => flvsAux p (subWrap endLim store.length) store
                   (if offOut = 0 then readOffset + store.length else offOut) fuel

/-- `find_latest_valid_store` over one partition.  Fuel `p.length + 1`
covers every execution reachable from the settings code (each loop turn
decreases `end_lim` by at least 10). -/
def find_latest_valid_store (p : Bytes) :
    Option (Except NvmErr (Nat × Store × Nat)) :=
  flvsAux p p.length junkStore 0 (p.length + 1)

/-- Write events issued by `write_store`, in order.  An `erase` is the
whole-partition erase; its physical byte stream is one 0xFF byte per
address from 0 upward. -/
inductive Ev where
  | write (part : PartId) (off : Nat) (data : Bytes)
  | erase (part : PartId) (size : Nat)
  deriving DecidableEq, Repr

/-- `write_store`: erase the partition when asked or when the frame does
not fit, then append the frame at `offset` and advance it. Returns the
new partition content, the new offset and the device write log. -/
def write_store (pid : PartId) (p : Bytes) (store : Store) (offset : Nat)
    (erase : Bool) : Except NvmErr (Bytes × Nat × List Ev) :=
  let psize := p.length
  let erase := erase || decide (offset + STORE_SIZE > psize)
  let (p, offset, evs) :=
    if erase then (erasePart p, 0, [Ev.erase pid psize]) else (p, offset, [])
  match writePart p offset (storeBytes store) with
  | .error e => .error e
  | .ok p' => .ok (p', offset + STORE_SIZE, evs ++ [Ev.write pid offset (storeBytes store)])

/-- `settings_storage_init`: reset `initialized` and load the default
store; the other handle fields are left as found (the C function does not
touch them). Always returns 0 in the model (`default_settings_store`
cannot fail on a non-null pointer). -/
def settings_storage_init (h : Handle) : Handle :=
  { h with initialized := false, latest_store := default_settings_store }

/-- `settings_storage_load`.  `buf` is the caller's `settings_t` buffer;
the returned bytes are that buffer's content after the call.  The C
function copies `latest_store.settings` into the caller's buffer only on
the already-initialized path (the `memcpy` in the `if (s->initialized)`
branch); every first-load path scans the partitions, caches the chosen
frame in the handle and returns 0 leaving the caller's buffer untouched.
`none` if a partition scan diverges. -/
def settings_storage_load (h : Handle) (fl : Flash) (buf : Bytes) :
    Option (Except NvmErr (Handle × Bytes)) :=
  if h.initialized then some (.ok (h, h.latest_store.settings))
  else
    match find_latest_valid_store fl.pa with
    | none => none
    | some (.error e) => some (.error e)
    | some (.ok (retA, storeA, offsetA)) =>
      let h := if retA = 0 then { h with part_A_status := -1 }
               else if retA = 1 then { h with part_A_offset := 0, part_A_status := 0 }
               else { h with part_A_offset := offsetA, part_A_status := 1 }
      let staleA := retA = 2
      match find_latest_valid_store fl.pb with
      | none => none
      | some (.error e) => some (.error e)
      | some (.ok (retB, storeB, offsetB)) =>
        let h := if retB = 0 then { h with part_B_status := -1 }
                 else if retB = 1 then { h with part_B_offset := 0, part_B_status := 0 }
                 else { h with part_B_offset := offsetB, part_B_status := 1 }
        let staleB := retB = 2
        if h.part_A_status ≤ (0 : Int) then
          if h.part_B_status = (1 : Int) then
            some (.ok ({ h with latest_store := storeB, initialized := true, write_needed := staleB }, buf))
          else
            -- both partitions corrupt or empty: defaults, write_needed
            some (.ok ({ h with latest_store := default_settings_store, initialized := true, write_needed := true }, buf))
        else
          if h.part_B_status = (1 : Int) then
            if storeA.counter ≥ storeB.counter then
              some (.ok ({ h with latest_store := storeA, initialized := true, write_needed := staleA }, buf))
            else
              some (.ok ({ h with latest_store := storeB, initialized := true, write_needed := staleB }, buf))
          else
            some (.ok ({ h with latest_store := storeA, initialized := true, write_needed := staleA }, buf))

/-- `settings_storage_save`.  Returns the updated handle, flash and the
device write log of this call. -/
def settings_storage_save (h : Handle) (fl : Flash) (settings : Bytes) :
    Except NvmErr (Handle × Flash × List Ev) :=
  let h :=
    if h.latest_store.settings ≠ settings ∨ h.write_needed then
      { h with latest_store := update_settings_store settings h.latest_store, write_needed := true }
    else h
  if h.write_needed then
    if h.latest_store.counter % 2 = 1 then
      match write_store .B fl.pb h.latest_store h.part_B_offset
          (h.part_B_status = -1) with
      | .error e => .error e
      | .ok (pb', off', evs) =>
        .ok ({ h with part_B_offset := off', part_B_status := 1, write_needed := false }, { fl with pb := pb' }, evs)
    else
      match write_store .A fl.pa h.latest_store h.part_A_offset
          (h.part_A_status = -1) with
      | .error e => .error e
      | .ok (pa', off', evs) =>
        .ok ({ h with part_A_offset := off', part_A_status := 1, write_needed := false }, { fl with pa := pa' }, evs)
  else
    .ok ({ h with write_needed := false }, fl, [])

/-! ## Common scenario material -/

/-- A zero-initialised `settings_storage_t` (the C callers allocate the
handle in zeroed memory, cf. the round-trip scenario). -/
def zeroHandle : Handle :=
  { part_A_offset := 0, part_B_offset := 0, latest_store := junkStore,
    initialized := false, write_needed := false,
    part_A_status := 0, part_B_status := 0 }

/-- Two fully erased partitions of the given sizes. -/
def emptyFlash (psA psB : Nat) : Flash :=
  { pa := List.replicate psA 0xFF, pb := List.replicate psB 0xFF }

/-- The partitions targeted by the `nvm_write` calls of a device log,
in order (erases are not frame writes). -/
def writeTargets (log : List Ev) : List PartId :=
  log.filterMap fun e => match e with
    | .write p _ _ => some p
    | .erase _ _ => none

/-- The partition selected by the save path for a given counter value:
odd counters go to B, even ones to A. -/
def parityTarget (c : Nat) : PartId := if c % 2 = 1 then .B else .A

/-- A well-formed valid frame for a given counter and payload, as
produced by `update_settings_store`. -/
def mkValidStore (c : Nat) (stg : Bytes) : Store :=
  let s : Store := { magic := SETTINGS_MAGIC, length := STORE_SIZE, counter := c, settings := stg, crc := 0 }
  { s with crc := crc_ccitt ((storeBytes s).take (STORE_SIZE - 2)) }

deriving instance DecidableEq for Except

/-- Scenario frames for the tie-break claim: both partitions hold one
valid frame with counter 7 and different payloads. -/
def c5storeA : Store := mkValidStore 7 (List.replicate 31 20)

def c5storeB : Store := mkValidStore 7 (List.replicate 31 21)

def c5flash : Flash :=
  { pa := storeBytes c5storeA ++ List.replicate 6 0xFF,
    pb := storeBytes c5storeB ++ List.replicate 6 0xFF }

/-- Scenario flash for the torn-write claim: partition A holds a VALID
frame with counter 10, partition B a full-length frame with correct magic
and length, counter 11, but a wrong CRC. -/
def c4storeA : Store := mkValidStore 10 (List.replicate 31 7)

def c4storeB : Store := { mkValidStore 11 (List.replicate 31 9) with crc := 1234 }

def c4flash : Flash :=
  { pa := storeBytes c4storeA ++ List.replicate 6 0xFF,
    pb := storeBytes c4storeB ++ List.replicate 6 0xFF }

/-- Scenario partition for the corrupt-tail claim: one valid frame
(counter 1), then a full-length frame with correct magic and length but a
wrong CRC (counter 2), then erased space (partition size 94). -/
def c3goodStore : Store := mkValidStore 1 (List.replicate 31 30)

def c3tailStore : Store := { mkValidStore 2 (List.replicate 31 33) with crc := 99 }

def c3part : Bytes :=
  storeBytes c3goodStore ++ storeBytes c3tailStore ++ List.replicate 12 0xFF

/-- Partition content on which the `parse_partition` loop never
terminates: a header with the settings magic and a zero length field. -/
def c9content : Bytes := [79, 80, 78, 88, 0, 0] ++ List.replicate 10 0xFF

/-- A one-frame partition on which `parse_partition` terminates: magic,
length 41, counter 1, 31 payload bytes of 12, CRC bytes, then erased
space. -/
def c9goodPart : Bytes :=
  [79, 80, 78, 88, 41, 0, 1, 0] ++ List.replicate 31 12 ++
    [9, 85] ++ List.replicate 6 0xFF

/-! ## NVM access layer (`core/nvmem_access.c`) -/

/-- `struct nvmPartition`. -/
structure nvmPartition where
  offset : Nat
  size : Nat
  deriving DecidableEq, Repr

/-- `struct nvmDescriptor` together with its backend device: an in-memory
byte array whose read hook always succeeds (reads past the end yield
erased 0xFF bytes) and whose write hook has granularity 1. -/
structure nvmDescriptor where
  size : Nat
  nbPart : Nat
  partitions : List nvmPartition
  baseAddr : Nat
  mem : Bytes
  deriving DecidableEq, Repr

/-- `nvm_getDesc`: NULL when the area index is out of range. -/
def nvm_getDesc (tab : List nvmDescriptor) (idx : Nat) : Option nvmDescriptor :=
  tab.get? idx

/-- `nvm_getPart`: partition 0 is the whole device; indices 1..nbPart
select the table entry (the C code indexes `partitions[part - 1]`
unconditionally, assuming a table with `nbPart` entries). -/
def nvm_getPart (tab : List nvmDescriptor) (idx part : Nat) :
    Except NvmErr nvmPartition :=
  match nvm_getDesc tab idx with
  | none => .error .EINVAL
  | some d =>
    if part = 0 then .ok { offset := 0, size := d.size }
    else if part > d.nbPart then .error .EINVAL
    else .ok (d.partitions.getD (part - 1) { offset := 0, size := 0 })

/-- Backend read hook of the in-memory device. -/
def devRead (mem : Bytes) (addr len : Nat) : Bytes :=
  (List.range len).map fun i => mem.getD (addr + i) 0xFF

/-- Backend write hook of the in-memory device (granularity 1; bytes
outside the array are dropped). -/
def devWrite (mem : Bytes) (addr : Nat) (data : Bytes) : Bytes :=
  mem.mapIdx fun i b =>
    if addr ≤ i ∧ i < addr + data.length then data.getD (i - addr) b else b

/-- `nvm_read`: resolve the partition, bounds-check
`(offset + len) > np.size` in 32-bit unsigned arithmetic, then read at
`baseAddr + np.offset + offset`. -/
def nvm_read (tab : List nvmDescriptor) (idx part offset len : Nat) :
    Except NvmErr Bytes :=
  match nvm_getPart tab idx part with
  | .error e => .error e
  | .ok np =>
    if (offset + len) % 2 ^ 32 > np.size then .error .EINVAL
    else
      match nvm_getDesc tab idx with
      | none => .error .EINVAL
      | some d =>
        .ok (devRead d.mem ((d.baseAddr + (offset + np.offset) % 2 ^ 32) % 2 ^ 32) len)

/-- `nvm_write` (same checks as `nvm_read`). -/
def nvm_write (tab : List nvmDescriptor) (idx part offset : Nat) (data : Bytes) :
    Except NvmErr (List nvmDescriptor) :=
  match nvm_getPart tab idx part with
  | .error e => .error e
  | .ok np =>
    if (offset + data.length) % 2 ^ 32 > np.size then .error .EINVAL
    else
      match nvm_getDesc tab idx with
      | none => .error .EINVAL
      | some d =>
        .ok (tab.set idx
          { d with mem := devWrite d.mem ((d.baseAddr + (offset + np.offset) % 2 ^ 32) % 2 ^ 32) data })

/-- `nvm_erase` (same checks; erased bytes read back as 0xFF). -/
def nvm_erase (tab : List nvmDescriptor) (idx part offset size : Nat) :
    Except NvmErr (List nvmDescriptor) :=
  match nvm_getPart tab idx part with
  | .error e => .error e
  | .ok np =>
    if (offset + size) % 2 ^ 32 > np.size then .error .EINVAL
    else
      match nvm_getDesc tab idx with
      | none => .error .EINVAL
      | some d =>
        .ok (tab.set idx
          { d with mem := devWrite d.mem ((d.baseAddr + (offset + np.offset) % 2 ^ 32) % 2 ^ 32) (List.replicate size 0xFF) })

/-- Concrete area table for the bounds scenarios: one area of size 100
with one 16-byte partition at offset 0. -/
def c8tab : List nvmDescriptor :=
  [{ size := 100, nbPart := 1, partitions := [{ offset := 0, size := 16 }],
     baseAddr := 0, mem := List.replicate 100 0 }]

/-- Well-formed full-length frame: current magic and length, 16-bit
counter and CRC fields, and a 31-byte settings payload of bytes. -/
def wfFrame (s : Store) : Prop :=
  s.magic = SETTINGS_MAGIC ∧ s.length = STORE_SIZE ∧ s.counter < 2 ^ 16 ∧
  s.crc < 2 ^ 16 ∧ s.settings.length = SETTINGS_SIZE ∧ ∀ b ∈ s.settings, b < 256

instance (s : Store) : Decidable (wfFrame s) := by
  unfold wfFrame
  infer_instance

/-- A chain of frames laid out back to back from offset 0. -/
def chainBytes (cs : List Store) : Bytes := (cs.map storeBytes).join

/-! ## Save sequences, physical write streams and truncation -/

/-- Apply a sequence of saves, stopping at the first error. -/
def runSaves (h : Handle) (fl : Flash) : List Bytes → Except NvmErr (Handle × Flash)
  | [] => .ok (h, fl)
  | S :: ss =>
    match settings_storage_save h fl S with
    | .error e => .error e
    | .ok (h', fl', _) => runSaves h' fl' ss

/-- The physical byte stream of one device operation: one byte write per
address, in address order (an erase writes 0xFF over the partition). -/
def evBytes : Ev → List (PartId × Nat × Nat)
  | .write p off data => (List.range data.length).map fun i => (p, off + i, data.getD i 0)
  | .erase p size => (List.range size).map fun i => (p, i, 0xFF)

/-- The physical byte stream of a device log. -/
def logBytes (log : List Ev) : List (PartId × Nat × Nat) := (log.map evBytes).join

/-- Apply one physical byte write to the flash state. -/
def applyByte (fl : Flash) (w : PartId × Nat × Nat) : Flash :=
  fl.set w.1 ((fl.get w.1).set w.2.1 w.2.2)

/-- Flash state left by a power loss after the first `t` bytes of the
log's physical byte stream. -/
def truncFlash (fl : Flash) (log : List Ev) (t : Nat) : Flash :=
  ((logBytes log).take t).foldl applyByte fl

/-- Decode a 41-byte block as a `settings_store_t`. -/
def decodeStore (b : Bytes) : Store :=
  { magic := dec32 b, length := dec16 (b.drop 4), counter := dec16 (b.drop 6),
    settings := (b.drop 8).take SETTINGS_SIZE, crc := dec16 (b.drop 39) }

/-- The frame read back after a frame write torn at byte `s`: the written
prefix followed by erased 0xFF bytes. -/
def tornStore (F : Store) (s : Nat) : Store :=
  decodeStore ((storeBytes F).take s ++ List.replicate (STORE_SIZE - s) 255)

/-- A settings payload acceptable to the store. -/
def validPayload (S : Bytes) : Prop :=
  S.length = SETTINGS_SIZE ∧ ∀ b ∈ S, b < 256

/-- One partition's content is a chain of valid well-formed frames
followed by at least 6 bytes of erased space. -/
def PartInv (p : Bytes) (cs : List Store) (ps : Nat) : Prop :=
  p = chainBytes cs ++ List.replicate (ps - STORE_SIZE * cs.length) 255 ∧
  STORE_SIZE * cs.length + 6 ≤ ps ∧
  (∀ s ∈ cs, wfFrame s ∧ check_store_integrity s = 1)

/-- State invariant after a successful sequence of at most `n` saves from
a freshly initialised handle over an initially erased A/B store.  The
cached counter equals the number of effective saves; the parity-selected
current partition is topped by the cached frame, and the other partition
is topped by the previous frame (when it exists). -/
def StInv (psA psB n : Nat) (h : Handle) (fl : Flash) : Prop :=
  ∃ csA csB,
    PartInv fl.pa csA psA ∧ PartInv fl.pb csB psB ∧
    h.part_A_offset = STORE_SIZE * csA.length ∧
    h.part_B_offset = STORE_SIZE * csB.length ∧
    h.write_needed = false ∧
    h.initialized = false ∧
    wfFrame h.latest_store ∧
    ¬ h.part_A_status = -1 ∧ ¬ h.part_B_status = -1 ∧
    h.latest_store.counter ≤ n ∧
    (h.latest_store.counter = 0 →
      csA = [] ∧ csB = [] ∧ h.latest_store = default_settings_store) ∧
    (h.latest_store.counter ≠ 0 →
      check_store_integrity h.latest_store = 1 ∧
      ((h.latest_store.counter % 2 = 1 →
          csB ≠ [] ∧ csB.getLastD junkStore = h.latest_store ∧
          (h.latest_store.counter = 1 → csA = []) ∧
          (h.latest_store.counter ≠ 1 → csA ≠ [] ∧
            (csA.getLastD junkStore).counter = h.latest_store.counter - 1)) ∧
       (¬ h.latest_store.counter % 2 = 1 →
          csA ≠ [] ∧ csA.getLastD junkStore = h.latest_store ∧
          csB ≠ [] ∧ (csB.getLastD junkStore).counter = h.latest_store.counter - 1)))

/-- Payload of the CRC-collision counterexample: the frame for this
payload, torn at byte 37, reads back with CRC field 0xFFFF, which happens
to equal the CRC-16 of its first 39 read-back bytes. -/
def c1payload : Bytes :=
  [1, 0, 0, 0, 0, 0, 0, 0, 0, 0, 0, 0, 0, 0, 0, 0,
   0, 0, 0, 0, 0, 0, 0, 0, 0, 0, 0, 225, 229, 0, 0]

/-- The garbage payload handed back by `load` in the CRC-collision
scenario: the first 29 payload bytes of `c1payload` followed by two
erased 0xFF bytes. -/
def c1garbage : Bytes :=
  [1, 0, 0, 0, 0, 0, 0, 0, 0, 0, 0, 0, 0, 0, 0, 0,
   0, 0, 0, 0, 0, 0, 0, 0, 0, 0, 0, 225, 229, 255, 255]

@[simp]
theorem update_settings_store_settings (S : Bytes) (st : Store) :
    (update_settings_store S st).settings = S := rfl

@[simp]
theorem update_settings_store_counter (S : Bytes) (st : Store) :
    (update_settings_store S st).counter = (st.counter + 1) % 2 ^ 16 := rfl

/-! ## C10: postcondition of a successful save -/

/-- Helper: postcondition of every successful save. -/
theorem save_post (h : Handle) (fl : Flash) (S : Bytes)
    (h' : Handle) (fl' : Flash) (log : List Ev)
    (hs : settings_storage_save h fl S = .ok (h', fl', log)) :
    h'.write_needed = false ∧ h'.latest_store.settings = S := by
  simp only [settings_storage_save] at hs
  by_cases hcond : h.latest_store.settings ≠ S ∨ h.write_needed = true
  · simp only [if_pos hcond] at hs
    split at hs
    · split at hs
      · split at hs
        · cases hs
        · cases hs
          exact ⟨rfl, rfl⟩
      · split at hs
        · cases hs
        · cases hs
          exact ⟨rfl, rfl⟩
    · cases hs
      exact ⟨rfl, rfl⟩
  · simp only [if_neg hcond] at hs
    push_neg at hcond
    obtain ⟨hset, hwn⟩ := hcond
    rw [if_neg hwn] at hs
    cases hs
    exact ⟨rfl, hset⟩

/-- C10: whenever `settings_storage_save` returns 0, the handle afterwards
has `write_needed == false` and `latest_store.settings` byte-for-byte equal
to the payload passed in, whether or not a physical NVM write occurred. -/
theorem C10_save_postcondition (h : Handle) (fl : Flash) (S : Bytes)
    (h' : Handle) (fl' : Flash) (log : List Ev)
    (hs : settings_storage_save h fl S = .ok (h', fl', log)) :
    h'.write_needed = false ∧ h'.latest_store.settings = S :=
  save_post h fl S h' fl' log hs

/-- Witness for C10 at a concrete input. -/
theorem C10_save_postcondition_witness :
    ∃ h' fl' log,
      settings_storage_save (settings_storage_init zeroHandle)
        (emptyFlash 47 47) (List.replicate 31 3) = .ok (h', fl', log) ∧
      h'.write_needed = false ∧
      h'.latest_store.settings = List.replicate 31 3 := by
  have hsome : (settings_storage_save (settings_storage_init zeroHandle)
      (emptyFlash 47 47) (List.replicate 31 3)).toOption.isSome = true := by decide
  cases heq : settings_storage_save (settings_storage_init zeroHandle)
      (emptyFlash 47 47) (List.replicate 31 3) with
  | error e => rw [heq] at hsome; simp [Except.toOption] at hsome
  | ok r =>
    obtain ⟨h', fl', log⟩ := r
    exact ⟨h', fl', log, rfl, C10_save_postcondition _ _ _ _ _ _ heq⟩

/-! ## C7: partition selection by counter parity -/

/-- Helper: a successful `write_store` logs exactly one frame write, to
the requested partition. -/
theorem write_store_targets (pid : PartId) (p : Bytes) (store : Store)
    (off : Nat) (er : Bool) (p' : Bytes) (off' : Nat) (evs : List Ev)
    (hw : write_store pid p store off er = .ok (p', off', evs)) :
    writeTargets evs = [pid] := by
  simp only [write_store] at hw
  repeat' split at hw
  all_goals first
    | exact Except.noConfusion hw
    | (cases hw; simp [writeTargets])

/-- Helper: a save whose update condition holds performs exactly one frame
write, to the parity-selected partition, and caches the updated store. -/
theorem save_write_shape (h : Handle) (fl : Flash) (S : Bytes)
    (h' : Handle) (fl' : Flash) (log : List Ev)
    (hcond : h.latest_store.settings ≠ S ∨ h.write_needed = true)
    (hs : settings_storage_save h fl S = .ok (h', fl', log)) :
    writeTargets log = [parityTarget h'.latest_store.counter] ∧
    h'.latest_store = update_settings_store S h.latest_store := by
  simp only [settings_storage_save] at hs
  rw [if_pos hcond] at hs
  split at hs
  · split at hs
    · rename_i hparity
      split at hs
      · cases hs
      · rename_i heq
        cases hs
        refine ⟨?_, rfl⟩
        rw [write_store_targets _ _ _ _ _ _ _ _ heq]
        simp only [parityTarget]
        rw [if_pos hparity]
    · rename_i hparity
      split at hs
      · cases hs
      · rename_i heq
        cases hs
        refine ⟨?_, rfl⟩
        rw [write_store_targets _ _ _ _ _ _ _ _ heq]
        simp only [parityTarget]
        rw [if_neg hparity]
  · rename_i hwn
    exact absurd rfl hwn

/-- Helper: bumping the 16-bit counter flips the parity-selected target. -/
theorem parityTarget_succ (c : Nat) :
    parityTarget ((c + 1) % 2 ^ 16) ≠ parityTarget c := by
  have h2 : (c + 1) % 2 ^ 16 % 2 = (c + 1) % 2 :=
    Nat.mod_mod_of_dvd _ (by norm_num)
  simp only [parityTarget, h2]
  rcases Nat.mod_two_eq_zero_or_one c with hc | hc <;>
    simp [hc, Nat.add_mod, if_neg, if_pos] <;> omega

/-- C7: every `settings_storage_save` that physically writes a frame
writes it to partition B when the just-incremented counter is odd and to
partition A when it is even; hence two consecutive successful saves with
distinct payloads target distinct partitions (the targets strictly
alternate). -/
theorem C7_parity_alternation
    (h : Handle) (fl : Flash) (S1 S2 : Bytes)
    (h1 : Handle) (fl1 : Flash) (log1 : List Ev)
    (h2 : Handle) (fl2 : Flash) (log2 : List Ev)
    (hw : h.latest_store.settings ≠ S1 ∨ h.write_needed = true)
    (hs1 : settings_storage_save h fl S1 = .ok (h1, fl1, log1))
    (hne : S2 ≠ S1)
    (hs2 : settings_storage_save h1 fl1 S2 = .ok (h2, fl2, log2)) :
    writeTargets log1 = [parityTarget h1.latest_store.counter] ∧
    writeTargets log2 = [parityTarget h2.latest_store.counter] ∧
    parityTarget h2.latest_store.counter ≠ parityTarget h1.latest_store.counter := by
  obtain ⟨ht1, hu1⟩ := save_write_shape h fl S1 h1 fl1 log1 hw hs1
  obtain ⟨_, hset1⟩ := save_post h fl S1 h1 fl1 log1 hs1
  have hcond2 : h1.latest_store.settings ≠ S2 ∨ h1.write_needed = true :=
    Or.inl (by rw [hset1]; exact fun hx => hne hx.symm)
  obtain ⟨ht2, hu2⟩ := save_write_shape h1 fl1 S2 h2 fl2 log2 hcond2 hs2
  refine ⟨ht1, ht2, ?_⟩
  rw [hu2, update_settings_store_counter, hu1, update_settings_store_counter]
  exact parityTarget_succ _

/-- Witness for C7: two concrete saves on an empty store target B then A. -/
theorem C7_parity_alternation_witness :
    ∃ h1 fl1 log1 h2 fl2 log2,
      settings_storage_save (settings_storage_init zeroHandle)
        (emptyFlash 47 47) (List.replicate 31 3) = .ok (h1, fl1, log1) ∧
      settings_storage_save h1 fl1 (List.replicate 31 4) = .ok (h2, fl2, log2) ∧
      writeTargets log1 = [parityTarget h1.latest_store.counter] ∧
      writeTargets log2 = [parityTarget h2.latest_store.counter] ∧
      parityTarget h2.latest_store.counter ≠ parityTarget h1.latest_store.counter := by
  have hsome : ((settings_storage_save (settings_storage_init zeroHandle)
      (emptyFlash 47 47) (List.replicate 31 3)).toOption.bind
      (fun r => (settings_storage_save r.1 r.2.1 (List.replicate 31 4)).toOption)).isSome
      = true := by decide
  cases heq1 : settings_storage_save (settings_storage_init zeroHandle)
      (emptyFlash 47 47) (List.replicate 31 3) with
  | error e => rw [heq1] at hsome; simp [Except.toOption] at hsome
  | ok r1 =>
    obtain ⟨h1, fl1, log1⟩ := r1
    cases heq2 : settings_storage_save h1 fl1 (List.replicate 31 4) with
    | error e =>
      rw [heq1] at hsome
      simp only [Except.toOption, Option.bind] at hsome
      rw [heq2] at hsome
      simp at hsome
    | ok r2 =>
      obtain ⟨h2, fl2, log2⟩ := r2
      have hmain := C7_parity_alternation (settings_storage_init zeroHandle)
        (emptyFlash 47 47) (List.replicate 31 3) (List.replicate 31 4)
        h1 fl1 log1 h2 fl2 log2 (Or.inl (by decide)) heq1 (by decide) heq2
      exact ⟨h1, fl1, log1, h2, fl2, log2, rfl, heq2, hmain⟩

/-! ## C6: idempotent save -/

/-- Helper: a save whose update condition fails is a no-op with no device
writes. -/
theorem save_noop (h : Handle) (fl : Flash) (S : Bytes)
    (hset : h.latest_store.settings = S) (hwn : h.write_needed = false) :
    settings_storage_save h fl S =
      .ok ({ h with write_needed := false }, fl, []) := by
  simp only [settings_storage_save]
  have hcond : ¬(h.latest_store.settings ≠ S ∨ h.write_needed = true) := by
    rw [hset, hwn]; simp
  rw [if_neg hcond, if_neg (by rw [hwn]; simp)]

/-- C6 (amended): after a successful `save(S)` on a handle with
`write_needed == false`, a second `save(S)` with the byte-identical
payload performs no NVM write and leaves the counter unchanged; the pair
performs exactly one physical frame write when S differs from the cached
settings and zero writes when it is byte-identical to them. -/
theorem C6_idempotent_save (h : Handle) (fl : Flash) (S : Bytes)
    (h1 : Handle) (fl1 : Flash) (log1 : List Ev)
    (hwn : h.write_needed = false)
    (hs1 : settings_storage_save h fl S = .ok (h1, fl1, log1)) :
    settings_storage_save h1 fl1 S = .ok ({ h1 with write_needed := false }, fl1, []) ∧
    (writeTargets log1).length =
      (if h.latest_store.settings = S then 0 else 1) := by
  obtain ⟨hwn1, hset1⟩ := save_post h fl S h1 fl1 log1 hs1
  refine ⟨save_noop h1 fl1 S hset1 hwn1, ?_⟩
  by_cases hset : h.latest_store.settings = S
  · rw [save_noop h fl S hset hwn] at hs1
    cases hs1
    simp [writeTargets, hset]
  · obtain ⟨ht1, _⟩ :=
      save_write_shape h fl S h1 fl1 log1 (Or.inl hset) hs1
    rw [ht1, if_neg hset]
    rfl

/-- Witness for C6 (amended) at a concrete input where the payload differs
from the cached settings: exactly one frame write. -/
theorem C6_idempotent_save_witness :
    ∃ h1 fl1 log1,
      settings_storage_save (settings_storage_init zeroHandle)
        (emptyFlash 47 47) (List.replicate 31 5) = .ok (h1, fl1, log1) ∧
      settings_storage_save h1 fl1 (List.replicate 31 5) =
        .ok ({ h1 with write_needed := false }, fl1, []) ∧
      (writeTargets log1).length = 1 := by
  have hsome : (settings_storage_save (settings_storage_init zeroHandle)
      (emptyFlash 47 47) (List.replicate 31 5)).toOption.isSome = true := by decide
  cases heq : settings_storage_save (settings_storage_init zeroHandle)
      (emptyFlash 47 47) (List.replicate 31 5) with
  | error e => rw [heq] at hsome; simp [Except.toOption] at hsome
  | ok r =>
    obtain ⟨h1, fl1, log1⟩ := r
    obtain ⟨hnoop, hcount⟩ := C6_idempotent_save (settings_storage_init zeroHandle)
      (emptyFlash 47 47) (List.replicate 31 5) h1 fl1 log1 (by decide) heq
    rw [if_neg (by decide)] at hcount
    exact ⟨h1, fl1, log1, rfl, hnoop, hcount⟩

/-- Counterexample for C6 as stated: on a fresh handle whose cached
settings equal the saved payload (the compiled-in defaults), both saves
succeed with `write_needed == false` beforehand, yet the pair performs
zero physical frame writes, not exactly one. -/
theorem C6_counterexample :
    (do
      let r1 ← settings_storage_save (settings_storage_init zeroHandle)
        (emptyFlash 47 47) default_settings
      let r2 ← settings_storage_save r1.1 r1.2.1 default_settings
      pure ((writeTargets r1.2.2).length + (writeTargets r2.2.2).length) :
      Except NvmErr Nat) = .ok 0 ∧
    (settings_storage_init zeroHandle).write_needed = false := by
  exact ⟨by rfl, by decide⟩

/-- A load on an already-initialized handle copies the cached settings
into the caller's buffer. -/
theorem load_initialized (h : Handle) (fl : Flash) (buf : Bytes)
    (hini : h.initialized = true) :
    settings_storage_load h fl buf = some (.ok (h, h.latest_store.settings)) := by
  rw [settings_storage_load, if_pos hini]

/-! ## C5: newest-counter selection with ties to A -/

/-- C5 (amended): when the first load finds a newest valid-or-stale frame
in both partitions, it selects into the handle's cache the frame with the
greater counter, and partition A's frame when the counters are equal; it
leaves the caller's buffer untouched, and only a subsequent load (on the
now-initialized handle) copies the selected payload out to the caller. -/
theorem C5_counter_selection (h : Handle) (fl : Flash)
    (rA rB : Nat) (stA stB : Store) (oA oB : Nat) (buf : Bytes)
    (hinit : h.initialized = false)
    (hA : find_latest_valid_store fl.pa = some (.ok (rA, stA, oA)))
    (hB : find_latest_valid_store fl.pb = some (.ok (rB, stB, oB)))
    (hrA : rA = 2 ∨ rA = 3) (hrB : rB = 2 ∨ rB = 3) :
    ∃ h', settings_storage_load h fl buf = some (.ok (h', buf)) ∧
      h'.latest_store = (if stA.counter ≥ stB.counter then stA else stB) ∧
      settings_storage_load h' fl buf =
        some (.ok (h', (if stA.counter ≥ stB.counter then stA else stB).settings)) := by
  simp only [settings_storage_load, hinit, Bool.false_eq_true, if_false, hA, hB]
  rcases hrA with rfl | rfl <;> rcases hrB with rfl | rfl <;>
    · norm_num
      split
      · exact ⟨_, rfl, rfl, rfl⟩
      · exact ⟨_, rfl, rfl, rfl⟩

set_option maxRecDepth 100000 in
/-- Witness for C5 (amended) at the concrete tie (both counters 7,
different payloads), resolved in favour of partition A. -/
theorem C5_counter_selection_witness :
    find_latest_valid_store c5flash.pa = some (.ok (3, c5storeA, 41)) ∧
    find_latest_valid_store c5flash.pb = some (.ok (3, c5storeB, 41)) ∧
    ∃ h', settings_storage_load zeroHandle c5flash (List.replicate 31 0) =
        some (.ok (h', List.replicate 31 0)) ∧
      h'.latest_store = (if c5storeA.counter ≥ c5storeB.counter then c5storeA else c5storeB) ∧
      settings_storage_load h' c5flash (List.replicate 31 0) =
        some (.ok (h', (if c5storeA.counter ≥ c5storeB.counter then c5storeA else c5storeB).settings)) := by
  refine ⟨by decide, by decide, ?_⟩
  exact C5_counter_selection zeroHandle c5flash 3 3 c5storeA c5storeB 41 41
    (List.replicate 31 0) (by decide) (by decide) (by decide)
    (Or.inr rfl) (Or.inr rfl)

set_option maxRecDepth 100000 in
/-- Counterexample for C5 as stated: in the tie scenario (both partitions
VALID at counter 7, different payloads) the first load does select A's
frame into the cache, but it does not return A's payload: the caller's
buffer comes back untouched and differs from A's payload (the `memcpy`
to the caller exists only on the already-initialized path). -/
theorem C5_counterexample :
    (settings_storage_load zeroHandle c5flash (List.replicate 31 0)).map
      (fun r => r.map (fun hp => (hp.1.latest_store, hp.2))) =
      some (.ok (c5storeA, List.replicate 31 0)) ∧
    (List.replicate 31 0 : Bytes) ≠ c5storeA.settings := by
  refine ⟨by decide, by decide⟩

/-! ## C4: torn write in partition B -/

set_option maxRecDepth 100000 in
/-- Counterexample for C4 as stated: with A VALID at counter 10 and B's
newest record carrying correct magic and length but a wrong CRC at
counter 11, the first load returns 0 but leaves `write_needed == false`
(B is merely marked corrupt), not `true` as claimed; and it does not
return A's payload to the caller: the caller's buffer comes back
untouched and differs from A's payload. -/
theorem C4_counterexample :
    (settings_storage_load (settings_storage_init zeroHandle) c4flash
        (List.replicate 31 0)).map
      (fun r => r.map (fun hp => (hp.2, hp.1.write_needed))) =
      some (.ok (List.replicate 31 0, false)) ∧
    (List.replicate 31 0 : Bytes) ≠ c4storeA.settings := by
  refine ⟨by decide, by decide⟩

set_option maxRecDepth 100000 in
/-- C4 (amended): in the torn-write scenario the first load returns 0,
caches A's payload in the handle, marks partition B corrupt, leaves the
handle with `write_needed == false`, and leaves the caller's buffer
untouched; a second load on the now-initialized handle copies A's
payload to the caller. -/
theorem C4_torn_write :
    ((settings_storage_load (settings_storage_init zeroHandle) c4flash
        (List.replicate 31 0)).map
      (fun r => r.map (fun hp =>
        (hp.1.latest_store.settings, hp.2, hp.1.write_needed, hp.1.part_B_status,
         hp.1.part_A_status))) =
      some (.ok (c4storeA.settings, List.replicate 31 0, false, -1, 1))) ∧
    ((settings_storage_load (settings_storage_init zeroHandle) c4flash
        (List.replicate 31 0)).map
      (fun r => r.map (fun hp =>
        (settings_storage_load hp.1 c4flash (List.replicate 31 0)).map
          (fun lr => lr.map Prod.snd))) =
      some (.ok (some (.ok c4storeA.settings)))) := by
  refine ⟨by decide, by decide⟩

/-! ## C3: corrupt tail frame -/

set_option maxRecDepth 100000 in
/-- Counterexample for C3 as stated: on a partition holding one valid
frame, then a full-length corrupt-CRC tail frame, then erased space,
`find_latest_valid_store` does not report the older valid frame with a
clean status: it reports the partition as CORRUPT (status 0). -/
theorem C3_counterexample :
    find_latest_valid_store c3part = some (.ok (0, c3tailStore, 82)) := by decide

/-! ## C9: termination of the partition walk -/

/-- Helper: on the zero-length-frame content the `parse_partition` loop
state never changes, so every fuel is exhausted. -/
theorem c9_loop_stuck (fuel : Nat) :
    ∀ lm, parseAux c9content 16 0 0 lm fuel = none := by
  induction fuel with
  | zero => intro lm; rfl
  | succ n ih =>
    intro lm
    have hstep : parseAux c9content 16 0 0 lm (n + 1) =
        parseAux c9content 16 0 0 (some SETTINGS_MAGIC) n := rfl
    rw [hstep]
    exact ih _

/-- Counterexample for C9 as stated: on a partition whose first header
carries the settings magic and a zero length field, the walk never
reaches a non-magic header or the limit: the offset stops advancing and
the loop runs forever (no fuel suffices). -/
theorem C9_counterexample :
    ¬ ∃ fuel, (parseAux c9content 16 0 0 none fuel).isSome = true := by
  rintro ⟨fuel, hf⟩
  rw [c9_loop_stuck fuel none] at hf
  simp at hf

/-- C9 (amended): `parse_partition` terminates for every partition
content made of bytes, with a limit clear of `size_t` wraparound,
provided every header in range that carries the settings magic has a
nonzero length field; the default fuel `limit + 1` then suffices, the
offset strictly increasing at every step. -/
theorem C9_parse_terminates (p : Bytes) (limit : Nat)
    (hbytes : ∀ b ∈ p, b < 256)
    (hlim : limit + 65536 ≤ 2 ^ 32)
    (hnz : ∀ o, o < limit → dec32 ((p.drop o).take 6) = SETTINGS_MAGIC →
      dec16 (((p.drop o).take 6).drop 4) ≠ 0) :
    (parse_partition p limit).isSome = true := by
  suffices h : ∀ fuel offset prev lm, limit - offset < fuel →
      (parseAux p limit offset prev lm fuel).isSome = true by
    exact h (limit + 1) 0 0 none (by omega)
  intro fuel
  induction fuel with
  | zero => intro offset prev lm h0; omega
  | succ n ih =>
    intro offset prev lm hfuel
    rw [parseAux]
    split
    · rename_i hoff
      split
      · simp
      · rename_i buf hread
        have hbuf : buf = (p.drop offset).take 6 := by
          simp only [readPart] at hread
          split at hread
          · cases hread
          · cases hread; rfl
        by_cases hmagic : dec32 buf = SETTINGS_MAGIC
        · rw [if_neg (by simp [hmagic])]
          have hlen1 : dec16 (buf.drop 4) ≠ 0 := by
            rw [hbuf]
            exact hnz offset hoff (by rw [← hbuf]; exact hmagic)
          have hsub : ∀ b ∈ buf, b < 256 := by
            intro b hb
            apply hbytes
            rw [hbuf] at hb
            exact List.mem_of_mem_drop (List.mem_of_mem_take hb)
          have hd0 : (buf.drop 4).getD 0 0 < 256 := by
            cases hb4 : buf.drop 4 with
            | nil => simp [List.getD]
            | cons x xs =>
              have hx : x ∈ buf :=
                List.mem_of_mem_drop (by rw [hb4]; exact List.mem_cons_self x xs)
              simpa [List.getD] using hsub x hx
          have hd1 : (buf.drop 4).getD 1 0 < 256 := by
            match hb4 : buf.drop 4 with
            | [] => simp [List.getD]
            | [x] => simp [List.getD]
            | x :: y :: xs =>
              have hy : y ∈ buf :=
                List.mem_of_mem_drop
                  (by rw [hb4]; exact List.mem_cons_of_mem _ (List.mem_cons_self y xs))
              simpa [List.getD] using hsub y hy
          have hlenle : dec16 (buf.drop 4) < 65536 := by
            simp only [dec16]
            omega
          have hnowrap : (offset + dec16 (buf.drop 4)) % 2 ^ 32 =
              offset + dec16 (buf.drop 4) :=
            Nat.mod_eq_of_lt (by omega)
          rw [hnowrap]
          exact ih (offset + dec16 (buf.drop 4)) offset (some (dec32 buf)) (by omega)
        · rw [if_pos (by simp [hmagic])]
          split
          · simp
          · split <;> simp
    · split
      · simp
      · split <;> simp

set_option maxRecDepth 100000 in
/-- Witness for C9 (amended) on a concrete one-frame partition. -/
theorem C9_parse_terminates_witness :
    (∀ b ∈ c9goodPart, b < 256) ∧ 47 + 65536 ≤ 2 ^ 32 ∧
    (parse_partition c9goodPart 47).isSome = true := by
  refine ⟨by decide, by norm_num, ?_⟩
  exact C9_parse_terminates c9goodPart 47 (by decide) (by norm_num) (by decide)

/-! ## C8: access-layer bounds checks -/

/-- Counterexample for C8 as stated: the bounds check computes
`offset + len` in wrapping 32-bit arithmetic, so a request whose true sum
overflows (here `offset = 2^32 - 1`, `len = 2`, partition size 16) wraps
to 1, passes the check, and the read succeeds instead of failing with
INVALID. -/
theorem C8_counterexample :
    (2 ^ 32 - 1) + 2 > 16 ∧
    nvm_read c8tab 0 1 (2 ^ 32 - 1) 2 = .ok [255, 255] := by
  constructor
  · norm_num
  · decide

/-- C8 (amended): `nvm_read`, `nvm_write` and `nvm_erase` return INVALID
for every request whose 32-bit-wrapped sum `offset + len` exceeds the
resolved partition size (requests whose unsigned sum overflows may wrap
below the size and are then not rejected); `nvm_getPart` returns INVALID
for every partition index greater than `nbPart`, and index 0 yields the
whole device. -/
theorem C8_access_bounds (tab : List nvmDescriptor) (idx part offset len : Nat)
    (d : nvmDescriptor) (hd : tab.get? idx = some d) :
    (∀ np, nvm_getPart tab idx part = .ok np →
      (offset + len) % 2 ^ 32 > np.size →
        nvm_read tab idx part offset len = .error .EINVAL ∧
        (∀ data : Bytes, data.length = len →
          nvm_write tab idx part offset data = .error .EINVAL) ∧
        nvm_erase tab idx part offset len = .error .EINVAL) ∧
    (part > d.nbPart → nvm_getPart tab idx part = .error .EINVAL) ∧
    nvm_getPart tab idx 0 = .ok { offset := 0, size := d.size } := by
  refine ⟨?_, ?_, ?_⟩
  · intro np hnp hbound
    refine ⟨?_, ?_, ?_⟩
    · simp only [nvm_read, hnp, if_pos hbound]
    · intro data hdata
      simp only [nvm_write, hnp, hdata, if_pos hbound]
    · simp only [nvm_erase, hnp, if_pos hbound]
  · intro hgt
    have hne : part ≠ 0 := by
      intro h0
      rw [h0] at hgt
      omega
    simp only [nvm_getPart, nvm_getDesc, hd, if_neg hne, if_pos hgt]
  · simp only [nvm_getPart, nvm_getDesc, hd, if_true]

/-- Witness for C8 (amended) on the concrete table: partition 1 of size
16 rejects a 10+10 request on all three operations; partition index 2
exceeds nbPart = 1 and fails; index 0 yields the whole device. -/
theorem C8_access_bounds_witness :
    c8tab.get? 0 = some (c8tab.getD 0 ({ size := 0, nbPart := 0, partitions := [], baseAddr := 0, mem := [] } : nvmDescriptor)) ∧
    (∀ np, nvm_getPart c8tab 0 1 = .ok np →
      (10 + 10) % 2 ^ 32 > np.size →
        nvm_read c8tab 0 1 10 10 = .error .EINVAL ∧
        (∀ data : Bytes, data.length = 10 →
          nvm_write c8tab 0 1 10 data = .error .EINVAL) ∧
        nvm_erase c8tab 0 1 10 10 = .error .EINVAL) ∧
    (2 > (c8tab.getD 0 ({ size := 0, nbPart := 0, partitions := [], baseAddr := 0, mem := [] } : nvmDescriptor)).nbPart → nvm_getPart c8tab 0 2 = .error .EINVAL) ∧
    nvm_getPart c8tab 0 0 = .ok { offset := 0, size := (c8tab.getD 0 ({ size := 0, nbPart := 0, partitions := [], baseAddr := 0, mem := [] } : nvmDescriptor)).size } := by
  refine ⟨by decide, ?_, ?_, ?_⟩
  · exact (C8_access_bounds c8tab 0 1 10 10 (c8tab.getD 0 ({ size := 0, nbPart := 0, partitions := [], baseAddr := 0, mem := [] } : nvmDescriptor)) (by decide)).1
  · exact (C8_access_bounds c8tab 0 2 10 10 (c8tab.getD 0 ({ size := 0, nbPart := 0, partitions := [], baseAddr := 0, mem := [] } : nvmDescriptor)) (by decide)).2.1
  · exact (C8_access_bounds c8tab 0 0 10 10 (c8tab.getD 0 ({ size := 0, nbPart := 0, partitions := [], baseAddr := 0, mem := [] } : nvmDescriptor)) (by decide)).2.2

/-! ## Serialization lemmas -/

theorem dec16_le16 (n : Nat) (h : n < 2 ^ 16) : dec16 (le16 n) = n := by
  simp [dec16, le16, List.getD]
  omega

theorem storeBytes_cons_form (s : Store) (hm : s.magic = SETTINGS_MAGIC)
    (hl : s.length = STORE_SIZE) :
    storeBytes s = 79 :: 80 :: 78 :: 88 :: 41 :: 0 ::
      ((le16 s.counter ++ s.settings) ++ le16 s.crc) := by
  simp [storeBytes, hm, hl, le32, le16, SETTINGS_MAGIC, STORE_SIZE]

theorem storeBytes_length (s : Store) (hs : s.settings.length = SETTINGS_SIZE) :
    (storeBytes s).length = STORE_SIZE := by
  simp [storeBytes, le16, le32, hs, SETTINGS_SIZE, STORE_SIZE]

theorem chainBytes_nil : chainBytes [] = [] := rfl

theorem chainBytes_cons (s : Store) (cs : List Store) :
    chainBytes (s :: cs) = storeBytes s ++ chainBytes cs := by
  simp [chainBytes]

theorem chainBytes_append (cs ds : List Store) :
    chainBytes (cs ++ ds) = chainBytes cs ++ chainBytes ds := by
  simp [chainBytes]

theorem chainBytes_length (cs : List Store)
    (h : ∀ s ∈ cs, s.settings.length = SETTINGS_SIZE) :
    (chainBytes cs).length = STORE_SIZE * cs.length := by
  induction cs with
  | nil => rfl
  | cons s cs ih =>
    rw [chainBytes_cons]
    simp only [List.length_append, List.length_cons]
    rw [storeBytes_length s (h s (List.mem_cons_self s cs)),
      ih (fun x hx => h x (List.mem_cons_of_mem s hx))]
    ring

theorem chainBytes_drop (cs : List Store) (t : Bytes) (i : Nat)
    (h : ∀ s ∈ cs, s.settings.length = SETTINGS_SIZE) (hi : i ≤ cs.length) :
    (chainBytes cs ++ t).drop (STORE_SIZE * i) = chainBytes (cs.drop i) ++ t := by
  induction i generalizing cs with
  | zero => simp
  | succ n ih =>
    cases cs with
    | nil => simp at hi
    | cons s cs' =>
      rw [chainBytes_cons, List.append_assoc,
        show STORE_SIZE * (n + 1) = (storeBytes s).length + STORE_SIZE * n by
          rw [storeBytes_length s (h s (List.mem_cons_self s cs'))]; ring,
        List.drop_append]
      rw [ih cs' (fun x hx => h x (List.mem_cons_of_mem s hx))
        (by simpa using hi)]
      simp

/-- Reading 6 header bytes at a frame boundary inside the chain. -/
theorem readPart_chain_header (cs : List Store) (t : Bytes) (i : Nat)
    (hwf : ∀ s ∈ cs, s.magic = SETTINGS_MAGIC ∧ s.length = STORE_SIZE ∧
      s.settings.length = SETTINGS_SIZE)
    (hi : i < cs.length)
    (hsz : STORE_SIZE * cs.length + t.length < 2 ^ 32) :
    ∃ rest, readPart (chainBytes cs ++ t) (STORE_SIZE * i) 6 =
      .ok [79, 80, 78, 88, 41, 0] ∧
      (chainBytes cs ++ t).drop (STORE_SIZE * i) =
        storeBytes (cs.getD i junkStore) ++ rest := by
  have hlen : (chainBytes cs ++ t).length = STORE_SIZE * cs.length + t.length := by
    rw [List.length_append, chainBytes_length cs (fun s hs => (hwf s hs).2.2)]
  have hdrop := chainBytes_drop cs t i (fun s hs => (hwf s hs).2.2) (le_of_lt hi)
  have hcons : cs.drop i = cs.getD i junkStore :: cs.drop (i + 1) := by
    rw [List.getD_eq_getElem _ _ hi]
    exact List.drop_eq_getElem_cons hi
  refine ⟨chainBytes (cs.drop (i + 1)) ++ t, ?_, ?_⟩
  · have hmem : cs.getD i junkStore ∈ cs := by
      rw [List.getD_eq_getElem _ _ hi]
      exact List.getElem_mem hi
    have hF := hwf (cs.getD i junkStore) hmem
    simp only [readPart]
    rw [if_neg]
    · congr 1
      rw [hdrop, hcons, chainBytes_cons, List.append_assoc,
        storeBytes_cons_form _ hF.1 hF.2.1]
      rfl
    · push_neg
      rw [hlen]
      calc (STORE_SIZE * i + 6) % 2 ^ 32 ≤ STORE_SIZE * i + 6 := Nat.mod_le _ _
        _ ≤ STORE_SIZE * cs.length + t.length := by
            have : STORE_SIZE * (i + 1) ≤ STORE_SIZE * cs.length :=
              Nat.mul_le_mul_left _ (by omega)
            simp only [STORE_SIZE] at *
            omega
  · rw [hdrop, hcons, chainBytes_cons, List.append_assoc]

/-! ## Walking the frame chain -/

theorem parseAux_step_read (p : Bytes) (L off prev : Nat) (lm : Option Nat)
    (fuel : Nat) (buf : Bytes) (hoff : off < L)
    (hread : readPart p off 6 = .ok buf) :
    parseAux p L off prev lm (fuel + 1) =
      if dec32 buf ≠ SETTINGS_MAGIC then
        if dec32 buf ≠ ERASED_WORD then some (.error .EILSEQ)
        else if off = prev then some (.error .ENOENT) else some (.ok prev)
      else parseAux p L ((off + dec16 (buf.drop 4)) % 2 ^ 32) off
        (some (dec32 buf)) fuel := by
  rw [parseAux, if_pos hoff, hread]

theorem parseAux_step_err (p : Bytes) (L off prev : Nat) (lm : Option Nat)
    (fuel : Nat) (e : NvmErr) (hoff : off < L)
    (hread : readPart p off 6 = .error e) :
    parseAux p L off prev lm (fuel + 1) = some (.error e) := by
  rw [parseAux, if_pos hoff, hread]

theorem parseAux_exit (p : Bytes) (L off prev : Nat) (lm : Option Nat)
    (fuel : Nat) (hoff : ¬ off < L) :
    parseAux p L off prev lm (fuel + 1) =
      if lm ≠ some ERASED_WORD then some (.error .EILSEQ)
      else if off = prev then some (.error .ENOENT) else some (.ok prev) := by
  rw [parseAux, if_neg hoff]

/-- The parse walk traverses a chain of well-formed frame headers lying
below the limit, ending at the first free offset after the chain. -/
theorem parseAux_walk (cs : List Store) (t : Bytes)
    (hwf : ∀ s ∈ cs, s.magic = SETTINGS_MAGIC ∧ s.length = STORE_SIZE ∧
      s.settings.length = SETTINGS_SIZE)
    (hsz : STORE_SIZE * cs.length + t.length < 2 ^ 32)
    (L : Nat) (hL : STORE_SIZE * (cs.length - 1) < L) :
    ∀ k j fuel, j ≤ cs.length → cs.length - j = k → k ≤ fuel →
      parseAux (chainBytes cs ++ t) L (STORE_SIZE * j) (STORE_SIZE * (j - 1))
        (if j = 0 then none else some SETTINGS_MAGIC) fuel =
      parseAux (chainBytes cs ++ t) L (STORE_SIZE * cs.length)
        (STORE_SIZE * (cs.length - 1))
        (if cs.length = 0 then none else some SETTINGS_MAGIC) (fuel - k) := by
  intro k
  induction k with
  | zero =>
    intro j fuel hj hk _
    have hjc : j = cs.length := by omega
    subst hjc
    simp
  | succ n ih =>
    intro j fuel hj hk hfuel
    have hjlt : j < cs.length := by omega
    cases fuel with
    | zero => omega
    | succ f =>
      obtain ⟨rest, hread, -⟩ := readPart_chain_header cs t j hwf hjlt hsz
      have hoff : STORE_SIZE * j < L := by
        have h1 : STORE_SIZE * j ≤ STORE_SIZE * (cs.length - 1) :=
          Nat.mul_le_mul_left _ (by omega)
        omega
      rw [parseAux_step_read _ _ _ _ _ _ _ hoff hread,
        if_neg (by decide),
        show dec16 (List.drop 4 [79, 80, 78, 88, 41, 0]) = STORE_SIZE from by decide,
        show dec32 [79, 80, 78, 88, 41, 0] = SETTINGS_MAGIC from by decide]
      have harith : (STORE_SIZE * j + STORE_SIZE) % 2 ^ 32 = STORE_SIZE * (j + 1) := by
        have hle : STORE_SIZE * (j + 1) ≤ STORE_SIZE * cs.length :=
          Nat.mul_le_mul_left _ (by omega)
        rw [show STORE_SIZE * j + STORE_SIZE = STORE_SIZE * (j + 1) by ring]
        exact Nat.mod_eq_of_lt (by omega)
      rw [harith]
      have hih := ih (j + 1) f (by omega) (by omega) (by omega)
      rw [if_neg (Nat.succ_ne_zero j), Nat.succ_sub_one] at hih
      rw [show STORE_SIZE * j = STORE_SIZE * ((j + 1) - 1) from by simp] at hih ⊢
      rw [hih, show f - n = f + 1 - (n + 1) from by omega]

/-- `parse_partition` on a chain followed by a non-magic word: the walk
breaks on that word and reports it. -/
theorem parse_partition_chain_break (cs : List Store)
    (b0 b1 b2 b3 b4 b5 : Nat) (t₂ : Bytes)
    (hwf : ∀ s ∈ cs, s.magic = SETTINGS_MAGIC ∧ s.length = STORE_SIZE ∧
      s.settings.length = SETTINGS_SIZE)
    (hsz : STORE_SIZE * cs.length + (6 + t₂.length) < 2 ^ 32)
    (L : Nat) (hL1 : STORE_SIZE * cs.length < L)
    (hmag : dec32 [b0, b1, b2, b3, b4, b5] ≠ SETTINGS_MAGIC) :
    parse_partition (chainBytes cs ++ (b0 :: b1 :: b2 :: b3 :: b4 :: b5 :: t₂)) L =
      if dec32 [b0, b1, b2, b3, b4, b5] ≠ ERASED_WORD then some (.error .EILSEQ)
      else if cs.length = 0 then some (.error .ENOENT)
      else some (.ok (STORE_SIZE * (cs.length - 1))) := by
  have hlen : (b0 :: b1 :: b2 :: b3 :: b4 :: b5 :: t₂).length = 6 + t₂.length := by
    simp
    omega
  have hcle : cs.length ≤ STORE_SIZE * cs.length := by
    have := Nat.le_mul_of_pos_left cs.length (show 0 < STORE_SIZE by decide)
    omega
  rw [parse_partition]
  have hwalk := parseAux_walk cs _ hwf (by rw [hlen]; omega) L
    (by have : STORE_SIZE * (cs.length - 1) ≤ STORE_SIZE * cs.length :=
          Nat.mul_le_mul_left _ (by omega)
        omega)
    cs.length 0 (L + 1) (by omega) (by omega) (by omega)
  have hwalk2 : parseAux (chainBytes cs ++ (b0 :: b1 :: b2 :: b3 :: b4 :: b5 :: t₂)) L 0 0 none (L + 1) = parseAux (chainBytes cs ++ (b0 :: b1 :: b2 :: b3 :: b4 :: b5 :: t₂)) L (STORE_SIZE * cs.length) (STORE_SIZE * (cs.length - 1)) (if cs.length = 0 then none else some SETTINGS_MAGIC) (L + 1 - cs.length) := hwalk
  rw [hwalk2]
  have hfu : L + 1 - cs.length = (L - cs.length) + 1 := by omega
  rw [hfu]
  have hread : readPart (chainBytes cs ++ (b0 :: b1 :: b2 :: b3 :: b4 :: b5 :: t₂))
      (STORE_SIZE * cs.length) 6 = .ok [b0, b1, b2, b3, b4, b5] := by
    have hdrop := chainBytes_drop cs (b0 :: b1 :: b2 :: b3 :: b4 :: b5 :: t₂)
      cs.length (fun s hs => (hwf s hs).2.2) le_rfl
    simp only [List.drop_length, chainBytes_nil, List.nil_append] at hdrop
    simp only [readPart]
    rw [if_neg]
    · rw [hdrop]
      simp
    · push_neg
      have hplen : (chainBytes cs ++ (b0 :: b1 :: b2 :: b3 :: b4 :: b5 :: t₂)).length =
          STORE_SIZE * cs.length + (6 + t₂.length) := by
        rw [List.length_append, chainBytes_length cs (fun s hs => (hwf s hs).2.2), hlen]
      rw [hplen]
      calc (STORE_SIZE * cs.length + 6) % 2 ^ 32 ≤ STORE_SIZE * cs.length + 6 :=
            Nat.mod_le _ _
        _ ≤ STORE_SIZE * cs.length + (6 + t₂.length) := by omega
  have hoff : STORE_SIZE * cs.length < L := hL1
  rw [parseAux_step_read _ _ _ _ _ _ _ hoff hread, if_pos hmag]
  by_cases hff : dec32 [b0, b1, b2, b3, b4, b5] = ERASED_WORD
  · rw [if_neg (show ¬(dec32 [b0, b1, b2, b3, b4, b5] ≠ ERASED_WORD) from by simp [hff]),
      if_neg (show ¬(dec32 [b0, b1, b2, b3, b4, b5] ≠ ERASED_WORD) from by simp [hff])]
    by_cases hc : cs.length = 0
    · rw [if_pos (show STORE_SIZE * cs.length = STORE_SIZE * (cs.length - 1) from by rw [hc]),
        if_pos hc]
    · rw [if_neg (show ¬(STORE_SIZE * cs.length = STORE_SIZE * (cs.length - 1)) from by
          simp only [STORE_SIZE]
          omega),
        if_neg hc]
  · rw [if_pos hff, if_pos hff]

/-- `parse_partition` on a chain followed by a magic-bearing header whose
length field jumps at or past the limit: the loop exits at the limit with
the magic word still in the buffer, so the partition reads as invalid. -/
theorem parse_partition_chain_biglen (cs : List Store) (l0 l1 : Nat) (t₂ : Bytes)
    (hwf : ∀ s ∈ cs, s.magic = SETTINGS_MAGIC ∧ s.length = STORE_SIZE ∧
      s.settings.length = SETTINGS_SIZE)
    (hsz : STORE_SIZE * cs.length + (6 + t₂.length) < 2 ^ 32)
    (L : Nat) (hL1 : STORE_SIZE * cs.length < L)
    (hl0 : l0 < 256) (hl1 : l1 < 256)
    (hbig : L ≤ STORE_SIZE * cs.length + (l0 + 256 * l1))
    (hnw : STORE_SIZE * cs.length + (l0 + 256 * l1) < 2 ^ 32) :
    parse_partition (chainBytes cs ++ (79 :: 80 :: 78 :: 88 :: l0 :: l1 :: t₂)) L =
      some (.error .EILSEQ) := by
  have hlen : (79 :: 80 :: 78 :: 88 :: l0 :: l1 :: t₂).length = 6 + t₂.length := by
    simp
    omega
  have hcle : cs.length ≤ STORE_SIZE * cs.length := by
    have := Nat.le_mul_of_pos_left cs.length (show 0 < STORE_SIZE by decide)
    omega
  rw [parse_partition]
  have hwalk := parseAux_walk cs _ hwf (by rw [hlen]; omega) L
    (by have : STORE_SIZE * (cs.length - 1) ≤ STORE_SIZE * cs.length :=
          Nat.mul_le_mul_left _ (by omega)
        omega)
    cs.length 0 (L + 1) (by omega) (by omega) (by omega)
  have hwalk2 : parseAux (chainBytes cs ++ (79 :: 80 :: 78 :: 88 :: l0 :: l1 :: t₂)) L 0 0 none (L + 1) = parseAux (chainBytes cs ++ (79 :: 80 :: 78 :: 88 :: l0 :: l1 :: t₂)) L (STORE_SIZE * cs.length) (STORE_SIZE * (cs.length - 1)) (if cs.length = 0 then none else some SETTINGS_MAGIC) (L + 1 - cs.length) := hwalk
  rw [hwalk2]
  have hfu : L + 1 - cs.length = (L - cs.length - 1) + 1 + 1 := by omega
  rw [hfu]
  have hread : readPart (chainBytes cs ++ (79 :: 80 :: 78 :: 88 :: l0 :: l1 :: t₂))
      (STORE_SIZE * cs.length) 6 = .ok [79, 80, 78, 88, l0, l1] := by
    have hdrop := chainBytes_drop cs (79 :: 80 :: 78 :: 88 :: l0 :: l1 :: t₂)
      cs.length (fun s hs => (hwf s hs).2.2) le_rfl
    simp only [List.drop_length, chainBytes_nil, List.nil_append] at hdrop
    simp only [readPart]
    rw [if_neg]
    · rw [hdrop]
      simp
    · push_neg
      have hplen : (chainBytes cs ++ (79 :: 80 :: 78 :: 88 :: l0 :: l1 :: t₂)).length =
          STORE_SIZE * cs.length + (6 + t₂.length) := by
        rw [List.length_append, chainBytes_length cs (fun s hs => (hwf s hs).2.2), hlen]
      rw [hplen]
      calc (STORE_SIZE * cs.length + 6) % 2 ^ 32 ≤ STORE_SIZE * cs.length + 6 :=
            Nat.mod_le _ _
        _ ≤ STORE_SIZE * cs.length + (6 + t₂.length) := by omega
  rw [parseAux_step_read _ _ _ _ _ _ _ hL1 hread]
  have hm : dec32 [79, 80, 78, 88, l0, l1] = SETTINGS_MAGIC := by
    show 79 + 256 * 80 + 65536 * 78 + 16777216 * 88 = SETTINGS_MAGIC
    decide
  rw [if_neg (show ¬(dec32 [79, 80, 78, 88, l0, l1] ≠ SETTINGS_MAGIC) from by simp [hm])]
  have hl : dec16 (List.drop 4 [79, 80, 78, 88, l0, l1]) = l0 + 256 * l1 := rfl
  rw [hl]
  have harith : (STORE_SIZE * cs.length + (l0 + 256 * l1)) % 2 ^ 32 =
      STORE_SIZE * cs.length + (l0 + 256 * l1) := Nat.mod_eq_of_lt hnw
  rw [harith]
  rw [parseAux_exit _ _ _ _ _ _ (by omega)]
  rw [if_pos (show some (dec32 [79, 80, 78, 88, l0, l1]) ≠ some ERASED_WORD from by
    rw [hm]
    simp [SETTINGS_MAGIC, ERASED_WORD])]

/-- `parse_partition` with a limit at or inside a chain of magic-bearing
headers: the walk always ends holding the magic word, so the partition
reads as invalid. -/
theorem parse_partition_chain_limit (cs : List Store) (t : Bytes)
    (hwf : ∀ s ∈ cs, s.magic = SETTINGS_MAGIC ∧ s.length = STORE_SIZE ∧
      s.settings.length = SETTINGS_SIZE)
    (hsz : STORE_SIZE * cs.length + t.length < 2 ^ 32)
    (L : Nat) (hL : L ≤ STORE_SIZE * cs.length) :
    parse_partition (chainBytes cs ++ t) L = some (.error .EILSEQ) := by
  suffices h : ∀ fuel j, j ≤ cs.length →
      L - STORE_SIZE * j + STORE_SIZE ≤ STORE_SIZE * fuel →
      parseAux (chainBytes cs ++ t) L (STORE_SIZE * j) (STORE_SIZE * (j - 1))
        (if j = 0 then none else some SETTINGS_MAGIC) fuel =
      some (.error .EILSEQ) by
    have := h (L + 1) 0 (by omega) (by
      have h0 : STORE_SIZE * 0 = 0 := by ring
      have h6 : STORE_SIZE * (L + 1) = STORE_SIZE * L + STORE_SIZE := by ring
      have h7 : L ≤ STORE_SIZE * L := by
        cases L with
        | zero => simp
        | succ n => exact Nat.le_mul_of_pos_left _ (by decide)
      omega)
    rw [parse_partition]
    simpa using this
  intro fuel
  induction fuel with
  | zero =>
    intro j hj hlt
    simp only [Nat.mul_zero] at hlt
    have hg : 0 < STORE_SIZE := by decide
    omega
  | succ f ih =>
    intro j hj hlt
    by_cases hoff : STORE_SIZE * j < L
    · have hjlt : j < cs.length := by
        by_contra hcon
        have hj2 : j = cs.length := by omega
        subst hj2
        omega
      obtain ⟨rest, hread, -⟩ := readPart_chain_header cs t j hwf hjlt hsz
      rw [parseAux_step_read _ _ _ _ _ _ _ hoff hread,
        if_neg (by decide),
        show dec16 (List.drop 4 [79, 80, 78, 88, 41, 0]) = STORE_SIZE from by decide,
        show dec32 [79, 80, 78, 88, 41, 0] = SETTINGS_MAGIC from by decide]
      have harith : (STORE_SIZE * j + STORE_SIZE) % 2 ^ 32 = STORE_SIZE * (j + 1) := by
        have hle : STORE_SIZE * (j + 1) ≤ STORE_SIZE * cs.length :=
          Nat.mul_le_mul_left _ (by omega)
        rw [show STORE_SIZE * j + STORE_SIZE = STORE_SIZE * (j + 1) by ring]
        exact Nat.mod_eq_of_lt (by omega)
      rw [harith]
      cases f with
      | zero =>
        exfalso
        have h3 : STORE_SIZE * (0 + 1) = STORE_SIZE := by ring
        omega
      | succ f2 =>
        have hih := ih (j + 1) (by omega) (by
          have h2 : STORE_SIZE * (j + 1) = STORE_SIZE * j + STORE_SIZE := by ring
          have h3 : STORE_SIZE * (f2 + 1 + 1) = STORE_SIZE * (f2 + 1) + STORE_SIZE := by
            ring
          have h5 : STORE_SIZE ≤ STORE_SIZE * (f2 + 1) :=
            Nat.le_mul_of_pos_right _ (by omega)
          omega)
        rw [if_neg (Nat.succ_ne_zero j), Nat.succ_sub_one] at hih
        exact hih
    · rw [parseAux_exit _ _ _ _ _ _ hoff]
      rw [if_pos]
      by_cases hj0 : j = 0
      · subst hj0
        simp
      · rw [if_neg hj0]
        simp [SETTINGS_MAGIC, ERASED_WORD]

/-! ## Reading a frame back from a chain -/

theorem dec32_ff (b4 b5 : Nat) :
    dec32 [255, 255, 255, 255, b4, b5] = ERASED_WORD := by
  show 255 + 256 * 255 + 65536 * 255 + 16777216 * 255 = ERASED_WORD
  decide

/-- Reducing a bind on an `Except.ok` (the do-notation of `read_store`). -/
theorem ok_bind {α β : Type} (a : α) (f : α → Except NvmErr β) :
    (Except.ok a >>= f : Except NvmErr β) = f a := rfl

/-- `read_store` at a frame boundary reconstructs the frame. -/
theorem read_store_chain (cs : List Store) (t : Bytes) (i : Nat)
    (hwf : ∀ s ∈ cs, s.magic = SETTINGS_MAGIC ∧ s.length = STORE_SIZE ∧
      s.settings.length = SETTINGS_SIZE)
    (hwfi : wfFrame (cs.getD i junkStore)) (hi : i < cs.length)
    (hsz : STORE_SIZE * cs.length + t.length < 2 ^ 32) :
    read_store (chainBytes cs ++ t) (STORE_SIZE * i) = .ok (cs.getD i junkStore) := by
  obtain ⟨rest, -, hdrop⟩ := readPart_chain_header cs t i hwf hi hsz
  obtain ⟨hm, hl, hcnt, hcrc, hslen, -⟩ := hwfi
  set F := cs.getD i junkStore with hF
  have hplen : (chainBytes cs ++ t).length = STORE_SIZE * cs.length + t.length := by
    rw [List.length_append, chainBytes_length cs (fun s hs => (hwf s hs).2.2)]
  have hbound : STORE_SIZE * (i + 1) ≤ STORE_SIZE * cs.length :=
    Nat.mul_le_mul_left _ (by omega)
  have hcons : storeBytes F = 79 :: 80 :: 78 :: 88 :: 41 :: 0 ::
      (F.counter % 256) :: (F.counter / 256 % 256) ::
      (F.settings ++ le16 F.crc) := by
    rw [storeBytes_cons_form F hm hl]
    simp [le16]
  have hread8 : readPart (chainBytes cs ++ t) (STORE_SIZE * i) 8 =
      .ok [79, 80, 78, 88, 41, 0, F.counter % 256, F.counter / 256 % 256] := by
    simp only [readPart]
    rw [if_neg]
    · rw [hdrop, hcons]
      rfl
    · push_neg
      rw [hplen]
      calc (STORE_SIZE * i + 8) % 2 ^ 32 ≤ STORE_SIZE * i + 8 := Nat.mod_le _ _
        _ ≤ STORE_SIZE * cs.length + t.length := by
            simp only [STORE_SIZE] at hbound ⊢
            omega
  have hread33 : readPart (chainBytes cs ++ t) (STORE_SIZE * i + 8) 33 =
      .ok (F.settings ++ le16 F.crc) := by
    simp only [readPart]
    rw [if_neg]
    · congr 1
      rw [← List.drop_drop, hdrop, hcons]
      have hlen33 : (F.settings ++ le16 F.crc).length = 33 := by
        simp [le16, hslen, SETTINGS_SIZE]
      show ((F.settings ++ le16 F.crc) ++ rest).take 33 = F.settings ++ le16 F.crc
      exact List.take_left' hlen33
    · push_neg
      rw [hplen]
      calc (STORE_SIZE * i + 8 + 33) % 2 ^ 32 ≤ STORE_SIZE * i + 41 :=
            Nat.mod_le _ _
        _ ≤ STORE_SIZE * cs.length + t.length := by
            simp only [STORE_SIZE] at hbound ⊢
            omega
  rw [read_store]
  rw [hread8]
  simp only [ok_bind]
  rw [if_pos (show dec16 (List.drop 4 [79, 80, 78, 88, 41, 0, F.counter % 256,
      F.counter / 256 % 256]) = STORE_SIZE from rfl)]
  rw [show readPart (chainBytes cs ++ t) (STORE_SIZE * i + 8) (STORE_SIZE - 8) =
      Except.ok (F.settings ++ le16 F.crc) from hread33]
  simp only [ok_bind]
  rw [List.take_left' hslen, List.drop_left' hslen, dec16_le16 F.crc hcrc]
  rw [show dec32 [79, 80, 78, 88, 41, 0, F.counter % 256, F.counter / 256 % 256] =
      SETTINGS_MAGIC from by
    show 79 + 256 * 80 + 65536 * 78 + 16777216 * 88 = SETTINGS_MAGIC
    decide]
  rw [show dec16 (List.drop 6 [79, 80, 78, 88, 41, 0, F.counter % 256,
      F.counter / 256 % 256]) = F.counter % 256 + 256 * (F.counter / 256 % 256) from rfl]
  rw [show dec16 (List.drop 4 [79, 80, 78, 88, 41, 0, F.counter % 256,
      F.counter / 256 % 256]) = STORE_SIZE from rfl]
  have hcounter : F.counter % 256 + 256 * (F.counter / 256 % 256) = F.counter := by
    omega
  rw [hcounter, ← hm, ← hl]

/-! ## find_latest_valid_store on the content shapes -/

theorem flvs_of_parse_enoent (p : Bytes)
    (hp : parse_partition p p.length = some (.error .ENOENT))
    (hne : p.length ≠ 0) :
    find_latest_valid_store p = some (.ok (1, junkStore, 0)) := by
  rw [find_latest_valid_store, flvsAux, if_neg hne, hp]

theorem flvs_of_parse_eilseq (p : Bytes)
    (hp : parse_partition p p.length = some (.error .EILSEQ))
    (hne : p.length ≠ 0) :
    find_latest_valid_store p = some (.ok (0, junkStore, 0)) := by
  rw [find_latest_valid_store, flvsAux, if_neg hne, hp]

theorem flvs_of_parse_valid (p : Bytes) (readOff : Nat) (F : Store)
    (hp : parse_partition p p.length = some (.ok readOff))
    (hr : read_store p readOff = .ok F)
    (hint : check_store_integrity F = 1)
    (hne : p.length ≠ 0) :
    find_latest_valid_store p = some (.ok (3, F, readOff + F.length)) := by
  rw [find_latest_valid_store, flvsAux, if_neg hne, hp]
  simp only [hr, hint]
  rfl

/-- The back-off loop on a chain whose top frame fails the integrity
check: every re-parse either re-finds the same corrupt top frame or ends
on a magic header at the reduced limit, so the loop always reports
CORRUPT. -/
theorem flvs_corrupt_loop (cs : List Store) (b4 b5 : Nat) (t₂ : Bytes)
    (hwf : ∀ s ∈ cs, s.magic = SETTINGS_MAGIC ∧ s.length = STORE_SIZE ∧
      s.settings.length = SETTINGS_SIZE)
    (hcs1 : cs ≠ [])
    (htop : wfFrame (cs.getD (cs.length - 1) junkStore))
    (hint : check_store_integrity (cs.getD (cs.length - 1) junkStore) = 0)
    (hsz : STORE_SIZE * cs.length + (6 + t₂.length) < 2 ^ 32) :
    ∀ fuel L buf offOut, L < STORE_SIZE * fuel → offOut ≠ 0 →
      ∃ b, flvsAux (chainBytes cs ++ (255 :: 255 :: 255 :: 255 :: b4 :: b5 :: t₂))
        L buf offOut fuel = some (.ok (0, b, offOut)) := by
  have hlen6 : (255 :: 255 :: 255 :: 255 :: b4 :: b5 :: t₂).length = 6 + t₂.length := by
    simp
    omega
  intro fuel
  induction fuel with
  | zero =>
    intro L buf offOut hL _
    simp only [Nat.mul_zero] at hL
    omega
  | succ f ih =>
    intro L buf offOut hL hoff
    by_cases hL0 : L = 0
    · subst hL0
      exact ⟨buf, by rw [flvsAux, if_pos rfl]⟩
    by_cases hLc : STORE_SIZE * cs.length < L
    · have hparse := parse_partition_chain_break cs 255 255 255 255 b4 b5 t₂ hwf
        (by omega) L hLc (by rw [dec32_ff]; decide)
      rw [dec32_ff, if_neg (by simp), if_neg (by simpa using hcs1)] at hparse
      have hread := read_store_chain cs (255 :: 255 :: 255 :: 255 :: b4 :: b5 :: t₂)
        (cs.length - 1) hwf htop
        (by have := List.length_pos_of_ne_nil hcs1; omega) (by omega)
      have hsub : subWrap L (cs.getD (cs.length - 1) junkStore).length = L - STORE_SIZE := by
        rw [htop.2.1, subWrap, if_pos]
        have hc1 : 0 < cs.length := List.length_pos_of_ne_nil hcs1
        have h4 : STORE_SIZE ≤ STORE_SIZE * cs.length := Nat.le_mul_of_pos_right _ hc1
        omega
      obtain ⟨b, hb⟩ := ih (L - STORE_SIZE) (cs.getD (cs.length - 1) junkStore)
        (if offOut = 0 then STORE_SIZE * (cs.length - 1) +
          (cs.getD (cs.length - 1) junkStore).length else offOut)
        (by have h3 : STORE_SIZE * (f + 1) = STORE_SIZE * f + STORE_SIZE := by ring
            have hc1 : 0 < cs.length := List.length_pos_of_ne_nil hcs1
            have h4 : STORE_SIZE ≤ STORE_SIZE * cs.length := Nat.le_mul_of_pos_right _ hc1
            omega)
        (by rw [if_neg hoff]; exact hoff)
      refine ⟨b, ?_⟩
      rw [flvsAux, if_neg hL0, hparse]
      simp only [hread, hint]
      rw [hsub]
      rw [if_neg hoff] at hb ⊢
      exact hb
    · have hparse := parse_partition_chain_limit cs
        (255 :: 255 :: 255 :: 255 :: b4 :: b5 :: t₂) hwf (by omega) L (by omega)
      exact ⟨buf, by rw [flvsAux, if_neg hL0, hparse]⟩

/-- A partition holding a chain of well-formed headers topped by a frame
that fails the CRC check reads as CORRUPT; the free-space offset reported
is the end of the corrupt frame. -/
theorem flvs_chain_corrupt (cs : List Store) (F : Store) (b4 b5 : Nat) (t₂ : Bytes)
    (hwf : ∀ s ∈ cs ++ [F], s.magic = SETTINGS_MAGIC ∧ s.length = STORE_SIZE ∧
      s.settings.length = SETTINGS_SIZE)
    (hwfF : wfFrame F)
    (hint0 : check_store_integrity F = 0)
    (hsz : STORE_SIZE * (cs.length + 1) + (6 + t₂.length) < 2 ^ 32) :
    ∃ b, find_latest_valid_store
        (chainBytes (cs ++ [F]) ++ (255 :: 255 :: 255 :: 255 :: b4 :: b5 :: t₂)) =
      some (.ok (0, b, STORE_SIZE * (cs.length + 1))) := by
  have hclen : (cs ++ [F]).length = cs.length + 1 := by simp
  have hgetD : (cs ++ [F]).getD ((cs ++ [F]).length - 1) junkStore = F := by
    rw [hclen]
    simp only [Nat.add_sub_cancel]
    rw [List.getD_eq_getElem?_getD, List.getElem?_append_right (by omega)]
    simp
  have hplen : (chainBytes (cs ++ [F]) ++
      (255 :: 255 :: 255 :: 255 :: b4 :: b5 :: t₂)).length =
      STORE_SIZE * (cs.length + 1) + (6 + t₂.length) := by
    rw [List.length_append, chainBytes_length _ (fun s hs => (hwf s hs).2.2), hclen]
    simp
    omega
  have hne : (chainBytes (cs ++ [F]) ++
      (255 :: 255 :: 255 :: 255 :: b4 :: b5 :: t₂)).length ≠ 0 := by
    rw [hplen]; omega
  have hLc : STORE_SIZE * (cs ++ [F]).length <
      (chainBytes (cs ++ [F]) ++ (255 :: 255 :: 255 :: 255 :: b4 :: b5 :: t₂)).length := by
    rw [hplen, hclen]; omega
  have hparse := parse_partition_chain_break (cs ++ [F]) 255 255 255 255 b4 b5 t₂ hwf
    (by rw [hclen]; omega) _ hLc (by rw [dec32_ff]; decide)
  rw [dec32_ff, if_neg (by simp), if_neg (by simp)] at hparse
  rw [hclen, Nat.add_sub_cancel] at hparse
  have hread := read_store_chain (cs ++ [F])
    (255 :: 255 :: 255 :: 255 :: b4 :: b5 :: t₂) cs.length hwf
    (by rw [hclen, Nat.add_sub_cancel] at hgetD; rw [hgetD]; exact hwfF)
    (by rw [hclen]; omega)
    (by rw [hclen]
        have h6 : (255 :: 255 :: 255 :: 255 :: b4 :: b5 :: t₂).length = 6 + t₂.length := by
          simp
          omega
        omega)
  rw [hclen, Nat.add_sub_cancel] at hgetD
  rw [hgetD] at hread
  obtain ⟨b, hb⟩ := flvs_corrupt_loop (cs ++ [F]) b4 b5 t₂ hwf (by simp)
    (by rw [hclen, Nat.add_sub_cancel, hgetD]; exact hwfF)
    (by rw [hclen, Nat.add_sub_cancel, hgetD]; exact hint0)
    (by rw [hclen]; exact hsz)
    (chainBytes (cs ++ [F]) ++ (255 :: 255 :: 255 :: 255 :: b4 :: b5 :: t₂)).length
    (subWrap (chainBytes (cs ++ [F]) ++ (255 :: 255 :: 255 :: 255 :: b4 :: b5 :: t₂)).length F.length)
    F (STORE_SIZE * cs.length + F.length)
    (by rw [hplen, hwfF.2.1, subWrap]
        rw [if_pos (show STORE_SIZE ≤ STORE_SIZE * (cs.length + 1) + (6 + t₂.length) from by
          simp only [STORE_SIZE]
          omega)]
        simp only [STORE_SIZE]
        omega)
    (by rw [hwfF.2.1]; simp only [STORE_SIZE]; omega)
  refine ⟨b, ?_⟩
  rw [find_latest_valid_store, flvsAux, if_neg hne, hparse]
  simp only [hread, hint0]
  show flvsAux (chainBytes (cs ++ [F]) ++ (255 :: 255 :: 255 :: 255 :: b4 :: b5 :: t₂))
      (subWrap (chainBytes (cs ++ [F]) ++
        (255 :: 255 :: 255 :: 255 :: b4 :: b5 :: t₂)).length F.length)
      F (STORE_SIZE * cs.length + F.length)
      (chainBytes (cs ++ [F]) ++ (255 :: 255 :: 255 :: 255 :: b4 :: b5 :: t₂)).length =
    some (.ok (0, b, STORE_SIZE * (cs.length + 1)))
  rw [hb]
  rw [hwfF.2.1]
  have : STORE_SIZE * cs.length + STORE_SIZE = STORE_SIZE * (cs.length + 1) := by ring
  rw [this]

/-! ## CRC bounds and updated-store facts -/

theorem crc_fold_lt (xs : List Nat) (acc : Nat) (hne : xs ≠ []) :
    xs.foldl (fun c _ => if c &&& 0x8000 ≠ 0 then ((c <<< 1) ^^^ 0x1021) &&& 0xFFFF
      else (c <<< 1) &&& 0xFFFF) acc < 65536 := by
  induction xs generalizing acc with
  | nil => exact absurd rfl hne
  | cons x xs ih =>
    cases hxs : xs with
    | nil =>
      simp only [List.foldl_cons, hxs, List.foldl_nil]
      split
      · exact lt_of_le_of_lt Nat.and_le_right (by norm_num)
      · exact lt_of_le_of_lt Nat.and_le_right (by norm_num)
    | cons y ys =>
      rw [List.foldl_cons]
      rw [← hxs]
      exact ih _ (by rw [hxs]; simp)

theorem crcByte_lt (c b : Nat) : crcByte c b < 65536 := by
  unfold crcByte
  exact crc_fold_lt _ _ (by decide)

theorem crc_ccitt_lt (data : Bytes) : crc_ccitt data < 2 ^ 16 := by
  unfold crc_ccitt
  have hgen : ∀ (xs : List Nat) (acc : Nat), acc < 65536 →
      List.foldl crcByte acc xs < 65536 := by
    intro xs
    induction xs with
    | nil => intro acc hacc; simpa using hacc
    | cons x xs ih => intro acc hacc; exact ih _ (crcByte_lt _ _)
  have := hgen data 0xFFFF (by norm_num)
  omega

theorem storeBytes_take_39 (s : Store) (hset : s.settings.length = SETTINGS_SIZE) :
    (storeBytes s).take 39 =
      le32 s.magic ++ le16 s.length ++ le16 s.counter ++ s.settings := by
  rw [storeBytes,
    show le32 s.magic ++ le16 s.length ++ le16 s.counter ++ s.settings ++ le16 s.crc =
      (le32 s.magic ++ le16 s.length ++ le16 s.counter ++ s.settings) ++ le16 s.crc by
        simp [List.append_assoc]]
  exact List.take_left' (by simp [le32, le16, hset, SETTINGS_SIZE])

/-- The store produced by `update_settings_store` passes the integrity
check as VALID. -/
theorem integrity_update (S : Bytes) (st : Store)
    (hm : st.magic = SETTINGS_MAGIC) (hset : S.length = SETTINGS_SIZE) :
    check_store_integrity (update_settings_store S st) = 1 := by
  rw [check_store_integrity, update_settings_store]
  rw [if_neg (by simpa using hm)]
  rw [if_neg (by norm_num [STORE_SIZE])]
  rw [if_pos]
  · rw [if_neg (by norm_num [STORE_SIZE])]
  · rw [show STORE_SIZE - 2 = 39 from rfl]
    rw [storeBytes_take_39 _ (by simpa using hset),
      storeBytes_take_39 _ (by simpa using hset)]

/-- The store produced by `update_settings_store` is a well-formed
frame. -/
theorem wfFrame_update (S : Bytes) (st : Store)
    (hm : st.magic = SETTINGS_MAGIC) (hset : S.length = SETTINGS_SIZE)
    (hbytes : ∀ b ∈ S, b < 256) :
    wfFrame (update_settings_store S st) := by
  refine ⟨hm, rfl, ?_, ?_, hset, hbytes⟩
  · exact Nat.mod_lt _ (by norm_num)
  · exact crc_ccitt_lt _

set_option maxRecDepth 100000 in
/-- `default_settings_store` is a well-formed valid frame. -/
theorem wfFrame_default : wfFrame default_settings_store ∧
    check_store_integrity default_settings_store = 1 := by
  constructor
  · exact ⟨rfl, rfl, by decide, crc_ccitt_lt _, by decide, by decide⟩
  · decide

/-! ## Load from the two scan outcomes -/

theorem load_both_clean (h : Handle) (fl : Flash)
    (rA rB : Nat) (stA stB : Store) (oA oB : Nat) (buf : Bytes)
    (hinit : h.initialized = false)
    (hA : find_latest_valid_store fl.pa = some (.ok (rA, stA, oA)))
    (hB : find_latest_valid_store fl.pb = some (.ok (rB, stB, oB)))
    (hrA : rA = 2 ∨ rA = 3) (hrB : rB = 2 ∨ rB = 3) :
    ∃ h', settings_storage_load h fl buf = some (.ok (h', buf)) ∧
      h'.latest_store = (if stA.counter ≥ stB.counter then stA else stB) ∧
      h'.write_needed = (if stA.counter ≥ stB.counter then rA = 2 else rB = 2) ∧
      h'.initialized = true := by
  simp only [settings_storage_load, hinit, Bool.false_eq_true, if_false, hA, hB]
  rcases hrA with rfl | rfl <;> rcases hrB with rfl | rfl <;>
    · norm_num
      split
      · rename_i hc
        exact ⟨_, rfl, rfl, by simp [hc] <;> omega, rfl⟩
      · rename_i hc
        exact ⟨_, rfl, rfl, by simp [hc] <;> omega, rfl⟩

theorem load_A_clean (h : Handle) (fl : Flash)
    (rA rB : Nat) (stA stB : Store) (oA oB : Nat) (buf : Bytes)
    (hinit : h.initialized = false)
    (hA : find_latest_valid_store fl.pa = some (.ok (rA, stA, oA)))
    (hB : find_latest_valid_store fl.pb = some (.ok (rB, stB, oB)))
    (hrA : rA = 2 ∨ rA = 3) (hrB : rB = 0 ∨ rB = 1) :
    ∃ h', settings_storage_load h fl buf = some (.ok (h', buf)) ∧
      h'.latest_store = stA ∧ h'.write_needed = (rA = 2) ∧
      h'.initialized = true := by
  simp only [settings_storage_load, hinit, Bool.false_eq_true, if_false, hA, hB]
  rcases hrA with rfl | rfl <;> rcases hrB with rfl | rfl <;>
    · norm_num

theorem load_B_clean (h : Handle) (fl : Flash)
    (rA rB : Nat) (stA stB : Store) (oA oB : Nat) (buf : Bytes)
    (hinit : h.initialized = false)
    (hA : find_latest_valid_store fl.pa = some (.ok (rA, stA, oA)))
    (hB : find_latest_valid_store fl.pb = some (.ok (rB, stB, oB)))
    (hrA : rA = 0 ∨ rA = 1) (hrB : rB = 2 ∨ rB = 3) :
    ∃ h', settings_storage_load h fl buf = some (.ok (h', buf)) ∧
      h'.latest_store = stB ∧ h'.write_needed = (rB = 2) ∧
      h'.initialized = true := by
  simp only [settings_storage_load, hinit, Bool.false_eq_true, if_false, hA, hB]
  rcases hrA with rfl | rfl <;> rcases hrB with rfl | rfl <;>
    · norm_num

theorem load_none_clean (h : Handle) (fl : Flash)
    (rA rB : Nat) (stA stB : Store) (oA oB : Nat) (buf : Bytes)
    (hinit : h.initialized = false)
    (hA : find_latest_valid_store fl.pa = some (.ok (rA, stA, oA)))
    (hB : find_latest_valid_store fl.pb = some (.ok (rB, stB, oB)))
    (hrA : rA = 0 ∨ rA = 1) (hrB : rB = 0 ∨ rB = 1) :
    ∃ h', settings_storage_load h fl buf = some (.ok (h', buf)) ∧
      h'.latest_store = default_settings_store ∧ h'.write_needed = true ∧
      h'.initialized = true := by
  simp only [settings_storage_load, hinit, Bool.false_eq_true, if_false, hA, hB]
  rcases hrA with rfl | rfl <;> rcases hrB with rfl | rfl <;>
    · norm_num

/-- C3 (amended): for every partition whose contents are one or more
valid full-length frames followed by a single corrupt full-length tail
frame and then erased 0xFF space, `find_latest_valid_store` does NOT back
off to the older valid frame: it reports the partition as CORRUPT
(status 0), with the free-space offset past the corrupt tail frame. -/
theorem C3_corrupt_tail (cs : List Store) (F : Store) (b4 b5 : Nat) (t₂ : Bytes)
    (hne : cs ≠ [])
    (hwf : ∀ s ∈ cs, wfFrame s)
    (hvalid : ∀ s ∈ cs, check_store_integrity s = 1)
    (hwfF : wfFrame F)
    (hint0 : check_store_integrity F = 0)
    (hsz : STORE_SIZE * (cs.length + 1) + (6 + t₂.length) < 2 ^ 32) :
    ∃ b, find_latest_valid_store
        (chainBytes (cs ++ [F]) ++ (255 :: 255 :: 255 :: 255 :: b4 :: b5 :: t₂)) =
      some (.ok (0, b, STORE_SIZE * (cs.length + 1))) := by
  apply flvs_chain_corrupt cs F b4 b5 t₂ _ hwfF hint0 hsz
  intro s hs
  rcases List.mem_append.mp hs with hs | hs
  · obtain ⟨h1, h2, -, -, h5, -⟩ := hwf s hs
    exact ⟨h1, h2, h5⟩
  · rw [List.mem_singleton.mp hs]
    exact ⟨hwfF.1, hwfF.2.1, hwfF.2.2.2.2.1⟩

set_option maxRecDepth 1000000 in
/-- Witness for C3 (amended) on the concrete two-frame partition. -/
theorem C3_corrupt_tail_witness :
    ([c3goodStore] ≠ ([] : List Store)) ∧ wfFrame c3goodStore ∧
    check_store_integrity c3goodStore = 1 ∧ wfFrame c3tailStore ∧
    check_store_integrity c3tailStore = 0 ∧
    ∃ b, find_latest_valid_store
        (chainBytes ([c3goodStore] ++ [c3tailStore]) ++
          (255 :: 255 :: 255 :: 255 :: 255 :: 255 :: List.replicate 6 255)) =
      some (.ok (0, b, STORE_SIZE * 2)) := by
  refine ⟨by simp, by decide, by decide, by decide, by decide, ?_⟩
  exact C3_corrupt_tail [c3goodStore] c3tailStore 255 255 (List.replicate 6 255)
    (by simp) (by intro s hs; rw [List.mem_singleton.mp hs]; decide)
    (by intro s hs; rw [List.mem_singleton.mp hs]; decide)
    (by decide) (by decide) (by decide)

/-! ## Scan results on erased and chain-plus-free content -/

theorem replicate_split6 (n : Nat) (h : 6 ≤ n) :
    List.replicate n (255 : Nat) =
      255 :: 255 :: 255 :: 255 :: 255 :: 255 :: List.replicate (n - 6) 255 := by
  obtain ⟨m, rfl⟩ : ∃ m, n = 6 + m := ⟨n - 6, by omega⟩
  rw [List.replicate_add]
  simp

/-- A fully erased partition scans as EMPTY. -/
theorem flvs_ff (n : Nat) (h6 : 6 ≤ n) (h32 : n < 2 ^ 32) :
    find_latest_valid_store (List.replicate n 255) = some (.ok (1, junkStore, 0)) := by
  have hsplit := replicate_split6 n h6
  have hform : List.replicate n (255 : Nat) = chainBytes [] ++
      (255 :: 255 :: 255 :: 255 :: 255 :: 255 :: List.replicate (n - 6) 255) := by
    rw [chainBytes_nil, List.nil_append, hsplit]
  have hlen : (List.replicate n (255 : Nat)).length = n := by simp
  apply flvs_of_parse_enoent
  · rw [hlen]
    conv in parse_partition _ _ => rw [hform]
    have := parse_partition_chain_break [] 255 255 255 255 255 255
      (List.replicate (n - 6) 255) (by simp) (by simp; omega) n (by simpa using by omega)
      (by rw [dec32_ff]; decide)
    rw [this, dec32_ff, if_neg (by simp), if_pos (by simp)]
  · rw [hlen]; omega

/-- A partition holding a chain of well-formed headers topped by a VALID
frame followed by erased space scans as VALID with that frame. -/
theorem flvs_chain_valid (cs : List Store) (F : Store) (r : Nat)
    (hwf : ∀ s ∈ cs ++ [F], s.magic = SETTINGS_MAGIC ∧ s.length = STORE_SIZE ∧
      s.settings.length = SETTINGS_SIZE)
    (hwfF : wfFrame F) (hint : check_store_integrity F = 1)
    (hr : 6 ≤ r) (hsz : STORE_SIZE * (cs.length + 1) + r < 2 ^ 32) :
    find_latest_valid_store (chainBytes (cs ++ [F]) ++ List.replicate r 255) =
      some (.ok (3, F, STORE_SIZE * (cs.length + 1))) := by
  have hclen : (cs ++ [F]).length = cs.length + 1 := by simp
  have hplen : (chainBytes (cs ++ [F]) ++ List.replicate r 255).length =
      STORE_SIZE * (cs.length + 1) + r := by
    rw [List.length_append, chainBytes_length _ (fun s hs => (hwf s hs).2.2), hclen]
    simp
  have hgetD : (cs ++ [F]).getD cs.length junkStore = F := by
    rw [List.getD_eq_getElem?_getD, List.getElem?_append_right (by omega)]
    simp
  have hsplit := replicate_split6 r hr
  have hparse : parse_partition (chainBytes (cs ++ [F]) ++ List.replicate r 255)
      (chainBytes (cs ++ [F]) ++ List.replicate r 255).length =
      some (.ok (STORE_SIZE * cs.length)) := by
    have hbr := parse_partition_chain_break (cs ++ [F]) 255 255 255 255 255 255
      (List.replicate (r - 6) 255) hwf
      (by rw [hclen]; simp only [List.length_replicate]; omega)
      (chainBytes (cs ++ [F]) ++ List.replicate r 255).length
      (by rw [hplen, hclen]; omega)
      (by rw [dec32_ff]; decide)
    rw [dec32_ff, if_neg (by simp), if_neg (by simp), hclen, Nat.add_sub_cancel] at hbr
    rw [← hsplit] at hbr
    exact hbr
  have hread : read_store (chainBytes (cs ++ [F]) ++ List.replicate r 255)
      (STORE_SIZE * cs.length) = .ok F := by
    have := read_store_chain (cs ++ [F]) (List.replicate r 255) cs.length hwf
      (by rw [hgetD]; exact hwfF) (by rw [hclen]; omega)
      (by rw [hclen]; simp only [List.length_replicate]; omega)
    rw [hgetD] at this
    exact this
  rw [flvs_of_parse_valid _ _ F hparse hread hint (by rw [hplen]; omega)]
  rw [hwfF.2.1]
  have h41 : STORE_SIZE * cs.length + STORE_SIZE = STORE_SIZE * (cs.length + 1) := by
    ring
  rw [h41]

/-! ## Appending a frame through write_store -/

theorem write_store_append (pid : PartId) (cs : List Store) (r : Nat) (F : Store)
    (hwfcs : ∀ s ∈ cs, s.settings.length = SETTINGS_SIZE)
    (hwfF : F.settings.length = SETTINGS_SIZE)
    (hfit : STORE_SIZE ≤ r)
    (hsz : STORE_SIZE * cs.length + r < 2 ^ 32) :
    write_store pid (chainBytes cs ++ List.replicate r 255) F
        (STORE_SIZE * cs.length) false =
      .ok (chainBytes (cs ++ [F]) ++ List.replicate (r - STORE_SIZE) 255,
           STORE_SIZE * cs.length + STORE_SIZE,
           [Ev.write pid (STORE_SIZE * cs.length) (storeBytes F)]) := by
  have hclen : (chainBytes cs).length = STORE_SIZE * cs.length :=
    chainBytes_length cs hwfcs
  have hplen : (chainBytes cs ++ List.replicate r 255).length =
      STORE_SIZE * cs.length + r := by
    rw [List.length_append, hclen]; simp
  have hFlen : (storeBytes F).length = STORE_SIZE := storeBytes_length F hwfF
  rw [write_store]
  rw [hplen]
  rw [show (false || decide (STORE_SIZE * cs.length + STORE_SIZE >
      STORE_SIZE * cs.length + r)) = false by
    rw [Bool.false_or, decide_eq_false]; omega]
  simp only [Bool.false_eq_true, if_false]
  have hwp : writePart (chainBytes cs ++ List.replicate r 255)
      (STORE_SIZE * cs.length) (storeBytes F) =
      .ok (chainBytes (cs ++ [F]) ++ List.replicate (r - STORE_SIZE) 255) := by
    rw [writePart, hplen, hFlen]
    rw [if_neg (by
      push_neg
      calc (STORE_SIZE * cs.length + STORE_SIZE) % 2 ^ 32 ≤
          STORE_SIZE * cs.length + STORE_SIZE := Nat.mod_le _ _
        _ ≤ STORE_SIZE * cs.length + r := by omega)]
    congr 1
    rw [List.take_append_of_le_length (by rw [hclen]),
      List.take_of_length_le (le_of_eq hclen),
      show STORE_SIZE * cs.length + STORE_SIZE = (chainBytes cs).length + STORE_SIZE by
        rw [hclen],
      List.drop_append, List.drop_replicate, chainBytes_append, chainBytes_cons,
      chainBytes_nil, List.append_nil, List.append_assoc]
  rw [hwp]
  rfl

theorem write_store_erase (pid : PartId) (p : Bytes) (F : Store) (off : Nat)
    (er : Bool)
    (hcond : er = true ∨ p.length < off + STORE_SIZE)
    (hwfF : F.settings.length = SETTINGS_SIZE)
    (hfit : STORE_SIZE ≤ p.length) (hsz : p.length < 2 ^ 32) :
    write_store pid p F off er =
      .ok (storeBytes F ++ List.replicate (p.length - STORE_SIZE) 255, STORE_SIZE,
           [Ev.erase pid p.length, Ev.write pid 0 (storeBytes F)]) := by
  have hFlen : (storeBytes F).length = STORE_SIZE := storeBytes_length F hwfF
  rw [write_store]
  rw [show (er || decide (off + STORE_SIZE > p.length)) = true by
    rcases hcond with h | h
    · rw [h, Bool.true_or]
    · rw [decide_eq_true (by omega), Bool.or_true]]
  simp only [if_true]
  have hwp : writePart (erasePart p) 0 (storeBytes F) =
      .ok (storeBytes F ++ List.replicate (p.length - STORE_SIZE) 255) := by
    rw [writePart, hFlen]
    have helen : (erasePart p).length = p.length := by simp [erasePart]
    rw [if_neg (by
      push_neg
      rw [helen]
      calc (0 + STORE_SIZE) % 2 ^ 32 ≤ 0 + STORE_SIZE := Nat.mod_le _ _
        _ ≤ p.length := by omega)]
    congr 1
    rw [erasePart, List.take_zero, List.drop_replicate, List.nil_append]
    rw [Nat.zero_add]
  rw [hwp]
  rfl

/-! ## One effective save, by target partition and erase behaviour -/

theorem save_step_B_append (h : Handle) (fl : Flash) (S : Bytes)
    (cs : List Store) (r : Nat)
    (hcond : h.latest_store.settings ≠ S ∨ h.write_needed = true)
    (hodd : (update_settings_store S h.latest_store).counter % 2 = 1)
    (hfl : fl.pb = chainBytes cs ++ List.replicate r 255)
    (hoff : h.part_B_offset = STORE_SIZE * cs.length)
    (hst : ¬ h.part_B_status = -1)
    (hwfcs : ∀ s ∈ cs, s.settings.length = SETTINGS_SIZE)
    (hwfS : S.length = SETTINGS_SIZE)
    (hfit : STORE_SIZE ≤ r)
    (hsz : STORE_SIZE * cs.length + r < 2 ^ 32) :
    settings_storage_save h fl S =
      .ok ({ h with latest_store := update_settings_store S h.latest_store, part_B_offset := STORE_SIZE * cs.length + STORE_SIZE, part_B_status := 1, write_needed := false },
           { fl with pb := chainBytes (cs ++ [update_settings_store S h.latest_store]) ++ List.replicate (r - STORE_SIZE) 255 },
           [Ev.write .B (STORE_SIZE * cs.length)
             (storeBytes (update_settings_store S h.latest_store))]) := by
  rw [settings_storage_save]
  rw [if_pos hcond]
  rw [if_pos rfl, if_pos hodd]
  have hdec : decide (h.part_B_status = -1) = false := decide_eq_false hst
  rw [hfl, hoff, hdec]
  rw [write_store_append .B cs r (update_settings_store S h.latest_store) hwfcs
    (by simpa using hwfS) hfit hsz]

theorem save_step_A_append (h : Handle) (fl : Flash) (S : Bytes)
    (cs : List Store) (r : Nat)
    (hcond : h.latest_store.settings ≠ S ∨ h.write_needed = true)
    (heven : ¬ (update_settings_store S h.latest_store).counter % 2 = 1)
    (hfl : fl.pa = chainBytes cs ++ List.replicate r 255)
    (hoff : h.part_A_offset = STORE_SIZE * cs.length)
    (hst : ¬ h.part_A_status = -1)
    (hwfcs : ∀ s ∈ cs, s.settings.length = SETTINGS_SIZE)
    (hwfS : S.length = SETTINGS_SIZE)
    (hfit : STORE_SIZE ≤ r)
    (hsz : STORE_SIZE * cs.length + r < 2 ^ 32) :
    settings_storage_save h fl S =
      .ok ({ h with latest_store := update_settings_store S h.latest_store, part_A_offset := STORE_SIZE * cs.length + STORE_SIZE, part_A_status := 1, write_needed := false },
           { fl with pa := chainBytes (cs ++ [update_settings_store S h.latest_store]) ++ List.replicate (r - STORE_SIZE) 255 },
           [Ev.write .A (STORE_SIZE * cs.length)
             (storeBytes (update_settings_store S h.latest_store))]) := by
  rw [settings_storage_save]
  rw [if_pos hcond]
  rw [if_pos rfl, if_neg heven]
  have hdec : decide (h.part_A_status = -1) = false := decide_eq_false hst
  rw [hfl, hoff, hdec]
  rw [write_store_append .A cs r (update_settings_store S h.latest_store) hwfcs
    (by simpa using hwfS) hfit hsz]

theorem save_step_B_erase (h : Handle) (fl : Flash) (S : Bytes)
    (hcond : h.latest_store.settings ≠ S ∨ h.write_needed = true)
    (hodd : (update_settings_store S h.latest_store).counter % 2 = 1)
    (hful : fl.pb.length < h.part_B_offset + STORE_SIZE)
    (hwfS : S.length = SETTINGS_SIZE)
    (hfit : STORE_SIZE ≤ fl.pb.length) (hsz : fl.pb.length < 2 ^ 32) :
    settings_storage_save h fl S =
      .ok ({ h with latest_store := update_settings_store S h.latest_store, part_B_offset := STORE_SIZE, part_B_status := 1, write_needed := false },
           { fl with pb := storeBytes (update_settings_store S h.latest_store) ++ List.replicate (fl.pb.length - STORE_SIZE) 255 },
           [Ev.erase .B fl.pb.length,
            Ev.write .B 0 (storeBytes (update_settings_store S h.latest_store))]) := by
  rw [settings_storage_save]
  rw [if_pos hcond]
  rw [if_pos rfl, if_pos hodd]
  rw [write_store_erase .B fl.pb (update_settings_store S h.latest_store)
    h.part_B_offset _ (Or.inr hful) (by simpa using hwfS) hfit hsz]

theorem save_step_A_erase (h : Handle) (fl : Flash) (S : Bytes)
    (hcond : h.latest_store.settings ≠ S ∨ h.write_needed = true)
    (heven : ¬ (update_settings_store S h.latest_store).counter % 2 = 1)
    (hful : fl.pa.length < h.part_A_offset + STORE_SIZE)
    (hwfS : S.length = SETTINGS_SIZE)
    (hfit : STORE_SIZE ≤ fl.pa.length) (hsz : fl.pa.length < 2 ^ 32) :
    settings_storage_save h fl S =
      .ok ({ h with latest_store := update_settings_store S h.latest_store, part_A_offset := STORE_SIZE, part_A_status := 1, write_needed := false },
           { fl with pa := storeBytes (update_settings_store S h.latest_store) ++ List.replicate (fl.pa.length - STORE_SIZE) 255 },
           [Ev.erase .A fl.pa.length,
            Ev.write .A 0 (storeBytes (update_settings_store S h.latest_store))]) := by
  rw [settings_storage_save]
  rw [if_pos hcond]
  rw [if_pos rfl, if_neg heven]
  rw [write_store_erase .A fl.pa (update_settings_store S h.latest_store)
    h.part_A_offset _ (Or.inr hful) (by simpa using hwfS) hfit hsz]

/-! ## C2: round trip on a fresh, empty store -/

/-- C2 (amended): for every settings payload S and a freshly
zero-initialised handle over two fully erased partitions (any sizes with
at least 6 free bytes in A and room for one frame plus 6 free bytes in
B), `settings_storage_init; settings_storage_save(S);
settings_storage_load` all succeed; the load caches S in the handle but
leaves the caller's buffer untouched (the copy to the caller exists only
on the already-initialized path), and a second load hands S to the
caller. -/
theorem C2_round_trip (S : Bytes) (psA psB : Nat) (buf : Bytes)
    (hlen : S.length = SETTINGS_SIZE) (hbytes : ∀ b ∈ S, b < 256)
    (hA6 : 6 ≤ psA) (hB47 : 47 ≤ psB)
    (hA32 : psA < 2 ^ 32) (hB32 : psB < 2 ^ 32) :
    ∃ h1 fl1 log h2,
      settings_storage_save (settings_storage_init zeroHandle)
        (emptyFlash psA psB) S = .ok (h1, fl1, log) ∧
      settings_storage_load h1 fl1 buf = some (.ok (h2, buf)) ∧
      h2.latest_store.settings = S ∧
      settings_storage_load h2 fl1 buf = some (.ok (h2, S)) := by
  have hffA : find_latest_valid_store (emptyFlash psA psB).pa =
      some (.ok (1, junkStore, 0)) := flvs_ff psA hA6 hA32
  by_cases hdef : (settings_storage_init zeroHandle).latest_store.settings = S
  · have hnoop := save_noop (settings_storage_init zeroHandle)
      (emptyFlash psA psB) S hdef rfl
    have hffB : find_latest_valid_store (emptyFlash psA psB).pb =
        some (.ok (1, junkStore, 0)) := flvs_ff psB (by omega) hB32
    obtain ⟨h2, hload, hlst, -, hini2⟩ := load_none_clean
      { settings_storage_init zeroHandle with write_needed := false }
      (emptyFlash psA psB) 1 1 junkStore junkStore 0 0 buf rfl hffA hffB
      (Or.inr rfl) (Or.inr rfl)
    have hset2 : h2.latest_store.settings = S := by
      rw [hlst]
      exact hdef
    refine ⟨_, _, _, h2, hnoop, hload, hset2, ?_⟩
    rw [load_initialized h2 _ buf hini2, hset2]
  · have hsave := save_step_B_append (settings_storage_init zeroHandle)
      (emptyFlash psA psB) S [] psB (Or.inl hdef) rfl rfl rfl (by decide)
      (by intro s hs; simp at hs) hlen
      (by simp only [STORE_SIZE]; omega)
      (by simp only [STORE_SIZE, List.length_nil]; omega)
    set F1 := update_settings_store S
      (settings_storage_init zeroHandle).latest_store with hF1
    have hwfF1 : wfFrame F1 := wfFrame_update S _ rfl hlen hbytes
    have hintF1 : check_store_integrity F1 = 1 := integrity_update S _ rfl hlen
    have hflB : find_latest_valid_store
        (chainBytes ([] ++ [F1]) ++ List.replicate (psB - STORE_SIZE) 255) =
        some (.ok (3, F1, STORE_SIZE * 1)) := by
      apply flvs_chain_valid [] F1 (psB - STORE_SIZE)
        (by intro s hs
            simp only [List.nil_append, List.mem_singleton] at hs
            rw [hs]
            exact ⟨hwfF1.1, hwfF1.2.1, hwfF1.2.2.2.2.1⟩)
        hwfF1 hintF1 (by simp only [STORE_SIZE]; omega)
        (by simp only [STORE_SIZE, List.length_nil]; omega)
    have hffA2 : find_latest_valid_store ({ emptyFlash psA psB with pb := chainBytes ([] ++ [F1]) ++ List.replicate (psB - STORE_SIZE) 255 } : Flash).pa = some (.ok (1, junkStore, 0)) := hffA
    have hflB2 : find_latest_valid_store ({ emptyFlash psA psB with pb := chainBytes ([] ++ [F1]) ++ List.replicate (psB - STORE_SIZE) 255 } : Flash).pb = some (.ok (3, F1, STORE_SIZE * 1)) := hflB
    obtain ⟨h2, hload, hlst, -, hini2⟩ := load_B_clean
      { settings_storage_init zeroHandle with latest_store := F1, part_B_offset := STORE_SIZE * List.length ([] : List Store) + STORE_SIZE, part_B_status := 1, write_needed := false }
      { emptyFlash psA psB with pb := chainBytes ([] ++ [F1]) ++ List.replicate (psB - STORE_SIZE) 255 }
      1 3 junkStore F1 0 (STORE_SIZE * 1) buf
      rfl hffA2 hflB2 (Or.inr rfl) (Or.inr rfl)
    have hset2 : h2.latest_store.settings = S := by
      rw [hlst]
      rfl
    refine ⟨_, _, _, h2, hsave, hload, hset2, ?_⟩
    rw [load_initialized h2 _ buf hini2, hset2]

/-- Witness for C2 (amended) at a concrete payload, buffer and partition
sizes. -/
theorem C2_round_trip_witness :
    (List.replicate 31 8).length = SETTINGS_SIZE ∧
    (∀ b ∈ List.replicate 31 8, b < 256) ∧
    ∃ h1 fl1 log h2,
      settings_storage_save (settings_storage_init zeroHandle)
        (emptyFlash 47 47) (List.replicate 31 8) = .ok (h1, fl1, log) ∧
      settings_storage_load h1 fl1 (List.replicate 31 0) =
        some (.ok (h2, List.replicate 31 0)) ∧
      h2.latest_store.settings = List.replicate 31 8 ∧
      settings_storage_load h2 fl1 (List.replicate 31 0) =
        some (.ok (h2, List.replicate 31 8)) :=
  ⟨by decide, by decide,
   C2_round_trip (List.replicate 31 8) 47 47 (List.replicate 31 0) (by decide)
     (by decide) (by norm_num) (by norm_num) (by norm_num) (by norm_num)⟩

set_option maxRecDepth 1000000 in
/-- Counterexample for C2 as stated: after `init; save(S); load` on a
fresh empty store the handle is still uninitialized when the load runs,
so the load returns 0 without writing the caller's buffer: the buffer
comes back untouched and differs from S byte-for-byte. -/
theorem C2_counterexample :
    (do
      let r ← settings_storage_save (settings_storage_init zeroHandle)
        (emptyFlash 47 47) (List.replicate 31 5)
      pure ((settings_storage_load r.1 r.2.1 (List.replicate 31 0)).map
        (fun lr => lr.map Prod.snd)) :
      Except NvmErr (Option (Except NvmErr Bytes))) =
      .ok (some (.ok (List.replicate 31 0))) ∧
    (List.replicate 31 0 : Bytes) ≠ List.replicate 31 5 := by
  refine ⟨by decide, by decide⟩

/-! ## C1 counterexample: a torn frame that passes the CRC check -/

set_option maxRecDepth 1000000 in
/-- Counterexample for C1 as stated: saving `c1payload` onto an initially
empty A/B store and cutting the physical write stream after 37 bytes
leaves a torn frame whose read-back CRC field (0xFFFF, erased bytes)
coincides with the CRC-16 of its read-back prefix.  A fresh load then
accepts the torn frame as VALID and caches its garbage payload in the
handle; the caller obtains that garbage from the next load.  It is
neither the saved payload nor the previous one (the defaults), and not a
payload-related error either. -/
theorem C1_counterexample :
    (settings_storage_save (settings_storage_init zeroHandle) (emptyFlash 47 47)
        c1payload).map
      (fun r => (settings_storage_load (settings_storage_init zeroHandle)
        (truncFlash (emptyFlash 47 47) r.2.2 37) (List.replicate 31 0)).map
        (fun lr => lr.map (fun hp =>
          (hp.1.latest_store.settings,
           (settings_storage_load hp.1 (truncFlash (emptyFlash 47 47) r.2.2 37)
             (List.replicate 31 0)).map (fun lr2 => lr2.map Prod.snd))))) =
      .ok (some (.ok (c1garbage, some (.ok c1garbage)))) ∧
    c1garbage ≠ c1payload ∧ c1garbage ≠ default_settings := by
  refine ⟨by decide, by decide, by decide⟩

/-! ## Applying truncated physical byte streams -/

theorem Flash.get_set_same (fl : Flash) (pid : PartId) (x : Bytes) :
    (fl.set pid x).get pid = x := by
  cases pid <;> rfl

theorem Flash.set_set (fl : Flash) (pid : PartId) (x y : Bytes) :
    (fl.set pid x).set pid y = fl.set pid y := by
  cases pid <;> rfl

theorem Flash.set_get (fl : Flash) (pid : PartId) :
    fl.set pid (fl.get pid) = fl := by
  cases pid <;> rfl

/-- Folding the first `s` byte writes of a frame write onto the flash
overwrites exactly the first `s` target bytes. -/
theorem foldl_write_torn (fl : Flash) (pid : PartId) (o : Nat) (data : Bytes)
    (s : Nat) (hs : s ≤ data.length)
    (hfit : o + data.length ≤ (fl.get pid).length) :
    ((evBytes (Ev.write pid o data)).take s).foldl applyByte fl =
      fl.set pid ((fl.get pid).take o ++ data.take s ++ (fl.get pid).drop (o + s)) := by
  induction s with
  | zero =>
    rw [List.take_zero, List.foldl_nil, List.take_zero, List.append_nil,
      Nat.add_zero, List.take_append_drop, Flash.set_get]
  | succ n ih =>
    have hn : n ≤ data.length := by omega
    have hnd : n < data.length := by omega
    have hev : (evBytes (Ev.write pid o data))[n]? = some (pid, o + n, data.getD n 0) := by
      rw [evBytes, List.getElem?_map, List.getElem?_range (by omega)]
      rfl
    rw [List.take_succ, hev]
    simp only [Option.toList_some]
    rw [List.foldl_append, ih hn]
    simp only [List.foldl_cons, List.foldl_nil, applyByte]
    rw [Flash.get_set_same, Flash.set_set]
    congr 1
    have hlt : o + n < (fl.get pid).length := by omega
    have hlen1 : ((fl.get pid).take o).length = o := by
      rw [List.length_take]
      omega
    have hlen2 : (data.take n).length = n := by
      rw [List.length_take]
      omega
    rw [List.append_assoc, List.append_assoc, List.set_append,
      if_neg (by rw [hlen1]; omega), hlen1, Nat.add_sub_cancel_left,
      List.set_append, if_neg (by rw [hlen2]; omega), hlen2, Nat.sub_self,
      List.drop_eq_getElem_cons hlt, List.set_cons_zero]
    have htake : data.take (n + 1) = data.take n ++ [data[n]] := by
      rw [← List.take_concat_get data n hnd, List.concat_eq_append]
    rw [htake, List.getD_eq_getElem data 0 hnd, List.append_assoc]
    rfl

/-- Folding the first `t` byte writes of a partition erase onto the flash
fills exactly the first `t` bytes with 0xFF. -/
theorem foldl_erase_torn (fl : Flash) (pid : PartId) (size t : Nat)
    (ht : t ≤ size) (hsz : size ≤ (fl.get pid).length) :
    ((evBytes (Ev.erase pid size)).take t).foldl applyByte fl =
      fl.set pid (List.replicate t 255 ++ (fl.get pid).drop t) := by
  induction t with
  | zero =>
    rw [List.take_zero, List.foldl_nil, List.replicate_zero, List.nil_append,
      List.drop_zero, Flash.set_get]
  | succ n ih =>
    have hev : (evBytes (Ev.erase pid size))[n]? = some (pid, n, 255) := by
      rw [evBytes, List.getElem?_map, List.getElem?_range (by omega)]
      rfl
    rw [List.take_succ, hev]
    simp only [Option.toList_some]
    rw [List.foldl_append, ih (by omega)]
    simp only [List.foldl_cons, List.foldl_nil, applyByte]
    rw [Flash.get_set_same, Flash.set_set]
    congr 1
    have hlt : n < (fl.get pid).length := by omega
    rw [List.set_append, if_neg (by rw [List.length_replicate]; omega),
      List.length_replicate, Nat.sub_self, List.drop_eq_getElem_cons hlt,
      List.set_cons_zero,
      show List.replicate (n + 1) (255 : Nat) = List.replicate n 255 ++ [255] from
        List.replicate_succ' n 255]
    simp [List.append_assoc]

theorem logBytes_single (e : Ev) : logBytes [e] = evBytes e := by
  simp [logBytes]

theorem logBytes_pair (e1 e2 : Ev) : logBytes [e1, e2] = evBytes e1 ++ evBytes e2 := by
  simp [logBytes]

theorem evBytes_write_length (pid : PartId) (o : Nat) (data : Bytes) :
    (evBytes (Ev.write pid o data)).length = data.length := by
  simp [evBytes]

theorem evBytes_erase_length (pid : PartId) (size : Nat) :
    (evBytes (Ev.erase pid size)).length = size := by
  simp [evBytes]

/-! ## Byte-level helpers for the torn-frame analysis -/

theorem getD_lt_256 (l : Bytes) (h : ∀ x ∈ l, x < 256) (i : Nat) :
    l.getD i 0 < 256 := by
  by_cases hi : i < l.length
  · rw [List.getD_eq_getElem _ _ hi]
    exact h _ (List.getElem_mem hi)
  · rw [List.getD_eq_default _ _ (by omega)]
    norm_num

theorem dec16_lt (l : Bytes) (h : ∀ x ∈ l, x < 256) : dec16 l < 2 ^ 16 := by
  have h0 := getD_lt_256 l h 0
  have h1 := getD_lt_256 l h 1
  simp only [dec16]
  omega

theorem le16_mem_lt (n : Nat) : ∀ x ∈ le16 n, x < 256 := by
  intro x hx
  simp only [le16, List.mem_cons, List.mem_singleton] at hx
  rcases hx with rfl | rfl | h
  · exact Nat.mod_lt _ (by norm_num)
  · exact Nat.mod_lt _ (by norm_num)
  · simp at h

theorem le32_mem_lt (n : Nat) : ∀ x ∈ le32 n, x < 256 := by
  intro x hx
  simp only [le32, List.mem_cons, List.mem_singleton] at hx
  rcases hx with rfl | rfl | rfl | rfl | h
  · exact Nat.mod_lt _ (by norm_num)
  · exact Nat.mod_lt _ (by norm_num)
  · exact Nat.mod_lt _ (by norm_num)
  · exact Nat.mod_lt _ (by norm_num)
  · simp at h

/-- Every byte of a well-formed frame image is an actual byte. -/
theorem storeBytes_bytes_lt (s : Store) (hset : ∀ b ∈ s.settings, b < 256) :
    ∀ x ∈ storeBytes s, x < 256 := by
  intro x hx
  simp only [storeBytes, List.mem_append] at hx
  rcases hx with (((hx | hx) | hx) | hx) | hx
  · exact le32_mem_lt _ x hx
  · exact le16_mem_lt _ x hx
  · exact le16_mem_lt _ x hx
  · exact hset x hx
  · exact le16_mem_lt _ x hx

theorem le16_dec16 (l : Bytes) (hlen : l.length = 2) (hlt : ∀ x ∈ l, x < 256) :
    le16 (dec16 l) = l := by
  match l, hlen with
  | [x, y], _ =>
    have hx : x < 256 := hlt x (by simp)
    have hy : y < 256 := hlt y (by simp)
    have hd : dec16 [x, y] = x + 256 * y := rfl
    rw [hd]
    simp only [le16, List.cons.injEq, and_true]
    exact ⟨by omega, by omega⟩

/-- Decoding a 41-byte block and re-encoding it is the identity. -/
theorem storeBytes_decodeStore (b : Bytes) (hlen : b.length = STORE_SIZE)
    (hlt : ∀ x ∈ b, x < 256) : storeBytes (decodeStore b) = b := by
  match b, hlen with
  | b0 :: b1 :: b2 :: b3 :: b4 :: b5 :: b6 :: b7 :: rest, hlen =>
    have hrest : rest.length = 33 := by
      simp only [List.length_cons, STORE_SIZE] at hlen
      omega
    have hb0 : b0 < 256 := hlt b0 (by simp)
    have hb1 : b1 < 256 := hlt b1 (by simp)
    have hb2 : b2 < 256 := hlt b2 (by simp)
    have hb3 : b3 < 256 := hlt b3 (by simp)
    have hb4 : b4 < 256 := hlt b4 (by simp)
    have hb5 : b5 < 256 := hlt b5 (by simp)
    have hb6 : b6 < 256 := hlt b6 (by simp)
    have hb7 : b7 < 256 := hlt b7 (by simp)
    have hd32 : dec32 (b0 :: b1 :: b2 :: b3 :: b4 :: b5 :: b6 :: b7 :: rest) =
        b0 + 256 * b1 + 65536 * b2 + 16777216 * b3 := rfl
    have hd4 : dec16 ((b0 :: b1 :: b2 :: b3 :: b4 :: b5 :: b6 :: b7 :: rest).drop 4) =
        b4 + 256 * b5 := rfl
    have hd6 : dec16 ((b0 :: b1 :: b2 :: b3 :: b4 :: b5 :: b6 :: b7 :: rest).drop 6) =
        b6 + 256 * b7 := rfl
    have hd8 : (b0 :: b1 :: b2 :: b3 :: b4 :: b5 :: b6 :: b7 :: rest).drop 8 = rest := rfl
    have hd39 : (b0 :: b1 :: b2 :: b3 :: b4 :: b5 :: b6 :: b7 :: rest).drop 39 =
        rest.drop 31 := rfl
    have h32 : le32 (b0 + 256 * b1 + 65536 * b2 + 16777216 * b3) = [b0, b1, b2, b3] := by
      simp only [le32, List.cons.injEq, and_true]
      refine ⟨by omega, by omega, by omega, by omega⟩
    have h16a : le16 (b4 + 256 * b5) = [b4, b5] := by
      simp only [le16, List.cons.injEq, and_true]
      refine ⟨by omega, by omega⟩
    have h16b : le16 (b6 + 256 * b7) = [b6, b7] := by
      simp only [le16, List.cons.injEq, and_true]
      refine ⟨by omega, by omega⟩
    have hcrc : le16 (dec16 (rest.drop 31)) = rest.drop 31 := by
      apply le16_dec16
      · rw [List.length_drop, hrest]
      · intro x hx
        exact hlt x (by
          simp only [List.mem_cons]
          right; right; right; right; right; right; right; right
          exact List.mem_of_mem_drop hx)
    show le32 (dec32 (b0 :: b1 :: b2 :: b3 :: b4 :: b5 :: b6 :: b7 :: rest)) ++
        le16 (dec16 ((b0 :: b1 :: b2 :: b3 :: b4 :: b5 :: b6 :: b7 :: rest).drop 4)) ++
        le16 (dec16 ((b0 :: b1 :: b2 :: b3 :: b4 :: b5 :: b6 :: b7 :: rest).drop 6)) ++
        (((b0 :: b1 :: b2 :: b3 :: b4 :: b5 :: b6 :: b7 :: rest).drop 8).take SETTINGS_SIZE) ++
        le16 (dec16 ((b0 :: b1 :: b2 :: b3 :: b4 :: b5 :: b6 :: b7 :: rest).drop 39)) =
        b0 :: b1 :: b2 :: b3 :: b4 :: b5 :: b6 :: b7 :: rest
    rw [hd32, hd4, hd6, hd8, hd39, h32, h16a, h16b, hcrc]
    show [b0, b1, b2, b3] ++ [b4, b5] ++ [b6, b7] ++ rest.take 31 ++ rest.drop 31 =
        b0 :: b1 :: b2 :: b3 :: b4 :: b5 :: b6 :: b7 :: rest
    rw [List.append_assoc, List.append_assoc, List.append_assoc, List.take_append_drop]
    rfl

theorem getD_replicate_255 (m i : Nat) (h : i < m) :
    (List.replicate m (255 : Nat)).getD i 0 = 255 := by
  rw [List.getD_eq_getElem _ _ (by simpa using h)]
  simp

/-- The tail of a well-formed frame image after the 6 header bytes. -/
theorem storeBytes_take_split (F : Store) (hwf : wfFrame F) (u : Nat) :
    (storeBytes F).take (u + 6) = [79, 80, 78, 88, 41, 0] ++
      (((le16 F.counter ++ F.settings) ++ le16 F.crc).take u) := by
  rw [storeBytes_cons_form F hwf.1 hwf.2.1, show u + 6 = 6 + u from Nat.add_comm u 6,
    List.take_add]
  rfl

theorem tornStore_magic (F : Store) (hwf : wfFrame F) (s : Nat) (h6 : 6 ≤ s) :
    (tornStore F s).magic = SETTINGS_MAGIC ∧ (tornStore F s).length = STORE_SIZE := by
  obtain ⟨u, rfl⟩ : ∃ u, s = u + 6 := ⟨s - 6, by omega⟩
  constructor
  · show dec32 ((storeBytes F).take (u + 6) ++
      List.replicate (STORE_SIZE - (u + 6)) 255) = SETTINGS_MAGIC
    rw [storeBytes_take_split F hwf, List.append_assoc]
    show 79 + 256 * 80 + 65536 * 78 + 16777216 * 88 = SETTINGS_MAGIC
    decide
  · have hpr : (tornStore F (u + 6)).length =
        dec16 (((storeBytes F).take (u + 6) ++
          List.replicate (STORE_SIZE - (u + 6)) 255).drop 4) := rfl
    rw [hpr, storeBytes_take_split F hwf, List.append_assoc]
    show 41 + 256 * 0 = STORE_SIZE
    decide

theorem torn_bytes_length (F : Store) (hwf : wfFrame F) (s : Nat) (h41 : s ≤ STORE_SIZE) :
    ((storeBytes F).take s ++ List.replicate (STORE_SIZE - s) 255).length = STORE_SIZE := by
  rw [List.length_append, List.length_take, List.length_replicate,
    storeBytes_length F hwf.2.2.2.2.1]
  simp only [STORE_SIZE] at *
  omega

theorem torn_bytes_lt (F : Store) (hwf : wfFrame F) (s : Nat) :
    ∀ x ∈ (storeBytes F).take s ++ List.replicate (STORE_SIZE - s) 255, x < 256 := by
  intro x hx
  rcases List.mem_append.mp hx with hx | hx
  · exact storeBytes_bytes_lt F hwf.2.2.2.2.2 x (List.mem_of_mem_take hx)
  · rw [List.eq_of_mem_replicate hx]
    norm_num

/-- Re-encoding a torn frame reproduces its on-flash bytes. -/
theorem tornStore_storeBytes (F : Store) (hwf : wfFrame F) (s : Nat)
    (h41 : s ≤ STORE_SIZE) :
    storeBytes (tornStore F s) =
      (storeBytes F).take s ++ List.replicate (STORE_SIZE - s) 255 :=
  storeBytes_decodeStore _ (torn_bytes_length F hwf s h41) (torn_bytes_lt F hwf s)

/-- The counter read back from a torn frame is at least the written
counter, and is still a 16-bit value. -/
theorem tornStore_counter (F : Store) (hwf : wfFrame F) (s : Nat)
    (h6 : 6 ≤ s) (h41 : s ≤ STORE_SIZE) :
    F.counter ≤ (tornStore F s).counter ∧ (tornStore F s).counter < 2 ^ 16 := by
  obtain ⟨u, rfl⟩ : ∃ u, s = u + 6 := ⟨s - 6, by omega⟩
  have hcnt : F.counter < 2 ^ 16 := hwf.2.2.1
  have hshow : (tornStore F (u + 6)).counter =
      dec16 ((((le16 F.counter ++ F.settings) ++ le16 F.crc).take u) ++
        List.replicate (STORE_SIZE - (u + 6)) 255) := by
    have hpr : (tornStore F (u + 6)).counter =
        dec16 (((storeBytes F).take (u + 6) ++
          List.replicate (STORE_SIZE - (u + 6)) 255).drop 6) := rfl
    rw [hpr, storeBytes_take_split F hwf, List.append_assoc]
    rfl
  rw [hshow]
  have htl : (le16 F.counter ++ F.settings) ++ le16 F.crc =
      F.counter % 256 :: (F.counter / 256 % 256) :: (F.settings ++ le16 F.crc) := by
    simp [le16]
  have hm6 : 6 ≤ STORE_SIZE - (u + 6) + u → True := fun _ => trivial
  rcases u with _ | _ | u2
  · rw [List.take_zero, List.nil_append]
    have h0 : (List.replicate (STORE_SIZE - 6) (255 : Nat)).getD 0 0 = 255 :=
      getD_replicate_255 _ 0 (by simp only [STORE_SIZE]; omega)
    have h1 : (List.replicate (STORE_SIZE - 6) (255 : Nat)).getD 1 0 = 255 :=
      getD_replicate_255 _ 1 (by simp only [STORE_SIZE]; omega)
    simp only [dec16, h0, h1]
    omega
  · rw [htl]
    show F.counter ≤ dec16 ([F.counter % 256] ++
        List.replicate (STORE_SIZE - 7) 255) ∧
      dec16 ([F.counter % 256] ++ List.replicate (STORE_SIZE - 7) 255) < 2 ^ 16
    have h1 : (List.replicate (STORE_SIZE - 7) (255 : Nat)).getD 0 0 = 255 :=
      getD_replicate_255 _ 0 (by simp only [STORE_SIZE]; omega)
    have hd : dec16 ([F.counter % 256] ++ List.replicate (STORE_SIZE - 7) 255) =
        F.counter % 256 + 256 * 255 := by
      show F.counter % 256 + 256 * (List.replicate (STORE_SIZE - 7) (255 : Nat)).getD 0 0 =
        F.counter % 256 + 256 * 255
      rw [h1]
    rw [hd]
    omega
  · rw [htl]
    show F.counter ≤ dec16 (F.counter % 256 :: (F.counter / 256 % 256) ::
        ((F.settings ++ le16 F.crc).take u2 ++ List.replicate (STORE_SIZE - (u2 + 2 + 6)) 255)) ∧
      dec16 (F.counter % 256 :: (F.counter / 256 % 256) ::
        ((F.settings ++ le16 F.crc).take u2 ++ List.replicate (STORE_SIZE - (u2 + 2 + 6)) 255)) < 2 ^ 16
    have hd : dec16 (F.counter % 256 :: (F.counter / 256 % 256) ::
        ((F.settings ++ le16 F.crc).take u2 ++ List.replicate (STORE_SIZE - (u2 + 2 + 6)) 255)) =
        F.counter % 256 + 256 * (F.counter / 256 % 256) := rfl
    rw [hd]
    omega

/-- The torn frame is itself a well-formed frame once the header
survived. -/
theorem tornStore_wf (F : Store) (hwf : wfFrame F) (s : Nat)
    (h6 : 6 ≤ s) (h41 : s ≤ STORE_SIZE) : wfFrame (tornStore F s) := by
  obtain ⟨hm, hl⟩ := tornStore_magic F hwf s h6
  obtain ⟨-, hc⟩ := tornStore_counter F hwf s h6 h41
  refine ⟨hm, hl, hc, ?_, ?_, ?_⟩
  · exact dec16_lt _ (by
      intro x hx
      exact torn_bytes_lt F hwf s x (List.mem_of_mem_drop hx))
  · show ((((storeBytes F).take s ++
      List.replicate (STORE_SIZE - s) 255).drop 8).take SETTINGS_SIZE).length = SETTINGS_SIZE
    rw [List.length_take, List.length_drop, torn_bytes_length F hwf s h41]
    simp only [STORE_SIZE, SETTINGS_SIZE]
    omega
  · intro b hb
    exact torn_bytes_lt F hwf s b
      (List.mem_of_mem_drop (List.mem_of_mem_take hb))

/-- A full-length frame with the right magic is either VALID or
CORRUPT (never stale). -/
theorem integrity_cases (st : Store) (hm : st.magic = SETTINGS_MAGIC)
    (hl : st.length = STORE_SIZE) :
    check_store_integrity st = 1 ∨ check_store_integrity st = 0 := by
  rw [check_store_integrity]
  rw [if_neg (by simp [hm])]
  rw [if_neg (by simp [hl])]
  by_cases hc : st.crc = crc_ccitt ((storeBytes st).take (st.length - 2))
  · left
    rw [if_pos hc, if_neg (by simp [hl])]
  · right
    rw [if_neg hc]

theorem getLastD_concat_store (l : List Store) (a d : Store) :
    (l ++ [a]).getLastD d = a := by
  induction l generalizing d with
  | nil => rfl
  | cons x xs ih =>
    rw [List.cons_append, List.getLastD_cons]
    exact ih x

theorem dropLast_concat_getLastD (l : List Store) (d : Store) (h : l ≠ []) :
    l.dropLast ++ [l.getLastD d] = l := by
  induction l generalizing d with
  | nil => exact absurd rfl h
  | cons x xs ih =>
    cases xs with
    | nil => rfl
    | cons y ys =>
      rw [List.getLastD_cons, List.dropLast_cons₂, List.cons_append]
      rw [ih x (by simp)]

/-! ## The A/B store invariant under init and save -/

theorem PartInv_length (p : Bytes) (cs : List Store) (ps : Nat)
    (hp : PartInv p cs ps) : p.length = ps := by
  obtain ⟨heq, hb, hf⟩ := hp
  rw [heq, List.length_append,
    chainBytes_length cs (fun s hs => ((hf s hs).1).2.2.2.2.1),
    List.length_replicate]
  simp only [STORE_SIZE] at *
  omega

theorem StInv_init (psA psB : Nat) (hA : 6 ≤ psA) (hB : 6 ≤ psB) :
    StInv psA psB 0 (settings_storage_init zeroHandle) (emptyFlash psA psB) := by
  refine ⟨[], [], ?_, ?_, rfl, rfl, rfl, rfl, wfFrame_default.1, by decide, by decide,
    ?_, ?_, ?_⟩
  · refine ⟨?_, ?_, ?_⟩
    · show List.replicate psA 255 = chainBytes [] ++
        List.replicate (psA - STORE_SIZE * List.length ([] : List Store)) 255
      rw [chainBytes_nil, List.nil_append]
      norm_num
    · simpa using hA
    · intro s hs
      simp at hs
  · refine ⟨?_, ?_, ?_⟩
    · show List.replicate psB 255 = chainBytes [] ++
        List.replicate (psB - STORE_SIZE * List.length ([] : List Store)) 255
      rw [chainBytes_nil, List.nil_append]
      norm_num
    · simpa using hB
    · intro s hs
      simp at hs
  · show default_settings_store.counter ≤ 0
    decide
  · intro h0
    exact ⟨rfl, rfl, rfl⟩
  · intro hne
    exact absurd (by decide) hne

theorem save_inv (psA psB n : Nat) (h : Handle) (fl : Flash) (S : Bytes)
    (hinv : StInv psA psB n h fl) (hS : validPayload S)
    (hA47 : 47 ≤ psA) (hB47 : 47 ≤ psB)
    (hApad : 6 ≤ psA % STORE_SIZE) (hBpad : 6 ≤ psB % STORE_SIZE)
    (hA32 : psA < 2 ^ 32) (hB32 : psB < 2 ^ 32)
    (hn : n + 1 < 2 ^ 16) :
    ∃ h2 fl2 log, settings_storage_save h fl S = .ok (h2, fl2, log) ∧
      StInv psA psB (n + 1) h2 fl2 := by
  obtain ⟨csA, csB, hPA, hPB, hoffA, hoffB, hwn, hini, hwfl, hstA, hstB, hcle, h0, hpos⟩ :=
    hinv
  by_cases hset : h.latest_store.settings = S
  · refine ⟨_, _, _, save_noop h fl S hset hwn, csA, csB, hPA, hPB, hoffA, hoffB, rfl,
      hini, hwfl, hstA, hstB, ?_, h0, hpos⟩
    show h.latest_store.counter ≤ n + 1
    omega
  have hcond : h.latest_store.settings ≠ S ∨ h.write_needed = true := Or.inl hset
  have hFc : (update_settings_store S h.latest_store).counter =
      h.latest_store.counter + 1 := by
    rw [update_settings_store_counter]
    exact Nat.mod_eq_of_lt (by omega)
  have hwfF : wfFrame (update_settings_store S h.latest_store) :=
    wfFrame_update S h.latest_store hwfl.1 hS.1 hS.2
  have hintF : check_store_integrity (update_settings_store S h.latest_store) = 1 :=
    integrity_update S h.latest_store hwfl.1 hS.1
  have hlenA : fl.pa.length = psA := PartInv_length _ _ _ hPA
  have hlenB : fl.pb.length = psB := PartInv_length _ _ _ hPB
  have hwfsA : ∀ s ∈ csA, s.settings.length = SETTINGS_SIZE :=
    fun s hs => ((hPA.2.2 s hs).1).2.2.2.2.1
  have hwfsB : ∀ s ∈ csB, s.settings.length = SETTINGS_SIZE :=
    fun s hs => ((hPB.2.2 s hs).1).2.2.2.2.1
  by_cases hodd : (update_settings_store S h.latest_store).counter % 2 = 1
  · -- target partition B
    have hodd2 := hodd
    rw [hFc] at hodd2
    have hceven : ¬ h.latest_store.counter % 2 = 1 := by omega
    by_cases hfitB : STORE_SIZE * csB.length + STORE_SIZE ≤ psB
    · -- append into B
      have hsave := save_step_B_append h fl S csB (psB - STORE_SIZE * csB.length)
        hcond hodd hPB.1 hoffB hstB hwfsB hS.1
        (by simp only [STORE_SIZE] at *; omega)
        (by simp only [STORE_SIZE] at *; omega)
      refine ⟨_, _, _, hsave, csA, csB ++ [update_settings_store S h.latest_store],
        hPA, ?_, ?_, ?_, rfl, hini, hwfF, hstA, ?_, ?_, ?_, ?_⟩
      · refine ⟨?_, ?_, ?_⟩
        · show chainBytes (csB ++ [update_settings_store S h.latest_store]) ++
            List.replicate (psB - STORE_SIZE * csB.length - STORE_SIZE) 255 =
            chainBytes (csB ++ [update_settings_store S h.latest_store]) ++
            List.replicate (psB - STORE_SIZE *
              (csB ++ [update_settings_store S h.latest_store]).length) 255
          congr 2
          simp only [List.length_append, List.length_cons, List.length_nil,
            STORE_SIZE] at *
          omega
        · simp only [List.length_append, List.length_cons, List.length_nil,
            STORE_SIZE] at *
          omega
        · intro s hs
          rcases List.mem_append.mp hs with hs | hs
          · exact hPB.2.2 s hs
          · rw [List.mem_singleton.mp hs]
            exact ⟨hwfF, hintF⟩
      · exact hoffA
      · show STORE_SIZE * csB.length + STORE_SIZE =
          STORE_SIZE * (csB ++ [update_settings_store S h.latest_store]).length
        simp only [List.length_append, List.length_cons, List.length_nil]
        ring
      · show ¬ (1 : Int) = -1
        decide
      · show (update_settings_store S h.latest_store).counter ≤ n + 1
        rw [hFc]
        omega
      · intro hz
        have hz2 : (update_settings_store S h.latest_store).counter = 0 := hz
        rw [hFc] at hz2
        omega
      · intro hnz
        refine ⟨hintF, ⟨?_, ?_⟩⟩
        · intro _
          refine ⟨by simp, getLastD_concat_store _ _ _, ?_, ?_⟩
          · intro h1
            have h1b : (update_settings_store S h.latest_store).counter = 1 := h1
            rw [hFc] at h1b
            exact (h0 (by omega)).1
          · intro h1
            have hcz : h.latest_store.counter ≠ 0 := by
              intro hq
              exact h1 (show (update_settings_store S h.latest_store).counter = 1 by
                rw [hFc, hq])
            obtain ⟨-, -, heven⟩ := hpos hcz
            obtain ⟨hAne, hAtop, -, -⟩ := heven hceven
            refine ⟨hAne, ?_⟩
            show (csA.getLastD junkStore).counter =
              (update_settings_store S h.latest_store).counter - 1
            rw [hFc, hAtop]
            omega
        · intro hno
          exact absurd hodd hno
    · -- partition B full: erase and rewrite
      have hsave := save_step_B_erase h fl S hcond hodd
        (by rw [hlenB, hoffB]; omega) hS.1
        (by rw [hlenB]; simp only [STORE_SIZE]; omega) (by rw [hlenB]; omega)
      have hcz : h.latest_store.counter ≠ 0 := by
        intro hz
        obtain ⟨-, hBnil, -⟩ := h0 hz
        rw [hBnil] at hfitB
        simp only [List.length_nil, Nat.mul_zero, Nat.zero_add, STORE_SIZE] at hfitB
        omega
      refine ⟨_, _, _, hsave, csA, [update_settings_store S h.latest_store],
        hPA, ?_, ?_, ?_, rfl, hini, hwfF, hstA, ?_, ?_, ?_, ?_⟩
      · refine ⟨?_, ?_, ?_⟩
        · show storeBytes (update_settings_store S h.latest_store) ++
            List.replicate (fl.pb.length - STORE_SIZE) 255 =
            chainBytes [update_settings_store S h.latest_store] ++
            List.replicate (psB - STORE_SIZE *
              [update_settings_store S h.latest_store].length) 255
          rw [chainBytes_cons, chainBytes_nil, List.append_nil, hlenB]
          have harg : psB - STORE_SIZE = psB - STORE_SIZE *
              [update_settings_store S h.latest_store].length := by
            simp only [List.length_cons, List.length_nil, STORE_SIZE]
          rw [← harg]
        · simp only [List.length_cons, List.length_nil, STORE_SIZE] at *
          omega
        · intro s hs
          rw [List.mem_singleton.mp hs]
          exact ⟨hwfF, hintF⟩
      · exact hoffA
      · show STORE_SIZE = STORE_SIZE * [update_settings_store S h.latest_store].length
        simp
      · show ¬ (1 : Int) = -1
        decide
      · show (update_settings_store S h.latest_store).counter ≤ n + 1
        rw [hFc]
        omega
      · intro hz
        have hz2 : (update_settings_store S h.latest_store).counter = 0 := hz
        rw [hFc] at hz2
        omega
      · intro hnz
        refine ⟨hintF, ⟨?_, ?_⟩⟩
        · intro _
          refine ⟨by simp, getLastD_concat_store [] _ _, ?_, ?_⟩
          · intro h1
            have h1b : (update_settings_store S h.latest_store).counter = 1 := h1
            rw [hFc] at h1b
            omega
          · intro _
            obtain ⟨-, -, heven⟩ := hpos hcz
            obtain ⟨hAne, hAtop, -, -⟩ := heven hceven
            refine ⟨hAne, ?_⟩
            show (csA.getLastD junkStore).counter =
              (update_settings_store S h.latest_store).counter - 1
            rw [hFc, hAtop]
            omega
        · intro hno
          exact absurd hodd hno
  · -- target partition A
    have hodd2 := hodd
    rw [hFc] at hodd2
    have hcodd : h.latest_store.counter % 2 = 1 := by omega
    have hcz : h.latest_store.counter ≠ 0 := by omega
    obtain ⟨-, hoddcl, -⟩ := hpos hcz
    obtain ⟨hBne, hBtop, -, -⟩ := hoddcl hcodd
    by_cases hfitA : STORE_SIZE * csA.length + STORE_SIZE ≤ psA
    · -- append into A
      have hsave := save_step_A_append h fl S csA (psA - STORE_SIZE * csA.length)
        hcond hodd hPA.1 hoffA hstA hwfsA hS.1
        (by simp only [STORE_SIZE] at *; omega)
        (by simp only [STORE_SIZE] at *; omega)
      refine ⟨_, _, _, hsave, csA ++ [update_settings_store S h.latest_store], csB,
        ?_, hPB, ?_, ?_, rfl, hini, hwfF, ?_, hstB, ?_, ?_, ?_⟩
      · refine ⟨?_, ?_, ?_⟩
        · show chainBytes (csA ++ [update_settings_store S h.latest_store]) ++
            List.replicate (psA - STORE_SIZE * csA.length - STORE_SIZE) 255 =
            chainBytes (csA ++ [update_settings_store S h.latest_store]) ++
            List.replicate (psA - STORE_SIZE *
              (csA ++ [update_settings_store S h.latest_store]).length) 255
          congr 2
          simp only [List.length_append, List.length_cons, List.length_nil,
            STORE_SIZE] at *
          omega
        · simp only [List.length_append, List.length_cons, List.length_nil,
            STORE_SIZE] at *
          omega
        · intro s hs
          rcases List.mem_append.mp hs with hs | hs
          · exact hPA.2.2 s hs
          · rw [List.mem_singleton.mp hs]
            exact ⟨hwfF, hintF⟩
      · show STORE_SIZE * csA.length + STORE_SIZE =
          STORE_SIZE * (csA ++ [update_settings_store S h.latest_store]).length
        simp only [List.length_append, List.length_cons, List.length_nil]
        ring
      · exact hoffB
      · show ¬ (1 : Int) = -1
        decide
      · show (update_settings_store S h.latest_store).counter ≤ n + 1
        rw [hFc]
        omega
      · intro hz
        have hz2 : (update_settings_store S h.latest_store).counter = 0 := hz
        rw [hFc] at hz2
        omega
      · intro hnz
        refine ⟨hintF, ⟨?_, ?_⟩⟩
        · intro hyes
          exact absurd hyes hodd
        · intro _
          refine ⟨by simp, getLastD_concat_store _ _ _, hBne, ?_⟩
          show (csB.getLastD junkStore).counter =
            (update_settings_store S h.latest_store).counter - 1
          rw [hFc, hBtop]
          omega
    · -- partition A full: erase and rewrite
      have hsave := save_step_A_erase h fl S hcond hodd
        (by rw [hlenA, hoffA]; omega) hS.1
        (by rw [hlenA]; simp only [STORE_SIZE]; omega) (by rw [hlenA]; omega)
      refine ⟨_, _, _, hsave, [update_settings_store S h.latest_store], csB,
        ?_, hPB, ?_, ?_, rfl, hini, hwfF, ?_, hstB, ?_, ?_, ?_⟩
      · refine ⟨?_, ?_, ?_⟩
        · show storeBytes (update_settings_store S h.latest_store) ++
            List.replicate (fl.pa.length - STORE_SIZE) 255 =
            chainBytes [update_settings_store S h.latest_store] ++
            List.replicate (psA - STORE_SIZE *
              [update_settings_store S h.latest_store].length) 255
          rw [chainBytes_cons, chainBytes_nil, List.append_nil, hlenA]
          have harg : psA - STORE_SIZE = psA - STORE_SIZE *
              [update_settings_store S h.latest_store].length := by
            simp only [List.length_cons, List.length_nil, STORE_SIZE]
          rw [← harg]
        · simp only [List.length_cons, List.length_nil, STORE_SIZE] at *
          omega
        · intro s hs
          rw [List.mem_singleton.mp hs]
          exact ⟨hwfF, hintF⟩
      · show STORE_SIZE = STORE_SIZE * [update_settings_store S h.latest_store].length
        simp
      · exact hoffB
      · show ¬ (1 : Int) = -1
        decide
      · show (update_settings_store S h.latest_store).counter ≤ n + 1
        rw [hFc]
        omega
      · intro hz
        have hz2 : (update_settings_store S h.latest_store).counter = 0 := hz
        rw [hFc] at hz2
        omega
      · intro hnz
        refine ⟨hintF, ⟨?_, ?_⟩⟩
        · intro hyes
          exact absurd hyes hodd
        · intro _
          refine ⟨by simp, getLastD_concat_store [] _ _, hBne, ?_⟩
          show (csB.getLastD junkStore).counter =
            (update_settings_store S h.latest_store).counter - 1
          rw [hFc, hBtop]
          omega

/-- Running a list of valid saves from an invariant state succeeds and
preserves the invariant; the cached settings end up being the last
payload saved (or stay as they were for an empty list). -/
theorem runSaves_inv (psA psB : Nat) (ss : List Bytes) :
    ∀ (n : Nat) (h : Handle) (fl : Flash),
    StInv psA psB n h fl →
    (∀ S ∈ ss, validPayload S) →
    47 ≤ psA → 47 ≤ psB → 6 ≤ psA % STORE_SIZE → 6 ≤ psB % STORE_SIZE →
    psA < 2 ^ 32 → psB < 2 ^ 32 → n + ss.length + 1 ≤ 2 ^ 16 →
    ∃ h1 fl1, runSaves h fl ss = .ok (h1, fl1) ∧
      StInv psA psB (n + ss.length) h1 fl1 ∧
      h1.latest_store.settings = ss.getLastD h.latest_store.settings := by
  induction ss with
  | nil =>
    intro n h fl hinv hval hA hB hpa hpb ha32 hb32 hcnt
    exact ⟨h, fl, rfl, by simpa using hinv, rfl⟩
  | cons S ss ih =>
    intro n h fl hinv hval hA hB hpa hpb ha32 hb32 hcnt
    obtain ⟨h2, fl2, log, hsave, hinv2⟩ := save_inv psA psB n h fl S hinv
      (hval S (by simp)) hA hB hpa hpb ha32 hb32
      (by simp only [List.length_cons] at hcnt; omega)
    obtain ⟨h1, fl1, hrun, hinv1, hlast⟩ := ih (n + 1) h2 fl2 hinv2
      (fun T hT => hval T (by simp [hT]))
      hA hB hpa hpb ha32 hb32 (by simp only [List.length_cons] at hcnt; omega)
    refine ⟨h1, fl1, ?_, ?_, ?_⟩
    · rw [runSaves, hsave]
      exact hrun
    · have harith : n + 1 + ss.length = n + (S :: ss).length := by
        simp only [List.length_cons]
        omega
      rw [← harith]
      exact hinv1
    · rw [List.getLastD_cons, hlast, (save_post h fl S h2 fl2 log hsave).2]

/-- Scanning a partition that satisfies the chain invariant: EMPTY when
the chain is empty, otherwise VALID with the newest frame. -/
theorem PartInv_scan (p : Bytes) (cs : List Store) (ps : Nat)
    (hp : PartInv p cs ps) (h32 : ps < 2 ^ 32) :
    (cs = [] → find_latest_valid_store p = some (.ok (1, junkStore, 0))) ∧
    (cs ≠ [] → find_latest_valid_store p =
      some (.ok (3, cs.getLastD junkStore, STORE_SIZE * cs.length))) := by
  obtain ⟨heq, hb, hf⟩ := hp
  constructor
  · intro hnil
    subst hnil
    rw [heq]
    rw [chainBytes_nil, List.nil_append]
    have h6 : 6 ≤ ps - STORE_SIZE * List.length ([] : List Store) := by
      simpa using hb
    have h32b : ps - STORE_SIZE * List.length ([] : List Store) < 2 ^ 32 := by
      simp only [List.length_nil, Nat.mul_zero, Nat.sub_zero]
      omega
    exact flvs_ff _ h6 h32b
  · intro hne
    have hdec := dropLast_concat_getLastD cs junkStore hne
    have hlen : cs.dropLast.length = cs.length - 1 := List.length_dropLast cs
    have hmem : cs.getLastD junkStore ∈ cs := by
      conv in cs.getLastD junkStore ∈ cs => rw [← hdec]
      exact List.mem_append.mpr (Or.inr (by simp))
    have hwftop : wfFrame (cs.getLastD junkStore) := (hf _ hmem).1
    have hinttop : check_store_integrity (cs.getLastD junkStore) = 1 := (hf _ hmem).2
    have hcl : 0 < cs.length := List.length_pos_of_ne_nil hne
    have hchain := flvs_chain_valid cs.dropLast (cs.getLastD junkStore)
      (ps - STORE_SIZE * cs.length)
      (by
        rw [hdec]
        intro s hs
        exact ⟨((hf s hs).1).1, ((hf s hs).1).2.1, ((hf s hs).1).2.2.2.2.1⟩)
      hwftop hinttop
      (by simp only [STORE_SIZE] at *; omega)
      (by
        rw [hlen]
        have : cs.length - 1 + 1 = cs.length := by omega
        rw [this]
        simp only [STORE_SIZE] at *
        omega)
    rw [hdec] at hchain
    rw [heq, hchain]
    have harith : cs.dropLast.length + 1 = cs.length := by
      rw [hlen]
      omega
    rw [harith]

/-- Loading from a flash state that satisfies the store invariant hands
back the cached settings of the invariant state, for any
not-yet-initialised handle. -/
theorem load_StInv (psA psB n : Nat) (h : Handle) (fl : Flash)
    (hinv : StInv psA psB n h fl) (hA32 : psA < 2 ^ 32) (hB32 : psB < 2 ^ 32)
    (h0 : Handle) (buf : Bytes) (hini0 : h0.initialized = false) :
    ∃ h', settings_storage_load h0 fl buf = some (.ok (h', buf)) ∧
      h'.latest_store = h.latest_store ∧ h'.initialized = true := by
  obtain ⟨csA, csB, hPA, hPB, hoffA, hoffB, hwn, hini, hwfl, hstA, hstB, hcle, h00, hpos⟩ :=
    hinv
  obtain ⟨hAempty, hAfull⟩ := PartInv_scan fl.pa csA psA hPA hA32
  obtain ⟨hBempty, hBfull⟩ := PartInv_scan fl.pb csB psB hPB hB32
  by_cases hc : h.latest_store.counter = 0
  · obtain ⟨hAnil, hBnil, hdef⟩ := h00 hc
    obtain ⟨h', hload, hlst, -, hini'⟩ := load_none_clean h0 fl 1 1 junkStore
      junkStore 0 0 buf hini0 (hAempty hAnil) (hBempty hBnil)
      (Or.inr rfl) (Or.inr rfl)
    exact ⟨h', hload, by rw [hlst, hdef], hini'⟩
  · obtain ⟨hint, hoddcl, hevencl⟩ := hpos hc
    by_cases hpar : h.latest_store.counter % 2 = 1
    · obtain ⟨hBne, hBtop, hc1A, hcgt⟩ := hoddcl hpar
      by_cases hc1 : h.latest_store.counter = 1
      · obtain ⟨h', hload, hlst, -, hini'⟩ := load_B_clean h0 fl 1 3 junkStore
          (csB.getLastD junkStore) 0 (STORE_SIZE * csB.length) buf hini0
          (hAempty (hc1A hc1)) (hBfull hBne) (Or.inr rfl) (Or.inr rfl)
        exact ⟨h', hload, by rw [hlst, hBtop], hini'⟩
      · obtain ⟨hAne, hAcnt⟩ := hcgt hc1
        obtain ⟨h', hload, hlst, -, hini'⟩ := load_both_clean h0 fl 3 3
          (csA.getLastD junkStore) (csB.getLastD junkStore)
          (STORE_SIZE * csA.length) (STORE_SIZE * csB.length) buf hini0
          (hAfull hAne) (hBfull hBne) (Or.inr rfl) (Or.inr rfl)
        rw [if_neg (show ¬ (csA.getLastD junkStore).counter ≥
            (csB.getLastD junkStore).counter from by
          rw [hAcnt, hBtop]
          omega)] at hlst
        exact ⟨h', hload, by rw [hlst, hBtop], hini'⟩
    · obtain ⟨hAne, hAtop, hBne, hBcnt⟩ := hevencl hpar
      obtain ⟨h', hload, hlst, -, hini'⟩ := load_both_clean h0 fl 3 3
        (csA.getLastD junkStore) (csB.getLastD junkStore)
        (STORE_SIZE * csA.length) (STORE_SIZE * csB.length) buf hini0
        (hAfull hAne) (hBfull hBne) (Or.inr rfl) (Or.inr rfl)
      rw [if_pos (show (csA.getLastD junkStore).counter ≥
          (csB.getLastD junkStore).counter from by
        rw [hAtop, hBcnt]
        omega)] at hlst
      exact ⟨h', hload, by rw [hlst, hAtop], hini'⟩

/-- `parse_partition` when the very first word is neither the magic nor
the erased word: invalid data. -/
theorem parse_head_eilseq (p : Bytes) (L : Nat) (h6 : 6 ≤ p.length) (hL : 0 < L)
    (hm : dec32 (p.take 6) ≠ SETTINGS_MAGIC)
    (hff : dec32 (p.take 6) ≠ ERASED_WORD) :
    parse_partition p L = some (.error .EILSEQ) := by
  rw [parse_partition]
  have hread : readPart p 0 6 = .ok (p.take 6) := by
    simp only [readPart]
    rw [if_neg (by push_neg; calc (0 + 6) % 2 ^ 32 ≤ 0 + 6 := Nat.mod_le _ _
      _ ≤ p.length := by omega)]
    rw [List.drop_zero]
  cases L with
  | zero => omega
  | succ L0 =>
    rw [show L0 + 1 + 1 = (L0 + 1) + 1 from rfl]
    rw [parseAux_step_read _ _ _ _ _ _ _ (by omega) hread]
    rw [if_pos hm, if_pos hff]

/-- `parse_partition` when the very first word reads as erased: the
partition is empty. -/
theorem parse_head_enoent (p : Bytes) (L : Nat) (h6 : 6 ≤ p.length) (hL : 0 < L)
    (hff : dec32 (p.take 6) = ERASED_WORD) :
    parse_partition p L = some (.error .ENOENT) := by
  rw [parse_partition]
  have hread : readPart p 0 6 = .ok (p.take 6) := by
    simp only [readPart]
    rw [if_neg (by push_neg; calc (0 + 6) % 2 ^ 32 ≤ 0 + 6 := Nat.mod_le _ _
      _ ≤ p.length := by omega)]
    rw [List.drop_zero]
  cases L with
  | zero => omega
  | succ L0 =>
    rw [show L0 + 1 + 1 = (L0 + 1) + 1 from rfl]
    rw [parseAux_step_read _ _ _ _ _ _ _ (by omega) hread]
    rw [if_pos (show dec32 (p.take 6) ≠ SETTINGS_MAGIC from by
      rw [hff]; decide)]
    rw [if_neg (show ¬ dec32 (p.take 6) ≠ ERASED_WORD from by simp [hff])]
    rw [if_pos rfl]

/-- Scanning a partition holding a valid chain, then a frame write torn
at byte `t` (`1 ≤ t < 41`), then erased space: the scan reports either
CORRUPT, or (only when the 6-byte header survived) the decoded torn
frame as VALID, whose counter is at least the written one. -/
theorem scan_torn_cases (cs : List Store) (F : Store) (free t : Nat)
    (hwf : ∀ s ∈ cs, wfFrame s ∧ check_store_integrity s = 1)
    (hwfF : wfFrame F)
    (ht1 : 1 ≤ t) (ht41 : t < STORE_SIZE)
    (hfree : 47 ≤ free)
    (hps : STORE_SIZE * cs.length + free ≤ 65321) :
    (∃ b o, find_latest_valid_store
        (chainBytes cs ++ ((storeBytes F).take t ++ List.replicate (free - t) 255)) =
      some (.ok (0, b, o))) ∨
    (6 ≤ t ∧ check_store_integrity (tornStore F t) = 1 ∧
      F.counter ≤ (tornStore F t).counter ∧ (tornStore F t).counter < 2 ^ 16 ∧
      find_latest_valid_store
        (chainBytes cs ++ ((storeBytes F).take t ++ List.replicate (free - t) 255)) =
      some (.ok (3, tornStore F t, STORE_SIZE * (cs.length + 1)))) := by
  have hwf3 : ∀ s ∈ cs, s.magic = SETTINGS_MAGIC ∧ s.length = STORE_SIZE ∧
      s.settings.length = SETTINGS_SIZE := fun s hs =>
    ⟨(hwf s hs).1.1, (hwf s hs).1.2.1, (hwf s hs).1.2.2.2.2.1⟩
  have hFb := storeBytes_cons_form F hwfF.1 hwfF.2.1
  have hFlen : (storeBytes F).length = STORE_SIZE :=
    storeBytes_length F hwfF.2.2.2.2.1
  have hlenC : (chainBytes cs ++ ((storeBytes F).take t ++
      List.replicate (free - t) 255)).length = STORE_SIZE * cs.length + free := by
    rw [List.length_append, List.length_append,
      chainBytes_length _ (fun s hs => (hwf3 s hs).2.2)]
    simp only [List.length_take, List.length_replicate, hFlen]
    simp only [STORE_SIZE] at ht41 ⊢
    omega
  by_cases ht6 : 6 ≤ t
  · -- the whole header survived: the torn frame parses as a frame
    have hTmag := tornStore_magic F hwfF t ht6
    have hTwf := tornStore_wf F hwfF t ht6 (by simp only [STORE_SIZE] at ht41 ⊢; omega)
    have hTcnt := tornStore_counter F hwfF t ht6
      (by simp only [STORE_SIZE] at ht41 ⊢; omega)
    have hwfT3 : ∀ s ∈ cs ++ [tornStore F t], s.magic = SETTINGS_MAGIC ∧
        s.length = STORE_SIZE ∧ s.settings.length = SETTINGS_SIZE := by
      intro s hs
      rcases List.mem_append.1 hs with h | h
      · exact hwf3 s h
      · rcases List.mem_singleton.1 h with rfl
        exact ⟨hTmag.1, hTmag.2, hTwf.2.2.2.2.1⟩
    have hcontent : chainBytes cs ++ ((storeBytes F).take t ++
        List.replicate (free - t) 255) =
        chainBytes (cs ++ [tornStore F t]) ++
          List.replicate (free - STORE_SIZE) 255 := by
      rw [chainBytes_append, chainBytes_cons, chainBytes_nil, List.append_nil]
      rw [tornStore_storeBytes F hwfF t (by simp only [STORE_SIZE] at ht41 ⊢; omega)]
      rw [show free - t = (STORE_SIZE - t) + (free - STORE_SIZE) from by
        simp only [STORE_SIZE] at ht41 ⊢; omega]
      rw [List.replicate_add]
      simp [List.append_assoc]
    rcases integrity_cases (tornStore F t) hTmag.1 hTmag.2 with hint | hint
    · right
      refine ⟨ht6, hint, hTcnt.1, hTcnt.2, ?_⟩
      rw [hcontent]
      exact flvs_chain_valid cs (tornStore F t) (free - STORE_SIZE) hwfT3 hTwf hint
        (by simp only [STORE_SIZE]; omega)
        (by simp only [STORE_SIZE] at hps ⊢; omega)
    · left
      rw [hcontent, replicate_split6 (free - STORE_SIZE)
        (by simp only [STORE_SIZE]; omega)]
      obtain ⟨b, hb⟩ := flvs_chain_corrupt cs (tornStore F t) 255 255
        (List.replicate (free - STORE_SIZE - 6) 255) hwfT3 hTwf hint
        (by simp only [List.length_replicate]
            simp only [STORE_SIZE] at hps ⊢
            omega)
      exact ⟨b, STORE_SIZE * (cs.length + 1), hb⟩
  · -- header torn mid-way: the partition scans as corrupt
    left
    have ht5 : t < 6 := by omega
    have hsz6 : STORE_SIZE * cs.length + (6 + (List.replicate (free - 6)
        (255 : Nat)).length) < 2 ^ 32 := by
      simp only [List.length_replicate]
      simp only [STORE_SIZE] at hps ⊢
      omega
    interval_cases t
    · -- t = 1
      have hcontent : chainBytes cs ++ ((storeBytes F).take 1 ++
          List.replicate (free - 1) 255) =
          chainBytes cs ++ (79 :: 255 :: 255 :: 255 :: 255 :: 255 ::
            List.replicate (free - 6) 255) := by
        rw [hFb, show free - 1 = 5 + (free - 6) from by omega, List.replicate_add]
        rfl
      rw [hcontent]
      rw [hcontent] at hlenC
      have hpp := parse_partition_chain_break cs 79 255 255 255 255 255
        (List.replicate (free - 6) 255) hwf3 hsz6
        (chainBytes cs ++ (79 :: 255 :: 255 :: 255 :: 255 :: 255 ::
          List.replicate (free - 6) 255)).length
        (by rw [hlenC]; simp only [STORE_SIZE]; omega)
        (by rw [show dec32 [79, 255, 255, 255, 255, 255] =
              79 + 256 * 255 + 65536 * 255 + 16777216 * 255 from rfl]
            decide)
      rw [if_pos (by
        rw [show dec32 [79, 255, 255, 255, 255, 255] =
          79 + 256 * 255 + 65536 * 255 + 16777216 * 255 from rfl]
        decide)] at hpp
      exact ⟨junkStore, 0, flvs_of_parse_eilseq _ hpp (by rw [hlenC]; omega)⟩
    · -- t = 2
      have hcontent : chainBytes cs ++ ((storeBytes F).take 2 ++
          List.replicate (free - 2) 255) =
          chainBytes cs ++ (79 :: 80 :: 255 :: 255 :: 255 :: 255 ::
            List.replicate (free - 6) 255) := by
        rw [hFb, show free - 2 = 4 + (free - 6) from by omega, List.replicate_add]
        rfl
      rw [hcontent]
      rw [hcontent] at hlenC
      have hpp := parse_partition_chain_break cs 79 80 255 255 255 255
        (List.replicate (free - 6) 255) hwf3 hsz6
        (chainBytes cs ++ (79 :: 80 :: 255 :: 255 :: 255 :: 255 ::
          List.replicate (free - 6) 255)).length
        (by rw [hlenC]; simp only [STORE_SIZE]; omega)
        (by rw [show dec32 [79, 80, 255, 255, 255, 255] =
              79 + 256 * 80 + 65536 * 255 + 16777216 * 255 from rfl]
            decide)
      rw [if_pos (by
        rw [show dec32 [79, 80, 255, 255, 255, 255] =
          79 + 256 * 80 + 65536 * 255 + 16777216 * 255 from rfl]
        decide)] at hpp
      exact ⟨junkStore, 0, flvs_of_parse_eilseq _ hpp (by rw [hlenC]; omega)⟩
    · -- t = 3
      have hcontent : chainBytes cs ++ ((storeBytes F).take 3 ++
          List.replicate (free - 3) 255) =
          chainBytes cs ++ (79 :: 80 :: 78 :: 255 :: 255 :: 255 ::
            List.replicate (free - 6) 255) := by
        rw [hFb, show free - 3 = 3 + (free - 6) from by omega, List.replicate_add]
        rfl
      rw [hcontent]
      rw [hcontent] at hlenC
      have hpp := parse_partition_chain_break cs 79 80 78 255 255 255
        (List.replicate (free - 6) 255) hwf3 hsz6
        (chainBytes cs ++ (79 :: 80 :: 78 :: 255 :: 255 :: 255 ::
          List.replicate (free - 6) 255)).length
        (by rw [hlenC]; simp only [STORE_SIZE]; omega)
        (by rw [show dec32 [79, 80, 78, 255, 255, 255] =
              79 + 256 * 80 + 65536 * 78 + 16777216 * 255 from rfl]
            decide)
      rw [if_pos (by
        rw [show dec32 [79, 80, 78, 255, 255, 255] =
          79 + 256 * 80 + 65536 * 78 + 16777216 * 255 from rfl]
        decide)] at hpp
      exact ⟨junkStore, 0, flvs_of_parse_eilseq _ hpp (by rw [hlenC]; omega)⟩
    · -- t = 4: magic intact, length field reads as 0xFFFF
      have hcontent : chainBytes cs ++ ((storeBytes F).take 4 ++
          List.replicate (free - 4) 255) =
          chainBytes cs ++ (79 :: 80 :: 78 :: 88 :: 255 :: 255 ::
            List.replicate (free - 6) 255) := by
        rw [hFb, show free - 4 = 2 + (free - 6) from by omega, List.replicate_add]
        rfl
      rw [hcontent]
      rw [hcontent] at hlenC
      have hpp := parse_partition_chain_biglen cs 255 255
        (List.replicate (free - 6) 255) hwf3 hsz6
        (chainBytes cs ++ (79 :: 80 :: 78 :: 88 :: 255 :: 255 ::
          List.replicate (free - 6) 255)).length
        (by rw [hlenC]; simp only [STORE_SIZE]; omega)
        (by decide) (by decide)
        (by rw [hlenC]; simp only [STORE_SIZE] at hps ⊢; omega)
        (by simp only [STORE_SIZE] at hps ⊢; omega)
      exact ⟨junkStore, 0, flvs_of_parse_eilseq _ hpp (by rw [hlenC]; omega)⟩
    · -- t = 5: magic intact, length field reads as 0xFF29 = 65321
      have hcontent : chainBytes cs ++ ((storeBytes F).take 5 ++
          List.replicate (free - 5) 255) =
          chainBytes cs ++ (79 :: 80 :: 78 :: 88 :: 41 :: 255 ::
            List.replicate (free - 6) 255) := by
        rw [hFb, show free - 5 = 1 + (free - 6) from by omega, List.replicate_add]
        rfl
      rw [hcontent]
      rw [hcontent] at hlenC
      have hpp := parse_partition_chain_biglen cs 41 255
        (List.replicate (free - 6) 255) hwf3 hsz6
        (chainBytes cs ++ (79 :: 80 :: 78 :: 88 :: 41 :: 255 ::
          List.replicate (free - 6) 255)).length
        (by rw [hlenC]; simp only [STORE_SIZE]; omega)
        (by decide) (by decide)
        (by rw [hlenC]; simp only [STORE_SIZE] at hps ⊢; omega)
        (by simp only [STORE_SIZE] at hps ⊢; omega)
      exact ⟨junkStore, 0, flvs_of_parse_eilseq _ hpp (by rw [hlenC]; omega)⟩

theorem Flash.set_B_eq (fl : Flash) (x : Bytes) : fl.set .B x = { fl with pb := x } := rfl

theorem Flash.set_A_eq (fl : Flash) (x : Bytes) : fl.set .A x = { fl with pa := x } := rfl

theorem Flash.set_B_pa (fl : Flash) (x : Bytes) : (fl.set .B x).pa = fl.pa := rfl

theorem Flash.set_B_pb (fl : Flash) (x : Bytes) : (fl.set .B x).pb = x := rfl

theorem Flash.set_A_pa (fl : Flash) (x : Bytes) : (fl.set .A x).pa = x := rfl

theorem Flash.set_A_pb (fl : Flash) (x : Bytes) : (fl.set .A x).pb = fl.pb := rfl

theorem truncFlash_nil (fl : Flash) (t : Nat) : truncFlash fl [] t = fl := by
  simp [truncFlash, logBytes]

theorem truncFlash_zero (fl : Flash) (log : List Ev) : truncFlash fl log 0 = fl := rfl

/-- A truncation point at or past the end of the log applies the whole
log. -/
theorem truncFlash_ge (fl : Flash) (log : List Ev) (t : Nat)
    (ht : (logBytes log).length ≤ t) :
    truncFlash fl log t = truncFlash fl log (logBytes log).length := by
  rw [truncFlash, truncFlash, List.take_of_length_le ht, List.take_length]

/-- A single frame write torn at byte `t`. -/
theorem truncFlash_write (fl : Flash) (pid : PartId) (o : Nat) (data : Bytes)
    (t : Nat) (ht : t ≤ data.length) (hfit : o + data.length ≤ (fl.get pid).length) :
    truncFlash fl [Ev.write pid o data] t =
      fl.set pid ((fl.get pid).take o ++ data.take t ++ (fl.get pid).drop (o + t)) := by
  rw [truncFlash, logBytes_single]
  exact foldl_write_torn fl pid o data t ht hfit

/-- A single frame write that completed before the power loss. -/
theorem truncFlash_write_full (fl : Flash) (pid : PartId) (o : Nat) (data : Bytes)
    (t : Nat) (htd : data.length ≤ t)
    (hfit : o + data.length ≤ (fl.get pid).length) :
    truncFlash fl [Ev.write pid o data] t =
      fl.set pid ((fl.get pid).take o ++ data ++ (fl.get pid).drop (o + data.length)) := by
  rw [truncFlash, logBytes_single,
    List.take_of_length_le (by rw [evBytes_write_length]; exact htd)]
  have h1 := foldl_write_torn fl pid o data data.length le_rfl hfit
  rw [List.take_of_length_le (by rw [evBytes_write_length])] at h1
  rw [List.take_length] at h1
  exact h1

/-- An erase-then-rewrite torn during the erase pass. -/
theorem truncFlash_erase_part (fl : Flash) (pid : PartId) (size : Nat) (w : Ev)
    (t : Nat) (ht : t ≤ size) (hsz : size ≤ (fl.get pid).length) :
    truncFlash fl [Ev.erase pid size, w] t =
      fl.set pid (List.replicate t 255 ++ (fl.get pid).drop t) := by
  rw [truncFlash, logBytes_pair,
    List.take_append_of_le_length (by rw [evBytes_erase_length]; exact ht)]
  exact foldl_erase_torn fl pid size t ht hsz

/-- An erase-then-rewrite torn at byte `s` of the rewrite pass. -/
theorem truncFlash_erase_write (fl : Flash) (pid : PartId) (size : Nat)
    (data : Bytes) (s : Nat) (hs : s ≤ data.length)
    (hsz : size ≤ (fl.get pid).length) (hd : data.length ≤ size) :
    truncFlash fl [Ev.erase pid size, Ev.write pid 0 data] (size + s) =
      fl.set pid (data.take s ++ List.replicate (size - s) 255 ++
        (fl.get pid).drop size) := by
  rw [truncFlash, logBytes_pair]
  rw [show size + s = (evBytes (Ev.erase pid size)).length + s from by
    rw [evBytes_erase_length]]
  rw [List.take_append, List.foldl_append]
  have he := foldl_erase_torn fl pid size size le_rfl hsz
  rw [List.take_of_length_le (by rw [evBytes_erase_length])] at he
  rw [he]
  have hfit2 : 0 + data.length ≤
      ((fl.set pid (List.replicate size 255 ++ (fl.get pid).drop size)).get
        pid).length := by
    rw [Flash.get_set_same, List.length_append, List.length_replicate]
    omega
  have hw := foldl_write_torn
    (fl.set pid (List.replicate size 255 ++ (fl.get pid).drop size)) pid 0 data s
    hs hfit2
  rw [hw, Flash.get_set_same, Flash.set_set, List.take_zero, List.nil_append,
    Nat.zero_add,
    List.drop_append_of_le_length (by rw [List.length_replicate]; omega),
    List.drop_replicate, List.append_assoc]

/-- Load when partition B scans CORRUPT or EMPTY and partition A holds a
clean chain: the latest A frame (or the defaults) is cached. -/
theorem load_sideB_bad (h0 : Handle) (fl : Flash) (csA : List Store)
    (psA : Nat) (rB : Nat) (stB : Store) (oB : Nat) (buf : Bytes)
    (hini0 : h0.initialized = false)
    (hpa : PartInv fl.pa csA psA) (hA32 : psA < 2 ^ 32)
    (hscanB : find_latest_valid_store fl.pb = some (.ok (rB, stB, oB)))
    (hrB : rB = 0 ∨ rB = 1) :
    ∃ h', settings_storage_load h0 fl buf = some (.ok (h', buf)) ∧
      h'.initialized = true ∧
      ((csA = [] ∧ h'.latest_store = default_settings_store) ∨
       (csA ≠ [] ∧ h'.latest_store = csA.getLastD junkStore)) := by
  have hscan := PartInv_scan fl.pa csA psA hpa hA32
  by_cases hA0 : csA = []
  · obtain ⟨h', h1, hlst, -, hini'⟩ := load_none_clean h0 fl 1 rB junkStore stB
      0 oB buf hini0 (hscan.1 hA0) hscanB (Or.inr rfl) hrB
    exact ⟨h', h1, hini', Or.inl ⟨hA0, hlst⟩⟩
  · obtain ⟨h', h1, hlst, -, hini'⟩ := load_A_clean h0 fl 3 rB
      (csA.getLastD junkStore) stB (STORE_SIZE * csA.length) oB buf hini0
      (hscan.2 hA0) hscanB (Or.inr rfl) hrB
    exact ⟨h', h1, hini', Or.inr ⟨hA0, hlst⟩⟩

/-- Load when partition A scans CORRUPT or EMPTY and partition B holds a
clean chain: the latest B frame (or the defaults) is cached. -/
theorem load_sideA_bad (h0 : Handle) (fl : Flash) (csB : List Store)
    (psB : Nat) (rA : Nat) (stA : Store) (oA : Nat) (buf : Bytes)
    (hini0 : h0.initialized = false)
    (hpb : PartInv fl.pb csB psB) (hB32 : psB < 2 ^ 32)
    (hscanA : find_latest_valid_store fl.pa = some (.ok (rA, stA, oA)))
    (hrA : rA = 0 ∨ rA = 1) :
    ∃ h', settings_storage_load h0 fl buf = some (.ok (h', buf)) ∧
      h'.initialized = true ∧
      ((csB = [] ∧ h'.latest_store = default_settings_store) ∨
       (csB ≠ [] ∧ h'.latest_store = csB.getLastD junkStore)) := by
  have hscan := PartInv_scan fl.pb csB psB hpb hB32
  by_cases hB0 : csB = []
  · obtain ⟨h', h1, hlst, -, hini'⟩ := load_none_clean h0 fl rA 1 stA junkStore
      oA 0 buf hini0 hscanA (hscan.1 hB0) hrA (Or.inr rfl)
    exact ⟨h', h1, hini', Or.inl ⟨hB0, hlst⟩⟩
  · obtain ⟨h', h1, hlst, -, hini'⟩ := load_B_clean h0 fl rA 3 stA
      (csB.getLastD junkStore) oA (STORE_SIZE * csB.length) buf hini0 hscanA
      (hscan.2 hB0) hrA (Or.inr rfl)
    exact ⟨h', h1, hini', Or.inr ⟨hB0, hlst⟩⟩

/-- Load after a frame write to partition B torn at byte `t`
(`1 ≤ t < 41`), with a clean chain in partition A whose newest counter is
below the torn frame's written counter: the handle caches the latest A
frame, the defaults, or (when the torn frame's CRC happens to check out)
the decoded torn frame. -/
theorem load_tornB (h0 : Handle) (fl : Flash) (csA csB : List Store) (F : Store)
    (psA free t : Nat) (buf : Bytes)
    (hini0 : h0.initialized = false)
    (hpa : PartInv fl.pa csA psA) (hA32 : psA < 2 ^ 32)
    (hpb : fl.pb = chainBytes csB ++
      ((storeBytes F).take t ++ List.replicate (free - t) 255))
    (hwfB : ∀ s ∈ csB, wfFrame s ∧ check_store_integrity s = 1)
    (hwfF : wfFrame F)
    (ht1 : 1 ≤ t) (ht41 : t < STORE_SIZE)
    (hfree : 47 ≤ free)
    (hBsz : STORE_SIZE * csB.length + free ≤ 65321)
    (hAcnt : csA ≠ [] → (csA.getLastD junkStore).counter < F.counter) :
    ∃ h', settings_storage_load h0 fl buf = some (.ok (h', buf)) ∧
      h'.initialized = true ∧
      ((csA = [] ∧ h'.latest_store = default_settings_store) ∨
       (csA ≠ [] ∧ h'.latest_store = csA.getLastD junkStore) ∨
       (6 ≤ t ∧ check_store_integrity (tornStore F t) = 1 ∧
        h'.latest_store = tornStore F t)) := by
  have hscanA := PartInv_scan fl.pa csA psA hpa hA32
  rcases scan_torn_cases csB F free t hwfB hwfF ht1 ht41 hfree hBsz with
    ⟨b, o, hscanB⟩ | ⟨ht6, hint, hcnt1, hcnt2, hscanB⟩
  · rw [← hpb] at hscanB
    obtain ⟨h', h1, hini', hP⟩ := load_sideB_bad h0 fl csA psA 0 b o buf hini0
      hpa hA32 hscanB (Or.inl rfl)
    exact ⟨h', h1, hini', hP.imp id Or.inl⟩
  · rw [← hpb] at hscanB
    by_cases hA0 : csA = []
    · obtain ⟨h', h1, hlst, -, hini'⟩ := load_B_clean h0 fl 1 3 junkStore
        (tornStore F t) 0 (STORE_SIZE * (csB.length + 1)) buf hini0
        (hscanA.1 hA0) hscanB (Or.inr rfl) (Or.inr rfl)
      exact ⟨h', h1, hini', Or.inr (Or.inr ⟨ht6, hint, hlst⟩)⟩
    · obtain ⟨h', h1, hlst, -, hini'⟩ := load_both_clean h0 fl 3 3
        (csA.getLastD junkStore) (tornStore F t) (STORE_SIZE * csA.length)
        (STORE_SIZE * (csB.length + 1)) buf hini0 (hscanA.2 hA0) hscanB
        (Or.inr rfl) (Or.inr rfl)
      rw [if_neg (by push_neg; exact lt_of_lt_of_le (hAcnt hA0) hcnt1)] at hlst
      exact ⟨h', h1, hini', Or.inr (Or.inr ⟨ht6, hint, hlst⟩)⟩

/-- Load after a frame write to partition A torn at byte `t`
(`1 ≤ t < 41`), with a clean chain in partition B whose newest counter is
below the torn frame's written counter. -/
theorem load_tornA (h0 : Handle) (fl : Flash) (csA csB : List Store) (F : Store)
    (psB free t : Nat) (buf : Bytes)
    (hini0 : h0.initialized = false)
    (hpb : PartInv fl.pb csB psB) (hB32 : psB < 2 ^ 32)
    (hpa : fl.pa = chainBytes csA ++
      ((storeBytes F).take t ++ List.replicate (free - t) 255))
    (hwfA : ∀ s ∈ csA, wfFrame s ∧ check_store_integrity s = 1)
    (hwfF : wfFrame F)
    (ht1 : 1 ≤ t) (ht41 : t < STORE_SIZE)
    (hfree : 47 ≤ free)
    (hAsz : STORE_SIZE * csA.length + free ≤ 65321)
    (hBcnt : csB ≠ [] → (csB.getLastD junkStore).counter < F.counter) :
    ∃ h', settings_storage_load h0 fl buf = some (.ok (h', buf)) ∧
      h'.initialized = true ∧
      ((csB = [] ∧ h'.latest_store = default_settings_store) ∨
       (csB ≠ [] ∧ h'.latest_store = csB.getLastD junkStore) ∨
       (6 ≤ t ∧ check_store_integrity (tornStore F t) = 1 ∧
        h'.latest_store = tornStore F t)) := by
  have hscanB := PartInv_scan fl.pb csB psB hpb hB32
  rcases scan_torn_cases csA F free t hwfA hwfF ht1 ht41 hfree hAsz with
    ⟨b, o, hscanA⟩ | ⟨ht6, hint, hcnt1, hcnt2, hscanA⟩
  · rw [← hpa] at hscanA
    obtain ⟨h', h1, hini', hP⟩ := load_sideA_bad h0 fl csB psB 0 b o buf hini0
      hpb hB32 hscanA (Or.inl rfl)
    exact ⟨h', h1, hini', hP.imp id Or.inl⟩
  · rw [← hpa] at hscanA
    by_cases hB0 : csB = []
    · obtain ⟨h', h1, hlst, -, hini'⟩ := load_A_clean h0 fl 3 1 (tornStore F t)
        junkStore (STORE_SIZE * (csA.length + 1)) 0 buf hini0 hscanA
        (hscanB.1 hB0) (Or.inr rfl) (Or.inr rfl)
      exact ⟨h', h1, hini', Or.inr (Or.inr ⟨ht6, hint, hlst⟩)⟩
    · obtain ⟨h', h1, hlst, -, hini'⟩ := load_both_clean h0 fl 3 3
        (tornStore F t) (csB.getLastD junkStore)
        (STORE_SIZE * (csA.length + 1)) (STORE_SIZE * csB.length) buf hini0
        hscanA (hscanB.2 hB0) (Or.inr rfl) (Or.inr rfl)
      rw [if_pos (le_of_lt (lt_of_lt_of_le (hBcnt hB0) hcnt1))] at hlst
      exact ⟨h', h1, hini', Or.inr (Or.inr ⟨ht6, hint, hlst⟩)⟩

/-- Scanning a non-empty partition whose erase pass was torn after `t`
bytes: the scan reports CORRUPT (header torn mid-word) or EMPTY (the
whole first header word already reads erased). -/
theorem scan_partial_erase (cs : List Store) (rem t : Nat)
    (hwf : ∀ s ∈ cs, wfFrame s)
    (hne : cs ≠ [])
    (ht1 : 1 ≤ t)
    (ht : t ≤ (chainBytes cs ++ List.replicate rem 255).length) :
    ∃ r, (r = 0 ∨ r = 1) ∧
      find_latest_valid_store (List.replicate t 255 ++
        (chainBytes cs ++ List.replicate rem 255).drop t) =
      some (.ok (r, junkStore, 0)) := by
  have hwfs : ∀ s ∈ cs, s.settings.length = SETTINGS_SIZE :=
    fun s hs => (hwf s hs).2.2.2.2.1
  have hclen : (chainBytes cs).length = STORE_SIZE * cs.length :=
    chainBytes_length cs hwfs
  have hcs1 : 1 ≤ cs.length := by
    cases cs with
    | nil => exact absurd rfl hne
    | cons a l => simp
  have hCL : (List.replicate t (255 : Nat) ++
      (chainBytes cs ++ List.replicate rem 255).drop t).length =
      STORE_SIZE * cs.length + rem := by
    rw [List.length_append, List.length_replicate, List.length_drop,
      List.length_append, hclen, List.length_replicate]
    rw [List.length_append, hclen, List.length_replicate] at ht
    omega
  by_cases ht4 : 4 ≤ t
  · -- the first header word reads fully erased: EMPTY
    refine ⟨1, Or.inr rfl, ?_⟩
    obtain ⟨u, rfl⟩ : ∃ u, t = 4 + u := ⟨t - 4, by omega⟩
    have hcontent : List.replicate (4 + u) (255 : Nat) ++
        (chainBytes cs ++ List.replicate rem 255).drop (4 + u) =
        255 :: 255 :: 255 :: 255 :: (List.replicate u 255 ++
          (chainBytes cs ++ List.replicate rem 255).drop (4 + u)) := by
      rw [List.replicate_add]
      rfl
    rw [hcontent]
    rw [hcontent] at hCL
    refine flvs_of_parse_enoent _ ?_
      (by rw [hCL]; simp only [STORE_SIZE]; omega)
    refine parse_head_enoent _ _
      (by rw [hCL]; simp only [STORE_SIZE]; omega)
      (by rw [hCL]; simp only [STORE_SIZE]; omega) ?_
    have h1 : dec32 ((255 :: 255 :: 255 :: 255 :: (List.replicate u (255 : Nat) ++
        (chainBytes cs ++ List.replicate rem 255).drop (4 + u))).take 6) =
      255 + 256 * 255 + 65536 * 255 + 16777216 * 255 := rfl
    rw [h1]
    decide
  · -- the first header word is torn mid-way: CORRUPT
    refine ⟨0, Or.inl rfl, ?_⟩
    cases cs with
    | nil => exact absurd rfl hne
    | cons F0 rest =>
      have hF0 := hwf F0 (List.mem_cons_self F0 rest)
      have hF0b := storeBytes_cons_form F0 hF0.1 hF0.2.1
      have hF0len : (storeBytes F0).length = STORE_SIZE :=
        storeBytes_length F0 hF0.2.2.2.2.1
      have hdropA : ∀ u : Nat, u ≤ 6 →
          (chainBytes (F0 :: rest) ++ List.replicate rem 255).drop u =
          (storeBytes F0).drop u ++
            (chainBytes rest ++ List.replicate rem 255) := by
        intro u hu
        rw [chainBytes_cons, List.append_assoc,
          List.drop_append_of_le_length
            (by rw [hF0len]; simp only [STORE_SIZE]; omega)]
      interval_cases t
      · -- torn after 1 byte
        have hcontent : List.replicate 1 (255 : Nat) ++
            (chainBytes (F0 :: rest) ++ List.replicate rem 255).drop 1 =
            255 :: 80 :: 78 :: 88 :: 41 :: 0 ::
              (((le16 F0.counter ++ F0.settings) ++ le16 F0.crc) ++
                (chainBytes rest ++ List.replicate rem 255)) := by
          rw [hdropA 1 (by omega), hF0b]
          rfl
        rw [hcontent]
        rw [hcontent] at hCL
        refine flvs_of_parse_eilseq _ ?_
          (by rw [hCL]; simp only [STORE_SIZE, List.length_cons]; omega)
        refine parse_head_eilseq _ _
          (by rw [hCL]; simp only [STORE_SIZE, List.length_cons]; omega)
          (by rw [hCL]; simp only [STORE_SIZE, List.length_cons]; omega) ?_ ?_
        · have h1 : dec32 ((255 :: 80 :: 78 :: 88 :: 41 :: 0 ::
              (((le16 F0.counter ++ F0.settings) ++ le16 F0.crc) ++
                (chainBytes rest ++ List.replicate rem 255))).take 6) =
            255 + 256 * 80 + 65536 * 78 + 16777216 * 88 := rfl
          rw [h1]
          decide
        · have h1 : dec32 ((255 :: 80 :: 78 :: 88 :: 41 :: 0 ::
              (((le16 F0.counter ++ F0.settings) ++ le16 F0.crc) ++
                (chainBytes rest ++ List.replicate rem 255))).take 6) =
            255 + 256 * 80 + 65536 * 78 + 16777216 * 88 := rfl
          rw [h1]
          decide
      · -- torn after 2 bytes
        have hcontent : List.replicate 2 (255 : Nat) ++
            (chainBytes (F0 :: rest) ++ List.replicate rem 255).drop 2 =
            255 :: 255 :: 78 :: 88 :: 41 :: 0 ::
              (((le16 F0.counter ++ F0.settings) ++ le16 F0.crc) ++
                (chainBytes rest ++ List.replicate rem 255)) := by
          rw [hdropA 2 (by omega), hF0b]
          rfl
        rw [hcontent]
        rw [hcontent] at hCL
        refine flvs_of_parse_eilseq _ ?_
          (by rw [hCL]; simp only [STORE_SIZE, List.length_cons]; omega)
        refine parse_head_eilseq _ _
          (by rw [hCL]; simp only [STORE_SIZE, List.length_cons]; omega)
          (by rw [hCL]; simp only [STORE_SIZE, List.length_cons]; omega) ?_ ?_
        · have h1 : dec32 ((255 :: 255 :: 78 :: 88 :: 41 :: 0 ::
              (((le16 F0.counter ++ F0.settings) ++ le16 F0.crc) ++
                (chainBytes rest ++ List.replicate rem 255))).take 6) =
            255 + 256 * 255 + 65536 * 78 + 16777216 * 88 := rfl
          rw [h1]
          decide
        · have h1 : dec32 ((255 :: 255 :: 78 :: 88 :: 41 :: 0 ::
              (((le16 F0.counter ++ F0.settings) ++ le16 F0.crc) ++
                (chainBytes rest ++ List.replicate rem 255))).take 6) =
            255 + 256 * 255 + 65536 * 78 + 16777216 * 88 := rfl
          rw [h1]
          decide
      · -- torn after 3 bytes
        have hcontent : List.replicate 3 (255 : Nat) ++
            (chainBytes (F0 :: rest) ++ List.replicate rem 255).drop 3 =
            255 :: 255 :: 255 :: 88 :: 41 :: 0 ::
              (((le16 F0.counter ++ F0.settings) ++ le16 F0.crc) ++
                (chainBytes rest ++ List.replicate rem 255)) := by
          rw [hdropA 3 (by omega), hF0b]
          rfl
        rw [hcontent]
        rw [hcontent] at hCL
        refine flvs_of_parse_eilseq _ ?_
          (by rw [hCL]; simp only [STORE_SIZE, List.length_cons]; omega)
        refine parse_head_eilseq _ _
          (by rw [hCL]; simp only [STORE_SIZE, List.length_cons]; omega)
          (by rw [hCL]; simp only [STORE_SIZE, List.length_cons]; omega) ?_ ?_
        · have h1 : dec32 ((255 :: 255 :: 255 :: 88 :: 41 :: 0 ::
              (((le16 F0.counter ++ F0.settings) ++ le16 F0.crc) ++
                (chainBytes rest ++ List.replicate rem 255))).take 6) =
            255 + 256 * 255 + 65536 * 255 + 16777216 * 88 := rfl
          rw [h1]
          decide
        · have h1 : dec32 ((255 :: 255 :: 255 :: 88 :: 41 :: 0 ::
              (((le16 F0.counter ++ F0.settings) ++ le16 F0.crc) ++
                (chainBytes rest ++ List.replicate rem 255))).take 6) =
            255 + 256 * 255 + 65536 * 255 + 16777216 * 88 := rfl
          rw [h1]
          decide

/-- One effective save targeting partition B (odd new counter), truncated
at any byte `t` of its physical write stream: a fresh load afterwards
returns the new payload, the previous payload, or the payload of a torn
frame whose CRC happens to check out. -/
theorem C1_step_B (psA psB n : Nat) (h1 : Handle) (fl1 : Flash)
    (final : Bytes) (h2 : Handle) (fl2 : Flash) (log : List Ev) (t : Nat)
    (h0 : Handle) (buf : Bytes) (hini0 : h0.initialized = false)
    (hinv1 : StInv psA psB n h1 fl1)
    (hfinal : validPayload final)
    (hA47 : 47 ≤ psA) (hB47 : 47 ≤ psB)
    (hAsz : psA ≤ 65321) (hBsz : psB ≤ 65321)
    (hApad : 6 ≤ psA % STORE_SIZE) (hBpad : 6 ≤ psB % STORE_SIZE)
    (hn1 : n + 1 < 2 ^ 16)
    (hne : h1.latest_store.settings ≠ final)
    (hpar : (update_settings_store final h1.latest_store).counter % 2 = 1)
    (hsave : settings_storage_save h1 fl1 final = .ok (h2, fl2, log)) :
    ∃ h', settings_storage_load h0 (truncFlash fl1 log t) buf =
        some (.ok (h', buf)) ∧
      h'.initialized = true ∧
      (h'.latest_store.settings = final ∨
       h'.latest_store.settings = h1.latest_store.settings ∨
        (∃ s, 6 ≤ s ∧ s < STORE_SIZE ∧
          check_store_integrity
            (tornStore (update_settings_store final h1.latest_store) s) = 1 ∧
          h'.latest_store.settings =
            (tornStore (update_settings_store final h1.latest_store) s).settings)) := by
  have hA32 : psA < 2 ^ 32 := by omega
  have hB32 : psB < 2 ^ 32 := by omega
  have hinv1' := hinv1
  obtain ⟨csA, csB, hPA, hPB, hoffA, hoffB, hwn, hini, hwfl, hstA, hstB, hcle,
    h00, hpos⟩ := hinv1'
  have hcond : h1.latest_store.settings ≠ final ∨ h1.write_needed = true :=
    Or.inl hne
  have hc2 : (update_settings_store final h1.latest_store).counter =
      h1.latest_store.counter + 1 := by
    rw [update_settings_store_counter]
    exact Nat.mod_eq_of_lt (by omega)
  have hceven : ¬ h1.latest_store.counter % 2 = 1 := by
    rw [hc2] at hpar
    omega
  have hwfF2 : wfFrame (update_settings_store final h1.latest_store) :=
    wfFrame_update final h1.latest_store hwfl.1 hfinal.1 hfinal.2
  have hF2len : (storeBytes (update_settings_store final h1.latest_store)).length =
      STORE_SIZE :=
    storeBytes_length _ (by rw [update_settings_store_settings]; exact hfinal.1)
  have hAcase : (csA = [] ∧ h1.latest_store = default_settings_store) ∨
      (csA ≠ [] ∧ csA.getLastD junkStore = h1.latest_store) := by
    by_cases hc0 : h1.latest_store.counter = 0
    · exact Or.inl ⟨(h00 hc0).1, (h00 hc0).2.2⟩
    · obtain ⟨-, -, hevencl⟩ := hpos hc0
      obtain ⟨hAne, hAtop, -, -⟩ := hevencl hceven
      exact Or.inr ⟨hAne, hAtop⟩
  have hAcnt : csA ≠ [] → (csA.getLastD junkStore).counter <
      (update_settings_store final h1.latest_store).counter := by
    intro hA0
    rcases hAcase with ⟨hA0', -⟩ | ⟨-, htop⟩
    · exact absurd hA0' hA0
    · rw [htop, hc2]
      omega
  have hPrevA : ∀ st : Store,
      ((csA = [] ∧ st = default_settings_store) ∨
       (csA ≠ [] ∧ st = csA.getLastD junkStore)) →
      st.settings = h1.latest_store.settings := by
    intro st hst
    rcases hAcase with ⟨hA0, hdef⟩ | ⟨hAne, htop⟩
    · rcases hst with ⟨-, hPe⟩ | ⟨hAne', -⟩
      · rw [hPe, hdef]
      · exact absurd hA0 hAne'
    · rcases hst with ⟨hA0, -⟩ | ⟨-, hPe⟩
      · exact absurd hA0 hAne
      · rw [hPe, htop]
  have hwfcsB : ∀ s ∈ csB, s.settings.length = SETTINGS_SIZE :=
    fun s hs => ((hPB.2.2 s hs).1).2.2.2.2.1
  have hclenB : (chainBytes csB).length = STORE_SIZE * csB.length :=
    chainBytes_length csB hwfcsB
  have hfl1pb : fl1.pb = chainBytes csB ++
      List.replicate (psB - STORE_SIZE * csB.length) 255 := hPB.1
  have hBle : STORE_SIZE * csB.length + 6 ≤ psB := hPB.2.1
  have hgetB : fl1.get .B = fl1.pb := rfl
  have hplenB : fl1.pb.length = psB := by
    rw [hfl1pb, List.length_append, hclenB, List.length_replicate]
    omega
  obtain ⟨h2', fl2', log', hsave2, hinv2⟩ := save_inv psA psB n h1 fl1 final
    hinv1 hfinal hA47 hB47 hApad hBpad hA32 hB32 hn1
  rw [hsave] at hsave2
  obtain ⟨hh2, hfl2, hlog⟩ : h2 = h2' ∧ fl2 = fl2' ∧ log = log' := by
    simpa using hsave2
  rw [← hh2, ← hfl2] at hinv2
  by_cases hfit : STORE_SIZE * csB.length + STORE_SIZE ≤ psB
  · -- room for one more frame: plain append
    have hstep := save_step_B_append h1 fl1 final csB
      (psB - STORE_SIZE * csB.length) hcond hpar hfl1pb hoffB hstB hwfcsB
      hfinal.1 (by omega) (by omega)
    rw [hstep] at hsave
    obtain ⟨hH, hF, hL⟩ := by simpa using hsave
    subst hH
    subst hF
    subst hL
    have hfitB : STORE_SIZE * csB.length +
        (storeBytes (update_settings_store final h1.latest_store)).length ≤
        (fl1.get .B).length := by
      rw [hF2len, hgetB, hplenB]
      exact hfit
    by_cases ht0 : t = 0
    · subst ht0
      rw [truncFlash_zero]
      obtain ⟨h', hload, hlst, hini'⟩ := load_StInv psA psB n h1 fl1 hinv1
        hA32 hB32 h0 buf hini0
      exact ⟨h', hload, hini', Or.inr (Or.inl (by rw [hlst]))⟩
    by_cases htF : STORE_SIZE ≤ t
    · -- the frame write completed before the cut
      have hlen41 : (logBytes [Ev.write PartId.B (STORE_SIZE * csB.length)
          (storeBytes (update_settings_store final h1.latest_store))]).length =
          STORE_SIZE := by
        rw [logBytes_single, evBytes_write_length]
        exact hF2len
      rw [truncFlash_ge fl1 [Ev.write PartId.B (STORE_SIZE * csB.length)
          (storeBytes (update_settings_store final h1.latest_store))] t
        (by rw [hlen41]; exact htF), hlen41]
      rw [truncFlash_write_full fl1 PartId.B (STORE_SIZE * csB.length)
        (storeBytes (update_settings_store final h1.latest_store)) STORE_SIZE
        (le_of_eq hF2len) hfitB]
      have hbytesF : (fl1.get .B).take (STORE_SIZE * csB.length) ++
          storeBytes (update_settings_store final h1.latest_store) ++
          (fl1.get .B).drop (STORE_SIZE * csB.length +
            (storeBytes (update_settings_store final h1.latest_store)).length) =
          chainBytes (csB ++ [update_settings_store final h1.latest_store]) ++
            List.replicate (psB - STORE_SIZE * csB.length - STORE_SIZE) 255 := by
        rw [hgetB, hfl1pb, hF2len]
        rw [List.take_append_of_le_length (by rw [hclenB]),
          List.take_of_length_le (le_of_eq hclenB),
          show STORE_SIZE * csB.length + STORE_SIZE =
            (chainBytes csB).length + STORE_SIZE from by rw [hclenB],
          List.drop_append, List.drop_replicate, chainBytes_append,
          chainBytes_cons, chainBytes_nil, List.append_nil, List.append_assoc]
      rw [hbytesF, Flash.set_B_eq]
      obtain ⟨h', hload, hlst, hini'⟩ := load_StInv psA psB (n + 1) _ _ hinv2
        hA32 hB32 h0 buf hini0
      refine ⟨h', hload, hini', Or.inl ?_⟩
      rw [hlst]
      rfl
    · -- the frame write was torn at byte t (1 ≤ t < 41)
      have ht1 : 1 ≤ t := by omega
      have ht41 : t < STORE_SIZE := by omega
      rw [truncFlash_write fl1 PartId.B (STORE_SIZE * csB.length)
        (storeBytes (update_settings_store final h1.latest_store)) t
        (by rw [hF2len]; omega) hfitB]
      have hbytesT : (fl1.get .B).take (STORE_SIZE * csB.length) ++
          (storeBytes (update_settings_store final h1.latest_store)).take t ++
          (fl1.get .B).drop (STORE_SIZE * csB.length + t) =
          chainBytes csB ++
            ((storeBytes (update_settings_store final h1.latest_store)).take t ++
              List.replicate (psB - STORE_SIZE * csB.length - t) 255) := by
        rw [hgetB, hfl1pb]
        rw [List.take_append_of_le_length (by rw [hclenB]),
          List.take_of_length_le (le_of_eq hclenB),
          show STORE_SIZE * csB.length + t = (chainBytes csB).length + t from by
            rw [hclenB],
          List.drop_append, List.drop_replicate, List.append_assoc]
      rw [hbytesT]
      obtain ⟨h', hload, hini', hP⟩ := load_tornB h0
        (fl1.set .B (chainBytes csB ++
          ((storeBytes (update_settings_store final h1.latest_store)).take t ++
            List.replicate (psB - STORE_SIZE * csB.length - t) 255)))
        csA csB (update_settings_store final h1.latest_store) psA
        (psB - STORE_SIZE * csB.length) t buf hini0
        (by rw [Flash.set_B_pa]; exact hPA) hA32
        (Flash.set_B_pb _ _)
        hPB.2.2 hwfF2 ht1 ht41
        (by simp only [STORE_SIZE] at hfit hBpad ⊢; omega)
        (by simp only [STORE_SIZE] at hBle ⊢; omega)
        hAcnt
      refine ⟨h', hload, hini', ?_⟩
      rcases hP with hbad | hbad | ⟨ht6, hint, hlst⟩
      · exact Or.inr (Or.inl (hPrevA _ (Or.inl hbad)))
      · exact Or.inr (Or.inl (hPrevA _ (Or.inr hbad)))
      · exact Or.inr (Or.inr ⟨t, ht6, ht41, hint, by rw [hlst]⟩)
  · -- partition B is full: erase then rewrite from offset 0
    have hBne : csB ≠ [] := by
      intro hnil
      apply hfit
      rw [hnil]
      simp only [List.length_nil, Nat.mul_zero, Nat.zero_add, STORE_SIZE]
      omega
    have hstep := save_step_B_erase h1 fl1 final hcond hpar
      (by rw [hplenB, hoffB]; omega)
      hfinal.1 (by rw [hplenB]; simp only [STORE_SIZE]; omega)
      (by rw [hplenB]; omega)
    rw [hstep] at hsave
    obtain ⟨hH, hF, hL⟩ := by simpa using hsave
    subst hH
    subst hF
    subst hL
    rw [hplenB] at hinv2 ⊢
    by_cases ht0 : t = 0
    · subst ht0
      rw [truncFlash_zero]
      obtain ⟨h', hload, hlst, hini'⟩ := load_StInv psA psB n h1 fl1 hinv1
        hA32 hB32 h0 buf hini0
      exact ⟨h', hload, hini', Or.inr (Or.inl (by rw [hlst]))⟩
    by_cases htE : t ≤ psB
    · -- torn during the erase pass
      have ht1 : 1 ≤ t := by omega
      rw [truncFlash_erase_part fl1 PartId.B psB (Ev.write PartId.B 0
        (storeBytes (update_settings_store final h1.latest_store))) t htE
        (by rw [hgetB, hplenB])]
      obtain ⟨r, hr01, hscan⟩ := scan_partial_erase csB
        (psB - STORE_SIZE * csB.length) t (fun s hs => (hPB.2.2 s hs).1) hBne ht1
        (by rw [← hfl1pb, hplenB]; exact htE)
      have hscanB : find_latest_valid_store ((fl1.set .B (List.replicate t 255 ++
          (fl1.get .B).drop t)).pb) = some (.ok (r, junkStore, 0)) := by
        rw [Flash.set_B_pb, hgetB, hfl1pb]
        exact hscan
      obtain ⟨h', hload, hini', hP⟩ := load_sideB_bad h0
        (fl1.set .B (List.replicate t 255 ++ (fl1.get .B).drop t)) csA psA r
        junkStore 0 buf hini0 (by rw [Flash.set_B_pa]; exact hPA) hA32 hscanB hr01
      exact ⟨h', hload, hini', Or.inr (Or.inl (hPrevA _ hP))⟩
    by_cases htW : psB + STORE_SIZE ≤ t
    · -- erase and rewrite both completed before the cut
      have hlenLB : (logBytes [Ev.erase PartId.B psB, Ev.write PartId.B 0
          (storeBytes (update_settings_store final h1.latest_store))]).length =
          psB + STORE_SIZE := by
        rw [logBytes_pair, List.length_append, evBytes_erase_length,
          evBytes_write_length, hF2len]
      rw [truncFlash_ge fl1 [Ev.erase PartId.B psB, Ev.write PartId.B 0
          (storeBytes (update_settings_store final h1.latest_store))] t
        (by rw [hlenLB]; exact htW), hlenLB]
      rw [truncFlash_erase_write fl1 PartId.B psB
        (storeBytes (update_settings_store final h1.latest_store)) STORE_SIZE
        (le_of_eq hF2len.symm) (by rw [hgetB, hplenB])
        (by rw [hF2len]; simp only [STORE_SIZE]; omega)]
      have hdropnil : (fl1.get .B).drop psB = [] := by
        rw [hgetB, ← hplenB]
        simp
      have hbytesE : (storeBytes (update_settings_store final h1.latest_store)).take
          STORE_SIZE ++ List.replicate (psB - STORE_SIZE) 255 ++
          (fl1.get .B).drop psB =
          storeBytes (update_settings_store final h1.latest_store) ++
            List.replicate (psB - STORE_SIZE) 255 := by
        rw [List.take_of_length_le (le_of_eq hF2len), hdropnil, List.append_nil]
      rw [hbytesE, Flash.set_B_eq]
      obtain ⟨h', hload, hlst, hini'⟩ := load_StInv psA psB (n + 1) _ _ hinv2
        hA32 hB32 h0 buf hini0
      refine ⟨h', hload, hini', Or.inl ?_⟩
      rw [hlst]
      rfl
    · -- torn during the rewrite pass at byte s of the frame
      obtain ⟨s, rfl⟩ : ∃ s, t = psB + s := ⟨t - psB, by omega⟩
      have hs1 : 1 ≤ s := by omega
      have hs41 : s < STORE_SIZE := by omega
      rw [truncFlash_erase_write fl1 PartId.B psB
        (storeBytes (update_settings_store final h1.latest_store)) s
        (by rw [hF2len]; omega) (by rw [hgetB, hplenB])
        (by rw [hF2len]; simp only [STORE_SIZE]; omega)]
      have hdropnil : (fl1.get .B).drop psB = [] := by
        rw [hgetB, ← hplenB]
        simp
      rw [List.append_assoc, hdropnil, List.append_nil]
      obtain ⟨h', hload, hini', hP⟩ := load_tornB h0
        (fl1.set .B ((storeBytes (update_settings_store final h1.latest_store)).take s ++
          List.replicate (psB - s) 255))
        csA [] (update_settings_store final h1.latest_store) psA psB s buf hini0
        (by rw [Flash.set_B_pa]; exact hPA) hA32
        (by rw [Flash.set_B_pb, chainBytes_nil, List.nil_append])
        (by intro x hx; exact absurd hx (List.not_mem_nil x))
        hwfF2 hs1 hs41 hB47
        (by simp only [List.length_nil, Nat.mul_zero, Nat.zero_add]; exact hBsz)
        hAcnt
      refine ⟨h', hload, hini', ?_⟩
      rcases hP with hbad | hbad | ⟨ht6, hint, hlst⟩
      · exact Or.inr (Or.inl (hPrevA _ (Or.inl hbad)))
      · exact Or.inr (Or.inl (hPrevA _ (Or.inr hbad)))
      · exact Or.inr (Or.inr ⟨s, ht6, hs41, hint, by rw [hlst]⟩)

/-- One effective save targeting partition A (even new counter), truncated
at any byte `t` of its physical write stream: a fresh load afterwards
returns the new payload, the previous payload, or the payload of a torn
frame whose CRC happens to check out. -/
theorem C1_step_A (psA psB n : Nat) (h1 : Handle) (fl1 : Flash)
    (final : Bytes) (h2 : Handle) (fl2 : Flash) (log : List Ev) (t : Nat)
    (h0 : Handle) (buf : Bytes) (hini0 : h0.initialized = false)
    (hinv1 : StInv psA psB n h1 fl1)
    (hfinal : validPayload final)
    (hA47 : 47 ≤ psA) (hB47 : 47 ≤ psB)
    (hAsz : psA ≤ 65321) (hBsz : psB ≤ 65321)
    (hApad : 6 ≤ psA % STORE_SIZE) (hBpad : 6 ≤ psB % STORE_SIZE)
    (hn1 : n + 1 < 2 ^ 16)
    (hne : h1.latest_store.settings ≠ final)
    (hpar : ¬ (update_settings_store final h1.latest_store).counter % 2 = 1)
    (hsave : settings_storage_save h1 fl1 final = .ok (h2, fl2, log)) :
    ∃ h', settings_storage_load h0 (truncFlash fl1 log t) buf =
        some (.ok (h', buf)) ∧
      h'.initialized = true ∧
      (h'.latest_store.settings = final ∨
       h'.latest_store.settings = h1.latest_store.settings ∨
        (∃ s, 6 ≤ s ∧ s < STORE_SIZE ∧
          check_store_integrity
            (tornStore (update_settings_store final h1.latest_store) s) = 1 ∧
          h'.latest_store.settings =
            (tornStore (update_settings_store final h1.latest_store) s).settings)) := by
  have hA32 : psA < 2 ^ 32 := by omega
  have hB32 : psB < 2 ^ 32 := by omega
  have hinv1' := hinv1
  obtain ⟨csA, csB, hPA, hPB, hoffA, hoffB, hwn, hini, hwfl, hstA, hstB, hcle,
    h00, hpos⟩ := hinv1'
  have hcond : h1.latest_store.settings ≠ final ∨ h1.write_needed = true :=
    Or.inl hne
  have hc2 : (update_settings_store final h1.latest_store).counter =
      h1.latest_store.counter + 1 := by
    rw [update_settings_store_counter]
    exact Nat.mod_eq_of_lt (by omega)
  have hcodd : h1.latest_store.counter % 2 = 1 := by
    rw [hc2] at hpar
    omega
  have hc0 : h1.latest_store.counter ≠ 0 := by
    intro hz
    rw [hz] at hcodd
    omega
  have hwfF2 : wfFrame (update_settings_store final h1.latest_store) :=
    wfFrame_update final h1.latest_store hwfl.1 hfinal.1 hfinal.2
  have hF2len : (storeBytes (update_settings_store final h1.latest_store)).length =
      STORE_SIZE :=
    storeBytes_length _ (by rw [update_settings_store_settings]; exact hfinal.1)
  obtain ⟨-, hoddcl, -⟩ := hpos hc0
  obtain ⟨hBne0, hBtop, -, -⟩ := hoddcl hcodd
  have hBcnt : csB ≠ [] → (csB.getLastD junkStore).counter <
      (update_settings_store final h1.latest_store).counter := by
    intro hB0
    rw [hBtop, hc2]
    omega
  have hPrevB : ∀ st : Store,
      ((csB = [] ∧ st = default_settings_store) ∨
       (csB ≠ [] ∧ st = csB.getLastD junkStore)) →
      st.settings = h1.latest_store.settings := by
    intro st hst
    rcases hst with ⟨hB0, -⟩ | ⟨-, hPe⟩
    · exact absurd hB0 hBne0
    · rw [hPe, hBtop]
  have hwfcsA : ∀ s ∈ csA, s.settings.length = SETTINGS_SIZE :=
    fun s hs => ((hPA.2.2 s hs).1).2.2.2.2.1
  have hclenA : (chainBytes csA).length = STORE_SIZE * csA.length :=
    chainBytes_length csA hwfcsA
  have hfl1pa : fl1.pa = chainBytes csA ++
      List.replicate (psA - STORE_SIZE * csA.length) 255 := hPA.1
  have hAle : STORE_SIZE * csA.length + 6 ≤ psA := hPA.2.1
  have hgetA : fl1.get .A = fl1.pa := rfl
  have hplenA : fl1.pa.length = psA := by
    rw [hfl1pa, List.length_append, hclenA, List.length_replicate]
    omega
  obtain ⟨h2', fl2', log', hsave2, hinv2⟩ := save_inv psA psB n h1 fl1 final
    hinv1 hfinal hA47 hB47 hApad hBpad hA32 hB32 hn1
  rw [hsave] at hsave2
  obtain ⟨hh2, hfl2, hlog⟩ : h2 = h2' ∧ fl2 = fl2' ∧ log = log' := by
    simpa using hsave2
  rw [← hh2, ← hfl2] at hinv2
  by_cases hfit : STORE_SIZE * csA.length + STORE_SIZE ≤ psA
  · -- room for one more frame: plain append
    have hstep := save_step_A_append h1 fl1 final csA
      (psA - STORE_SIZE * csA.length) hcond hpar hfl1pa hoffA hstA hwfcsA
      hfinal.1 (by omega) (by omega)
    rw [hstep] at hsave
    obtain ⟨hH, hF, hL⟩ := by simpa using hsave
    subst hH
    subst hF
    subst hL
    have hfitA : STORE_SIZE * csA.length +
        (storeBytes (update_settings_store final h1.latest_store)).length ≤
        (fl1.get .A).length := by
      rw [hF2len, hgetA, hplenA]
      exact hfit
    by_cases ht0 : t = 0
    · subst ht0
      rw [truncFlash_zero]
      obtain ⟨h', hload, hlst, hini'⟩ := load_StInv psA psB n h1 fl1 hinv1
        hA32 hB32 h0 buf hini0
      exact ⟨h', hload, hini', Or.inr (Or.inl (by rw [hlst]))⟩
    by_cases htF : STORE_SIZE ≤ t
    · -- the frame write completed before the cut
      have hlen41 : (logBytes [Ev.write PartId.A (STORE_SIZE * csA.length)
          (storeBytes (update_settings_store final h1.latest_store))]).length =
          STORE_SIZE := by
        rw [logBytes_single, evBytes_write_length]
        exact hF2len
      rw [truncFlash_ge fl1 [Ev.write PartId.A (STORE_SIZE * csA.length)
          (storeBytes (update_settings_store final h1.latest_store))] t
        (by rw [hlen41]; exact htF), hlen41]
      rw [truncFlash_write_full fl1 PartId.A (STORE_SIZE * csA.length)
        (storeBytes (update_settings_store final h1.latest_store)) STORE_SIZE
        (le_of_eq hF2len) hfitA]
      have hbytesF : (fl1.get .A).take (STORE_SIZE * csA.length) ++
          storeBytes (update_settings_store final h1.latest_store) ++
          (fl1.get .A).drop (STORE_SIZE * csA.length +
            (storeBytes (update_settings_store final h1.latest_store)).length) =
          chainBytes (csA ++ [update_settings_store final h1.latest_store]) ++
            List.replicate (psA - STORE_SIZE * csA.length - STORE_SIZE) 255 := by
        rw [hgetA, hfl1pa, hF2len]
        rw [List.take_append_of_le_length (by rw [hclenA]),
          List.take_of_length_le (le_of_eq hclenA),
          show STORE_SIZE * csA.length + STORE_SIZE =
            (chainBytes csA).length + STORE_SIZE from by rw [hclenA],
          List.drop_append, List.drop_replicate, chainBytes_append,
          chainBytes_cons, chainBytes_nil, List.append_nil, List.append_assoc]
      rw [hbytesF, Flash.set_A_eq]
      obtain ⟨h', hload, hlst, hini'⟩ := load_StInv psA psB (n + 1) _ _ hinv2
        hA32 hB32 h0 buf hini0
      refine ⟨h', hload, hini', Or.inl ?_⟩
      rw [hlst]
      rfl
    · -- the frame write was torn at byte t (1 ≤ t < 41)
      have ht1 : 1 ≤ t := by omega
      have ht41 : t < STORE_SIZE := by omega
      rw [truncFlash_write fl1 PartId.A (STORE_SIZE * csA.length)
        (storeBytes (update_settings_store final h1.latest_store)) t
        (by rw [hF2len]; omega) hfitA]
      have hbytesT : (fl1.get .A).take (STORE_SIZE * csA.length) ++
          (storeBytes (update_settings_store final h1.latest_store)).take t ++
          (fl1.get .A).drop (STORE_SIZE * csA.length + t) =
          chainBytes csA ++
            ((storeBytes (update_settings_store final h1.latest_store)).take t ++
              List.replicate (psA - STORE_SIZE * csA.length - t) 255) := by
        rw [hgetA, hfl1pa]
        rw [List.take_append_of_le_length (by rw [hclenA]),
          List.take_of_length_le (le_of_eq hclenA),
          show STORE_SIZE * csA.length + t = (chainBytes csA).length + t from by
            rw [hclenA],
          List.drop_append, List.drop_replicate, List.append_assoc]
      rw [hbytesT]
      obtain ⟨h', hload, hini', hP⟩ := load_tornA h0
        (fl1.set .A (chainBytes csA ++
          ((storeBytes (update_settings_store final h1.latest_store)).take t ++
            List.replicate (psA - STORE_SIZE * csA.length - t) 255)))
        csA csB (update_settings_store final h1.latest_store) psB
        (psA - STORE_SIZE * csA.length) t buf hini0
        (by rw [Flash.set_A_pb]; exact hPB) hB32
        (Flash.set_A_pa _ _)
        hPA.2.2 hwfF2 ht1 ht41
        (by simp only [STORE_SIZE] at hfit hApad ⊢; omega)
        (by simp only [STORE_SIZE] at hAle ⊢; omega)
        hBcnt
      refine ⟨h', hload, hini', ?_⟩
      rcases hP with hbad | hbad | ⟨ht6, hint, hlst⟩
      · exact Or.inr (Or.inl (hPrevB _ (Or.inl hbad)))
      · exact Or.inr (Or.inl (hPrevB _ (Or.inr hbad)))
      · exact Or.inr (Or.inr ⟨t, ht6, ht41, hint, by rw [hlst]⟩)
  · -- partition A is full: erase then rewrite from offset 0
    have hAne : csA ≠ [] := by
      intro hnil
      apply hfit
      rw [hnil]
      simp only [List.length_nil, Nat.mul_zero, Nat.zero_add, STORE_SIZE]
      omega
    have hstep := save_step_A_erase h1 fl1 final hcond hpar
      (by rw [hplenA, hoffA]; omega)
      hfinal.1 (by rw [hplenA]; simp only [STORE_SIZE]; omega)
      (by rw [hplenA]; omega)
    rw [hstep] at hsave
    obtain ⟨hH, hF, hL⟩ := by simpa using hsave
    subst hH
    subst hF
    subst hL
    rw [hplenA] at hinv2 ⊢
    by_cases ht0 : t = 0
    · subst ht0
      rw [truncFlash_zero]
      obtain ⟨h', hload, hlst, hini'⟩ := load_StInv psA psB n h1 fl1 hinv1
        hA32 hB32 h0 buf hini0
      exact ⟨h', hload, hini', Or.inr (Or.inl (by rw [hlst]))⟩
    by_cases htE : t ≤ psA
    · -- torn during the erase pass
      have ht1 : 1 ≤ t := by omega
      rw [truncFlash_erase_part fl1 PartId.A psA (Ev.write PartId.A 0
        (storeBytes (update_settings_store final h1.latest_store))) t htE
        (by rw [hgetA, hplenA])]
      obtain ⟨r, hr01, hscan⟩ := scan_partial_erase csA
        (psA - STORE_SIZE * csA.length) t (fun s hs => (hPA.2.2 s hs).1) hAne ht1
        (by rw [← hfl1pa, hplenA]; exact htE)
      have hscanA : find_latest_valid_store ((fl1.set .A (List.replicate t 255 ++
          (fl1.get .A).drop t)).pa) = some (.ok (r, junkStore, 0)) := by
        rw [Flash.set_A_pa, hgetA, hfl1pa]
        exact hscan
      obtain ⟨h', hload, hini', hP⟩ := load_sideA_bad h0
        (fl1.set .A (List.replicate t 255 ++ (fl1.get .A).drop t)) csB psB r
        junkStore 0 buf hini0 (by rw [Flash.set_A_pb]; exact hPB) hB32 hscanA hr01
      exact ⟨h', hload, hini', Or.inr (Or.inl (hPrevB _ hP))⟩
    by_cases htW : psA + STORE_SIZE ≤ t
    · -- erase and rewrite both completed before the cut
      have hlenLA : (logBytes [Ev.erase PartId.A psA, Ev.write PartId.A 0
          (storeBytes (update_settings_store final h1.latest_store))]).length =
          psA + STORE_SIZE := by
        rw [logBytes_pair, List.length_append, evBytes_erase_length,
          evBytes_write_length, hF2len]
      rw [truncFlash_ge fl1 [Ev.erase PartId.A psA, Ev.write PartId.A 0
          (storeBytes (update_settings_store final h1.latest_store))] t
        (by rw [hlenLA]; exact htW), hlenLA]
      rw [truncFlash_erase_write fl1 PartId.A psA
        (storeBytes (update_settings_store final h1.latest_store)) STORE_SIZE
        (le_of_eq hF2len.symm) (by rw [hgetA, hplenA])
        (by rw [hF2len]; simp only [STORE_SIZE]; omega)]
      have hdropnil : (fl1.get .A).drop psA = [] := by
        rw [hgetA, ← hplenA]
        simp
      have hbytesE : (storeBytes (update_settings_store final h1.latest_store)).take
          STORE_SIZE ++ List.replicate (psA - STORE_SIZE) 255 ++
          (fl1.get .A).drop psA =
          storeBytes (update_settings_store final h1.latest_store) ++
            List.replicate (psA - STORE_SIZE) 255 := by
        rw [List.take_of_length_le (le_of_eq hF2len), hdropnil, List.append_nil]
      rw [hbytesE, Flash.set_A_eq]
      obtain ⟨h', hload, hlst, hini'⟩ := load_StInv psA psB (n + 1) _ _ hinv2
        hA32 hB32 h0 buf hini0
      refine ⟨h', hload, hini', Or.inl ?_⟩
      rw [hlst]
      rfl
    · -- torn during the rewrite pass at byte s of the frame
      obtain ⟨s, rfl⟩ : ∃ s, t = psA + s := ⟨t - psA, by omega⟩
      have hs1 : 1 ≤ s := by omega
      have hs41 : s < STORE_SIZE := by omega
      rw [truncFlash_erase_write fl1 PartId.A psA
        (storeBytes (update_settings_store final h1.latest_store)) s
        (by rw [hF2len]; omega) (by rw [hgetA, hplenA])
        (by rw [hF2len]; simp only [STORE_SIZE]; omega)]
      have hdropnil : (fl1.get .A).drop psA = [] := by
        rw [hgetA, ← hplenA]
        simp
      rw [List.append_assoc, hdropnil, List.append_nil]
      obtain ⟨h', hload, hini', hP⟩ := load_tornA h0
        (fl1.set .A ((storeBytes (update_settings_store final h1.latest_store)).take s ++
          List.replicate (psA - s) 255))
        [] csB (update_settings_store final h1.latest_store) psB psA s buf hini0
        (by rw [Flash.set_A_pb]; exact hPB) hB32
        (by rw [Flash.set_A_pa, chainBytes_nil, List.nil_append])
        (by intro x hx; exact absurd hx (List.not_mem_nil x))
        hwfF2 hs1 hs41 hA47
        (by simp only [List.length_nil, Nat.mul_zero, Nat.zero_add]; exact hAsz)
        hBcnt
      refine ⟨h', hload, hini', ?_⟩
      rcases hP with hbad | hbad | ⟨ht6, hint, hlst⟩
      · exact Or.inr (Or.inl (hPrevB _ (Or.inl hbad)))
      · exact Or.inr (Or.inl (hPrevB _ (Or.inr hbad)))
      · exact Or.inr (Or.inr ⟨s, ht6, hs41, hint, by rw [hlst]⟩)

/-- C1 (amended): power-loss durability of the A/B settings store.  For
every sequence of payloads saved through `settings_storage_save` onto an
initially empty store (partition sizes at least 47 and at most 65321
bytes, at least 6 spare bytes past the last whole frame slot), and for
every truncation point `t` of the final save's physical write byte
stream, a subsequent `settings_storage_load` on a fresh handle succeeds
and returns the final payload, the previous payload (the compiled-in
defaults when there is none), or — the flaw in the claim as stated — the
payload of the final frame torn at some byte `s` (6 ≤ s < 41) whose
read-back CRC field happens to match the CRC of its read-back bytes, in
which case the returned payload is a prefix of the final payload padded
with erased 0xFF bytes, i.e. garbage. -/
theorem C1_durability (ss : List Bytes) (final : Bytes) (psA psB t : Nat)
    (h1 : Handle) (fl1 : Flash) (h2 : Handle) (fl2 : Flash) (log : List Ev)
    (h0 : Handle) (buf : Bytes)
    (hss : ∀ S ∈ ss, validPayload S) (hfinal : validPayload final)
    (hA47 : 47 ≤ psA) (hB47 : 47 ≤ psB)
    (hAsz : psA ≤ 65321) (hBsz : psB ≤ 65321)
    (hApad : 6 ≤ psA % STORE_SIZE) (hBpad : 6 ≤ psB % STORE_SIZE)
    (hcnt : ss.length + 2 ≤ 2 ^ 16)
    (hini0 : h0.initialized = false)
    (hrun : runSaves (settings_storage_init zeroHandle) (emptyFlash psA psB) ss =
      .ok (h1, fl1))
    (hsave : settings_storage_save h1 fl1 final = .ok (h2, fl2, log)) :
    ∃ h', settings_storage_load h0 (truncFlash fl1 log t) buf =
        some (.ok (h', buf)) ∧
      h'.initialized = true ∧
      settings_storage_load h' (truncFlash fl1 log t) buf =
        some (.ok (h', h'.latest_store.settings)) ∧
      (h'.latest_store.settings = final ∨
       h'.latest_store.settings = ss.getLastD default_settings ∨
        (∃ s, 6 ≤ s ∧ s < STORE_SIZE ∧
          check_store_integrity (tornStore h2.latest_store s) = 1 ∧
          h'.latest_store.settings = (tornStore h2.latest_store s).settings)) := by
  have hA32 : psA < 2 ^ 32 := by omega
  have hB32 : psB < 2 ^ 32 := by omega
  obtain ⟨h1', fl1', hrun', hinv1, hlast⟩ := runSaves_inv psA psB ss 0
    (settings_storage_init zeroHandle) (emptyFlash psA psB)
    (StInv_init psA psB (by omega) (by omega)) hss hA47 hB47 hApad hBpad
    hA32 hB32 (by omega)
  rw [hrun] at hrun'
  obtain ⟨hh1, hfl1⟩ : h1 = h1' ∧ fl1 = fl1' := by simpa using hrun'
  rw [← hh1, ← hfl1] at hinv1
  rw [← hh1] at hlast
  have hsetlast : h1.latest_store.settings = ss.getLastD default_settings := by
    rw [hlast, show (settings_storage_init zeroHandle).latest_store.settings =
      default_settings from rfl]
  by_cases hnoop : h1.latest_store.settings = final
  · have hwn : h1.write_needed = false := by
      obtain ⟨csA, csB, hPA, hPB, hoffA, hoffB, hwn, -⟩ := hinv1
      exact hwn
    have hstep := save_noop h1 fl1 final hnoop hwn
    rw [hstep] at hsave
    obtain ⟨hH, hF, hL⟩ := by simpa using hsave
    subst hF
    subst hL
    rw [truncFlash_nil]
    obtain ⟨h', hload, hlst, hini'⟩ := load_StInv psA psB (0 + ss.length) h1 fl1
      hinv1 hA32 hB32 h0 buf hini0
    exact ⟨h', hload, hini', load_initialized h' fl1 buf hini',
      Or.inl (by rw [hlst]; exact hnoop)⟩
  · have hh2l : h2.latest_store = update_settings_store final h1.latest_store :=
      (save_write_shape h1 fl1 final h2 fl2 log (Or.inl hnoop) hsave).2
    by_cases hpar : (update_settings_store final h1.latest_store).counter % 2 = 1
    · obtain ⟨h', hload, hini', hP⟩ := C1_step_B psA psB (0 + ss.length) h1
        fl1 final h2 fl2 log t h0 buf hini0 hinv1 hfinal hA47 hB47 hAsz hBsz
        hApad hBpad (by omega) hnoop hpar hsave
      refine ⟨h', hload, hini', load_initialized h' _ buf hini', ?_⟩
      rcases hP with h | h | ⟨s, hs6, hs41, hint, hPe⟩
      · exact Or.inl h
      · exact Or.inr (Or.inl (h.trans hsetlast))
      · rw [← hh2l] at hint hPe
        exact Or.inr (Or.inr ⟨s, hs6, hs41, hint, hPe⟩)
    · obtain ⟨h', hload, hini', hP⟩ := C1_step_A psA psB (0 + ss.length) h1
        fl1 final h2 fl2 log t h0 buf hini0 hinv1 hfinal hA47 hB47 hAsz hBsz
        hApad hBpad (by omega) hnoop hpar hsave
      refine ⟨h', hload, hini', load_initialized h' _ buf hini', ?_⟩
      rcases hP with h | h | ⟨s, hs6, hs41, hint, hPe⟩
      · exact Or.inl h
      · exact Or.inr (Or.inl (h.trans hsetlast))
      · rw [← hh2l] at hint hPe
        exact Or.inr (Or.inr ⟨s, hs6, hs41, hint, hPe⟩)

/-- Witness for C1 (amended) at a concrete input: one save of payload
`7,...,7` onto a fresh 47/47-byte store, truncated 3 bytes into the
frame write; the load succeeds leaving the caller's buffer untouched and
caches the compiled-in defaults (the previous state), which the next
load hands out. -/
theorem C1_durability_witness :
    ∃ h2 fl2 log h',
      settings_storage_save (settings_storage_init zeroHandle) (emptyFlash 47 47)
        (List.replicate 31 7) = .ok (h2, fl2, log) ∧
      settings_storage_load zeroHandle (truncFlash (emptyFlash 47 47) log 3)
        (List.replicate 31 0) = some (.ok (h', List.replicate 31 0)) ∧
      h'.initialized = true ∧
      settings_storage_load h' (truncFlash (emptyFlash 47 47) log 3)
        (List.replicate 31 0) = some (.ok (h', h'.latest_store.settings)) ∧
      (h'.latest_store.settings = List.replicate 31 7 ∨
       h'.latest_store.settings = List.getLastD [] default_settings ∨
        (∃ s, 6 ≤ s ∧ s < STORE_SIZE ∧
          check_store_integrity (tornStore h2.latest_store s) = 1 ∧
          h'.latest_store.settings = (tornStore h2.latest_store s).settings)) := by
  have hsome : (settings_storage_save (settings_storage_init zeroHandle)
      (emptyFlash 47 47) (List.replicate 31 7)).toOption.isSome = true := by decide
  cases heq : settings_storage_save (settings_storage_init zeroHandle)
      (emptyFlash 47 47) (List.replicate 31 7) with
  | error e => rw [heq] at hsome; simp [Except.toOption] at hsome
  | ok r =>
    obtain ⟨h2, fl2, log⟩ := r
    obtain ⟨h', hload, hini', hload2, hP⟩ := C1_durability [] (List.replicate 31 7)
      47 47 3 (settings_storage_init zeroHandle) (emptyFlash 47 47) h2 fl2 log
      zeroHandle (List.replicate 31 0)
      (by intro S hS; exact absurd hS (List.not_mem_nil S))
      (by constructor
          · rfl
          · decide)
      (by decide) (by decide) (by decide) (by decide) (by decide) (by decide)
      (by decide) (by decide) rfl heq
    exact ⟨h2, fl2, log, h', rfl, hload, hini', hload2, hP⟩
